import Mathlib

/-!
# checkers-go: session coordinator and rules engine

A shallow embedding of `checkers-server/checkers-server.go` (the session
coordinator) together with the part of the `checkers` package it calls.

* Pointers `*Client` and `*Game` are natural numbers; the `Game` objects live
  in a heap `Nat → Game` with an allocation counter.
* A Go `map` is a partial function (`Games`, which is iterated by `LIST`, is an
  association list with unique keys).
* The per-client channel `Messages` is the list of every message enqueued on
  it, oldest first.
* A runtime panic (index out of range) is the result `none`.
* Whatever the Go runtime chooses (random letters, map iteration order) is read
  from an `Oracle`.
* The `checkers` package and `strconv.ParseInt` are not part of the server
  source: the server is embedded over an arbitrary `Env` that supplies them.
-/

namespace checkers

/-- Modelled from the spec: the type `checkers.Player` (declared in the
`checkers` package, of which only the tests are available).  "Player. One of
BLACK, RED, NONE."  The Go zero value `Player{}` has the empty colour, so it is
neither BLACK nor RED and is identified with `NO_PLAYER`. -/
inductive Player where
  | NO_PLAYER : Player
  | BLACK_PLAYER : Player
  | RED_PLAYER : Player
deriving DecidableEq, Repr, Fintype

open Player

/-- Modelled from the spec: the field `Player.Color`: "Each non-NONE player has
a textual color name (black / red)"; the zero value has the empty string. -/
def Player.Color : Player → String
  | NO_PLAYER => ""
  | BLACK_PLAYER => "black"
  | RED_PLAYER => "red"

/-- Modelled from the spec: the table `checkers.Players` ranged over by
`OpenSeats`; the two seats, BLACK before RED. -/
def Players : List Player := [BLACK_PLAYER, RED_PLAYER]

/-- Every value of type `Player` (the possible keys of a seat map). -/
def allPlayers : List Player := [NO_PLAYER, BLACK_PLAYER, RED_PLAYER]

/-- The struct `checkers.Pos` with fields `X`, `Y` (as used by the tests). -/
structure Pos where
  X : Int
  Y : Int
deriving DecidableEq, Repr

/-- Modelled from the spec: the sentinel `checkers.NO_POS` ("a sentinel no
position value"), a position off the board. -/
def NO_POS : Pos := ⟨-1, -1⟩

/-- The struct `checkers.Piece` with fields `Player`, `King`. -/
structure Piece where
  Player : checkers.Player
  King : Bool
deriving DecidableEq, Repr

/-- The Go zero value `Piece{}` (what a map lookup of an absent key returns). -/
def Piece.zero : Piece := ⟨NO_PLAYER, false⟩

/-- The struct `checkers.Game` with fields `Pieces` (a map from `Pos` to
`Piece`) and `Turn`. -/
structure Game where
  Pieces : Pos → Option Piece
  Turn : Player

/-- The Go expression `game.Pieces[pos]`: the zero `Piece` when the key is absent. -/
def Game.pieceOrZero (g : Game) (pos : Pos) : Piece := (g.Pieces pos).getD Piece.zero

/-- The result of `game.Move(src, dst)`: the game after the call, the capture
position and the error (`none` for `nil`). -/
structure MoveResult where
  game : Game
  cap : Pos
  err : Option String

/-- Modelled from the spec: a position is usable iff it is on the 8 x 8 board
and `x + y` is odd (the table `checkers.Usable` of the missing package). -/
def usable (p : Pos) : Bool :=
  decide (0 ≤ p.X) && decide (p.X < 8) && decide (0 ≤ p.Y) && decide (p.Y < 8)
    && decide ((p.X + p.Y) % 2 = 1)

/-- Modelled from the spec: the forward direction of a player (missing field
of `Player`): BLACK advances in the +y direction, RED in the -y direction. -/
def Player.Direction : Player → Int
  | NO_PLAYER => 0
  | BLACK_PLAYER => 1
  | RED_PLAYER => -1

/-- Modelled from the spec: the opponent of a player. -/
def opponent : Player → Player
  | NO_PLAYER => NO_PLAYER
  | BLACK_PLAYER => RED_PLAYER
  | RED_PLAYER => BLACK_PLAYER

/-- Modelled from the spec: the back rank on which a player's man is crowned
(missing from the sources): BLACK at y = 7, RED at y = 0. -/
def onBackRank (p : Player) (pos : Pos) : Bool :=
  match p with
  | NO_PLAYER => false
  | BLACK_PLAYER => decide (pos.Y = 7)
  | RED_PLAYER => decide (pos.Y = 0)

/-- Modelled from the spec: "A man may step or jump only in its owner's
forward direction. A king may step or jump in all four diagonals." -/
def directionAllowed (piece : Piece) (dy : Int) : Bool :=
  piece.King || decide (0 < dy * piece.Player.Direction)

/-- Modelled from the spec: the missing method `Game.ValidMove`: a piece
exists at `src`, `dst` is usable and empty, `dst - src` is a unit diagonal,
and the direction is allowed by the piece. -/
def Game.ValidMove (g : Game) (src dst : Pos) : Bool :=
  match g.Pieces src with
  | none => false
  | some piece =>
    usable dst && (g.Pieces dst).isNone
      && decide ((dst.X - src.X).natAbs = 1) && decide ((dst.Y - src.Y).natAbs = 1)
      && directionAllowed piece (dst.Y - src.Y)

/-- Modelled from the spec: the missing function `Capture`: the midpoint of a jump. -/
def Capture (src dst : Pos) : Pos := ⟨(src.X + dst.X) / 2, (src.Y + dst.Y) / 2⟩

/-- Modelled from the spec: the missing method `Game.ValidJump`: a piece exists
at `src`, `dst` is usable and empty, `dst - src` is a diagonal of length 2, the
midpoint holds an opponent piece, and the direction is allowed by the piece. -/
def Game.ValidJump (g : Game) (src dst : Pos) : Bool :=
  match g.Pieces src with
  | none => false
  | some piece =>
    usable dst && (g.Pieces dst).isNone
      && decide ((dst.X - src.X).natAbs = 2) && decide ((dst.Y - src.Y).natAbs = 2)
      && (match g.Pieces (Capture src dst) with
          | none => false
          | some mid => decide (mid.Player = opponent piece.Player))
      && directionAllowed piece (dst.Y - src.Y)

/-- The four diagonal directions. -/
def diagonals : List (Int × Int) := [(1, 1), (1, -1), (-1, 1), (-1, -1)]

/-- Modelled from the spec: the missing method `Game.jumpPossibleFrom`: a jump
is available from `src`. -/
def Game.jumpPossibleFrom (g : Game) (src : Pos) : Bool :=
  diagonals.any (fun d => g.ValidJump src ⟨src.X + 2 * d.1, src.Y + 2 * d.2⟩)

/-- Modelled from the spec: the missing method `Game.movePossibleFrom`: a step
is available from `src`. -/
def Game.movePossibleFrom (g : Game) (src : Pos) : Bool :=
  diagonals.any (fun d => g.ValidMove src ⟨src.X + d.1, src.Y + d.2⟩)

/-- The coordinates from which a step or a jump can reach the board. -/
def coordRange : List Int := [-2, -1, 0, 1, 2, 3, 4, 5, 6, 7, 8, 9]

/-- Every position from which a step or a jump can end on a usable square. -/
def sourceRegion : List Pos :=
  coordRange.foldr (fun y acc => coordRange.map (fun x => (⟨x, y⟩ : Pos)) ++ acc) []

/-- Modelled from the spec: "any piece of the side-to-move has a jump
available anywhere on the board". -/
def Game.jumpAvailable (g : Game) (p : Player) : Bool :=
  sourceRegion.any (fun src =>
    (match g.Pieces src with
     | none => false
     | some piece => decide (piece.Player = p)) && g.jumpPossibleFrom src)

/-- Modelled from the spec: the missing method `Game.playerHasMove`: the player
has a legal move, a step or a jump. -/
def Game.playerHasMove (g : Game) (p : Player) : Bool :=
  sourceRegion.any (fun src =>
    (match g.Pieces src with
     | none => false
     | some piece => decide (piece.Player = p))
      && (g.movePossibleFrom src || g.jumpPossibleFrom src))

/-- The squares of the board, row `y = 0` first. -/
def boardPositions : List Pos :=
  (List.range 8).foldr
    (fun y acc => (List.range 8).map (fun x => (⟨(x : Int), (y : Int)⟩ : Pos)) ++ acc) []

/-- The player has a piece on the board. -/
def Game.hasPieces (g : Game) (p : Player) : Bool :=
  boardPositions.any (fun pos =>
    match g.Pieces pos with
    | none => false
    | some piece => decide (piece.Player = p))

/-- The pieces after the piece `piece` went from `src` to `dst`, the captured
square `cap` (if any) was emptied, and the piece was crowned when `crown`. -/
def movedPieces (g : Game) (src dst : Pos) (piece : Piece) (cap : Option Pos) (crown : Bool) :
    Pos → Option Piece :=
  let moved := Function.update (Function.update g.Pieces src none) dst (some piece)
  let captured := match cap with
    | none => moved
    | some c => Function.update moved c none
  if crown then Function.update captured dst (some { piece with King := true }) else captured

/-- Modelled from the spec: steps 1 to 4 of a successful `Move`: move the
piece, remove the captured piece of a jump, crown a man that reached its
owner's back rank, and update the turn: it stays with the mover iff the move
was a jump, another jump is available from the new position, and the piece was
not promoted on this move; otherwise it passes to the opponent. -/
def applyMove (g : Game) (src dst : Pos) (piece : Piece) (isJump : Bool) : MoveResult :=
  let promoted := onBackRank piece.Player dst && !piece.King
  let pieces := movedPieces g src dst piece (if isJump then some (Capture src dst) else none) promoted
  let g1 : Game := { g with Pieces := pieces }
  let stays := isJump && g1.jumpPossibleFrom dst && !promoted
  { game := { g1 with Turn := if stays then g.Turn else opponent g.Turn },
    cap := if isJump then Capture src dst else NO_POS,
    err := none }

/-- Modelled from the spec: the missing method `Game.Move`.  Preconditions:
the turn owns the piece at `src`; `ValidJump(src, dst)` when any jump is
available, `ValidMove(src, dst)` when no jump is available.  A rejected move
returns an error and `NO_POS` and does not alter the game. -/
def Game.Move (g : Game) (src dst : Pos) : MoveResult :=
  match g.Pieces src with
  | none => ⟨g, NO_POS, some "no piece at source"⟩
  | some piece =>
    if piece.Player ≠ g.Turn then ⟨g, NO_POS, some "not your piece"⟩
    else if g.jumpAvailable g.Turn then
      if g.ValidJump src dst then applyMove g src dst piece true
      else ⟨g, NO_POS, some "jump required"⟩
    else if g.ValidMove src dst then applyMove g src dst piece false
    else ⟨g, NO_POS, some "illegal move"⟩

/-- Modelled from the spec: the missing method `Game.Winner`: the player who
has pieces while the opponent has none, or the player whose opponent has no
legal move when it is the opponent's turn; otherwise NONE; an empty board has
no winner. -/
def Game.Winner (g : Game) : Player :=
  if g.hasPieces BLACK_PLAYER && !g.hasPieces RED_PLAYER then BLACK_PLAYER
  else if g.hasPieces RED_PLAYER && !g.hasPieces BLACK_PLAYER then RED_PLAYER
  else if !g.hasPieces BLACK_PLAYER && !g.hasPieces RED_PLAYER then NO_PLAYER
  else if decide (g.Turn = RED_PLAYER) && !g.playerHasMove RED_PLAYER then BLACK_PLAYER
  else if decide (g.Turn = BLACK_PLAYER) && !g.playerHasMove BLACK_PLAYER then RED_PLAYER
  else NO_PLAYER

/-- Modelled from the spec: the missing method `Game.TurnIs`. -/
def Game.TurnIs (g : Game) (p : Player) : Bool := decide (g.Turn = p)

/-- Modelled from the spec: the missing function `New`: BLACK men on the usable
squares of rows 0 to 2, RED men on those of rows 5 to 7, BLACK to move. -/
def New : Game :=
  { Pieces := fun pos =>
      if usable pos then
        if pos.Y < 3 then some ⟨BLACK_PLAYER, false⟩
        else if 5 ≤ pos.Y then some ⟨RED_PLAYER, false⟩
        else none
      else none,
    Turn := BLACK_PLAYER }

/-- Modelled from the spec: the character of a square in the board encoding. -/
def squareChar (g : Game) (pos : Pos) : Char :=
  if usable pos then
    match g.Pieces pos with
    | some ⟨BLACK_PLAYER, false⟩ => 'b'
    | some ⟨BLACK_PLAYER, true⟩ => 'B'
    | some ⟨RED_PLAYER, false⟩ => 'r'
    | some ⟨RED_PLAYER, true⟩ => 'R'
    | _ => '*'
  else '*'

/-- Modelled from the spec: the missing method `Game.String`: 8 rows separated
by a bar, row `y = 0` first, 8 columns `x = 0..7` in each. -/
def Game.String (g : Game) : String :=
  String.mk (List.intercalate ['|']
    ((List.range 8).map (fun y => (List.range 8).map (fun x => squareChar g ⟨(x : Int), (y : Int)⟩))))

/-- The board that holds exactly the listed pieces. -/
def boardOf (l : List (Pos × Piece)) : Pos → Option Piece :=
  fun pos => (l.find? (fun e => decide (e.1 = pos))).map (fun e => e.2)

/-- The position of `TestMustJump`: black men at (1,2) and (3,2), a red man
at (4,3), BLACK to move. -/
def mustJumpGame : Game :=
  { Pieces := boardOf [(⟨1, 2⟩, ⟨BLACK_PLAYER, false⟩), (⟨3, 2⟩, ⟨BLACK_PLAYER, false⟩),
      (⟨4, 3⟩, ⟨RED_PLAYER, false⟩)],
    Turn := BLACK_PLAYER }

/-- The position of `TestUpdateTurnNoKingJumpContinuation`: red men at (3,6)
and (1,6), a black man at (4,5), BLACK to move. -/
def newKingGame : Game :=
  { Pieces := boardOf [(⟨3, 6⟩, ⟨RED_PLAYER, false⟩), (⟨1, 6⟩, ⟨RED_PLAYER, false⟩),
      (⟨4, 5⟩, ⟨BLACK_PLAYER, false⟩)],
    Turn := BLACK_PLAYER }

/-- The position of `TestUpdateTurnKingJumpContinuation`: red men at (3,6),
(1,6) and (7,6), a black king at (4,5), BLACK to move. -/
def oldKingGame : Game :=
  { Pieces := boardOf [(⟨3, 6⟩, ⟨RED_PLAYER, false⟩), (⟨1, 6⟩, ⟨RED_PLAYER, false⟩),
      (⟨7, 6⟩, ⟨RED_PLAYER, false⟩), (⟨4, 5⟩, ⟨BLACK_PLAYER, true⟩)],
    Turn := BLACK_PLAYER }

/-- The position set up by `TestUpdateTurnNoMove`: a black man at (0,3), red
men at (0,5) and (2,5), RED to move. -/
def noMoveGame : Game :=
  { Pieces := boardOf [(⟨0, 3⟩, ⟨BLACK_PLAYER, false⟩), (⟨0, 5⟩, ⟨RED_PLAYER, false⟩),
      (⟨2, 5⟩, ⟨RED_PLAYER, false⟩)],
    Turn := RED_PLAYER }

/-- The test `TestUpdateTurnNoMove` of `checkers_test.go`, run on the `Move`
modelled from the spec: after RED moved (0,5) to (1,4) the test expects the
turn to be RED, after the next `Move`, (1,4) to (2,3), it expects BLACK. -/
def TestUpdateTurnNoMove : Bool :=
  let game1 := (noMoveGame.Move ⟨0, 5⟩ ⟨1, 4⟩).game
  let game2 := (game1.Move ⟨1, 4⟩ ⟨2, 3⟩).game
  decide (game1.Turn = RED_PLAYER) && decide (game2.Turn = BLACK_PLAYER)

/-- Put a character in front of the first row. -/
def consRow (c : Char) : List (List Char) → List (List Char)
  | [] => [[c]]
  | r :: rs => (c :: r) :: rs

/-- The rows of a board encoding: the text between the bars. -/
def splitBars : List Char → List (List Char)
  | [] => [[]]
  | c :: cs => if c = '|' then [] :: splitBars cs else consRow c (splitBars cs)

/-- Modelled from the spec: the piece a character of the encoding stands for
(`b`/`B` BLACK man/king, `r`/`R` RED man/king), none for an empty square. -/
def pieceOfChar (c : Char) : Option Piece :=
  if c = 'b' then some ⟨BLACK_PLAYER, false⟩
  else if c = 'B' then some ⟨BLACK_PLAYER, true⟩
  else if c = 'r' then some ⟨RED_PLAYER, false⟩
  else if c = 'R' then some ⟨RED_PLAYER, true⟩
  else none

/-- Modelled from the spec: a character is accepted at a square when it is in
the alphabet and places no piece on a non-usable square. -/
def validSquare (c : Char) (pos : Pos) : Bool :=
  decide (c = '*')
    || ((decide (c = 'b') || decide (c = 'B') || decide (c = 'r') || decide (c = 'R'))
        && usable pos)

/-- The character of column `x` in row `y`. -/
def charAt (rows : List (List Char)) (x y : Nat) : Char := (rows.getD y []).getD x '*'

/-- Modelled from the spec: the missing function `Parse`, the inverse of the
encoding; "it fails if row count, row width, character alphabet, or placement
on a non-usable square is wrong" (`none`).  The spec does not say whose turn
it is in the parsed game; it is BLACK's here, as in a new game. -/
def Parse (s : String) : Option Game :=
  let rows := splitBars s.toList
  if rows.length = 8 ∧ (rows.all (fun r => decide (r.length = 8))) = true
      ∧ ((List.range 8).all (fun y => (List.range 8).all (fun x =>
            validSquare (charAt rows x y) ⟨(x : Int), (y : Int)⟩))) = true then
    some
      { Pieces := fun pos =>
          if 0 ≤ pos.X ∧ pos.X < 8 ∧ 0 ≤ pos.Y ∧ pos.Y < 8 then
            pieceOfChar (charAt rows pos.X.toNat pos.Y.toNat)
          else none,
        Turn := BLACK_PLAYER }
  else none

/-- Every piece stands on a usable square and belongs to BLACK or RED. -/
def Game.wellPlaced (g : Game) : Prop :=
  ∀ pos piece, g.Pieces pos = some piece → usable pos = true ∧ piece.Player ≠ NO_PLAYER

/-- The rows of characters that `Game.String` joins with bars. -/
def Game.rows (g : Game) : List (List Char) :=
  (List.range 8).map (fun y => (List.range 8).map (fun x => squareChar g ⟨(x : Int), (y : Int)⟩))

/-- The value of a decimal digit. -/
def digitValue (c : Char) : Option Nat :=
  if '0' ≤ c ∧ c ≤ '9' then some (c.toNat - '0'.toNat) else none

/-- The number written by a list of decimal digits, after the digits `acc`. -/
def parseDigits : List Char → Nat → Option Nat
  | [], acc => some acc
  | c :: cs, acc => (digitValue c).bind (fun d => parseDigits cs (10 * acc + d))

/-- A stand-in for `strconv.ParseInt(val, 0, 0)` on plain decimal literals
with an optional sign; every other text is a syntax error. -/
def parseDecimal (val : String) : Except String Int :=
  let bad : Except String Int := .error ("strconv.ParseInt: parsing \"" ++ val ++ "\": invalid syntax")
  match val.toList with
  | [] => bad
  | '-' :: c :: cs => match parseDigits (c :: cs) 0 with
    | some n => .ok (-(n : Int))
    | none => bad
  | '+' :: c :: cs => match parseDigits (c :: cs) 0 with
    | some n => .ok (n : Int)
    | none => bad
  | cs => match parseDigits cs 0 with
    | some n => .ok (n : Int)
    | none => bad

end checkers

namespace Server

open checkers checkers.Player

/-- A `*Client`: the identity of a client session. -/
abbrev Client := Nat

/-- What the server uses and its source does not contain: `strconv.ParseInt(val, 0, 0)`
and the methods of `*checkers.Game`. -/
structure Env where
  ParseInt : String → Except String Int
  New : checkers.Game
  Move : checkers.Game → Pos → Pos → checkers.MoveResult
  Winner : checkers.Game → Player
  TurnIs : checkers.Game → Player → Bool
  String : checkers.Game → String

/-- The struct `Game` of the server: id, seat map, spectator slice (its
capacity is 8 throughout: `make([]*Client, 0, 8)`, and the slice only grows by
`append` below capacity and shrinks by reslicing), rules-engine state. -/
structure Game where
  Id : String
  Players : Player → Option Client
  Spectators : List Client
  GameState : checkers.Game

/-- The capacity `cap(game.Spectators)`. -/
def spectatorsCap : Nat := 8

/-- The package-level tables `Games`, `Players`, `Spectators`, the heap of
`Game` objects they point into, and the outbound queue of every client. -/
structure State where
  heap : Nat → Game
  next : Nat
  Games : List (String × Nat)
  Players : Client → Option Nat
  Spectators : Client → Option Nat
  Messages : Client → List String

/-- Choices made by the Go runtime while one command is handled. -/
structure Oracle where
  rand : List Nat
  gamesOrder : List String
  seatOrder : List Player

/-- The struct `ClientMessage`. -/
structure ClientMessage where
  Client : Client
  Cmd : String
  CmdArgs : List String

/-- The order in which `range` visits the keys `keys` of a map: the keys named
by the runtime's choice `ord` first, in that order, then the remaining ones. -/
def rangeOrder {α : Type} [DecidableEq α] (ord keys : List α) : List α :=
  (ord.dedup.filter (fun k => decide (k ∈ keys))) ++ keys.filter (fun k => decide (k ∉ ord))

/-- The value `Games[id]`. -/
def gamesGet (m : List (String × Nat)) (id : String) : Option Nat :=
  (m.find? (fun e => e.1 == id)).map (fun e => e.2)

/-- The assignment `Games[id] = game`. -/
def gamesSet (m : List (String × Nat)) (id : String) (g : Nat) : List (String × Nat) :=
  m.filter (fun e => e.1 != id) ++ [(id, g)]

/-- An empty `Game` object (the content of a heap cell not yet allocated). -/
def emptyGame (E : Env) : Game := ⟨"", fun _ => none, [], E.New⟩

/-- The state at start-up: empty tables, no message enqueued. -/
def State.empty (E : Env) : State :=
  ⟨fun _ => emptyGame E, 0, [], fun _ => none, fun _ => none, fun _ => []⟩

/-- The statement `client.Messages <- message`. -/
def send (client : Client) (message : String) (s : State) : State :=
  { s with Messages := Function.update s.Messages client (s.Messages client ++ [message]) }

/-- Store a `Game` object at a heap address. -/
def State.setGame (s : State) (gp : Nat) (g : Game) : State :=
  { s with heap := Function.update s.heap gp g }

/-- The length `len(game.Players)` of the seat map. -/
def Game.seatCount (game : Game) : Nat :=
  (allPlayers.filter (fun p => (game.Players p).isSome)).length

/-- One iteration of the loop of `OpenSeats` (the index `i` stays 0). -/
def openSeatsStep (game : Game) (openSeats : Option (List Player)) (player : Player) :
    Option (List Player) :=
  match openSeats with
  | none => none
  | some acc =>
    if (game.Players player).isSome then some acc
    else if 0 < acc.length then some (acc.set 0 player) else none

/-- The method `Game.OpenSeats`; `none` when it panics. -/
def Game.OpenSeats (game : Game) : Option (List Player) :=
  if checkers.Players.length < game.seatCount then none
  else
    checkers.Players.foldl (openSeatsStep game)
      (some (List.replicate (checkers.Players.length - game.seatCount) NO_PLAYER))

/-- The method `Game.SeatsFilled`. -/
def Game.SeatsFilled (game : Game) : Option Bool :=
  game.OpenSeats.map (fun l => decide (l.length = 0))

/-- The method `Game.TurnIs`. -/
def Game.TurnIs (E : Env) (game : Game) (client : Client) : Bool :=
  allPlayers.any (fun p => decide (game.Players p = some client) && E.TurnIs game.GameState p)

/-- The method `Game.HasWinner`. -/
def Game.HasWinner (E : Env) (game : Game) : Bool :=
  decide (E.Winner game.GameState ≠ NO_PLAYER)

/-- The method `Game.Winner`. -/
def Game.Winner (E : Env) (game : Game) : String :=
  (E.Winner game.GameState).Color

/-- The clients `Broadcast` sends to, once for every seat and spectator entry
they occupy and are not excluded from. -/
def Game.recipients (game : Game) (excluded : List Client) : List Client :=
  (allPlayers.filterMap game.Players ++ game.Spectators).filter (fun c => decide (c ∉ excluded))

/-- The method `Game.Broadcast`. -/
def Game.Broadcast (game : Game) (message : String) (excluded : List Client) (s : State) : State :=
  (game.recipients excluded).foldl (fun st c => send c message st) s

/-- The variable `letters`. -/
def letters : List Char := "abcdefghijklmnopqrstuvwxyzABCDEFGHIJKLMNOPQRSTUVWXYZ".toList

/-- The function `generateGameId`; the i-th call of `rand.Intn(len(letters))`
returns the i-th number of `rand` reduced into range. -/
def generateGameId (rand : List Nat) (idLength : Nat) : String :=
  String.mk ((List.range idLength).map
    (fun i => letters.getD ((rand.getD i 0) % letters.length) 'a'))

/-- The function `NewGame`. -/
def NewGame (E : Env) (o : Oracle) : Game :=
  ⟨generateGameId o.rand 16, fun _ => none, [], E.New⟩

/-- The method `Game.NeedsPlayer`. -/
def Game.NeedsPlayer (E : Env) (game : Game) : Option Bool :=
  game.SeatsFilled.map (fun f => !f && !game.HasWinner E)

/-- The method `Game.CanSpectate`. -/
def Game.CanSpectate (E : Env) (game : Game) : Option Bool :=
  game.SeatsFilled.map
    (fun f => f && !game.HasWinner E && decide (game.Spectators.length < spectatorsCap))

/-- The method `Game.IsSpectator`. -/
def Game.IsSpectator (game : Game) (client : Client) : Bool :=
  game.Spectators.any (fun spectator => decide (spectator = client))

/-- The method `Game.Turn`. -/
def Game.Turn (game : Game) : Option String :=
  game.SeatsFilled.map (fun f => if f then game.GameState.Turn.Color else "waiting")

/-- The method `Client.IsSpectator`. -/
def IsSpectator (s : State) (client : Client) : Bool := (s.Spectators client).isSome

/-- The method `Client.IsPlayer`. -/
def IsPlayer (s : State) (client : Client) : Bool := (s.Players client).isSome

/-- The method `Client.IsInGame`. -/
def IsInGame (s : State) (client : Client) : Bool := IsSpectator s client || IsPlayer s client

/-- The loop `for i, c := range game.Spectators` of `leaveGame`, over the
indices still to visit: `arr` is the backing array of the slice (its cells
below the length the slice had when the loop started), `len` the current
`len(game.Spectators)`.  `none` is an index out of range. -/
def removeSpectatorLoop (client : Client) : List Nat → List Client → Nat → Option (List Client × Nat)
  | [], arr, len => some (arr, len)
  | i :: rest, arr, len =>
    match arr[i]? with
    | none => none
    | some c =>
      if c = client then
        let finalIndex := len - 1
        if 0 < len ∧ i < len then
          match arr[finalIndex]? with
          | none => none
          | some v => removeSpectatorLoop client rest ((arr.set i v).set finalIndex c) finalIndex
        else none
      else removeSpectatorLoop client rest arr len

/-- The spectator slice after the removal loop of `leaveGame`. -/
def removeSpectator (client : Client) (spectators : List Client) : Option (List Client) :=
  (removeSpectatorLoop client (List.range spectators.length) spectators spectators.length).map
    (fun r => r.1.take r.2)

/-- The keys of the seat map in the order `range game.Players` visits them. -/
def Game.seatRange (o : Oracle) (game : Game) : List Player :=
  rangeOrder o.seatOrder (allPlayers.filter (fun p => (game.Players p).isSome))

/-- The function `leaveGame`. -/
def leaveGame (o : Oracle) (client : Client) (args : List String) (s : State) :
    Option (Option String × State) :=
  if args.length > 0 then some (some "unsupported arguments", s)
  else
    match s.Players client with
    | some gp =>
      let s1 : State := { s with Players := Function.update s.Players client none }
      let game := s1.heap gp
      match (game.seatRange o).find? (fun p => decide (game.Players p = some client)) with
      | some p =>
        let game1 : Game := { game with Players := Function.update game.Players p none }
        let s2 := s1.setGame gp game1
        let s3 := game1.Broadcast ("STATUS LEFT " ++ p.Color) [] s2
        game1.Turn.map (fun t => (none, game1.Broadcast ("STATUS TURN " ++ t) [] s3))
      | none => some (some "failed to locate player in game", s1)
    | none =>
      match s.Spectators client with
      | some gp =>
        let s1 : State := { s with Spectators := Function.update s.Spectators client none }
        let game := s1.heap gp
        (removeSpectator client game.Spectators).map
          (fun l => (none, s1.setGame gp { game with Spectators := l }))
      | none => some (some "not in game", s)

/-- The statement `if client.IsInGame() { leaveGame(client) }` of `joinGame`
and `spectateGame` (the error of `leaveGame` is dropped). -/
def leaveIfInGame (o : Oracle) (client : Client) (s : State) : Option State :=
  if IsInGame s client then (leaveGame o client [] s).map (fun r => r.2) else some s

/-- The function `joinGame`. -/
def joinGame (E : Env) (o : Oracle) (client : Client) (args : List String) (s : State) :
    Option (Option String × State) :=
  match args with
  | [gameId] =>
    match gamesGet s.Games gameId with
    | some gp =>
      (s.heap gp).SeatsFilled.bind fun filled =>
      if filled then some (some "game is full", s)
      else
        (s.heap gp).OpenSeats.bind fun seats =>
        seats[0]?.bind fun assignedPlayer =>
        (leaveIfInGame o client s).bind fun s1 =>
        let game : Game :=
          { s1.heap gp with Players := Function.update (s1.heap gp).Players assignedPlayer (some client) }
        let s2 : State :=
          { s1.setGame gp game with Players := Function.update s1.Players client (some gp) }
        let s3 := send client ("STATUS GAME_ID " ++ gameId) s2
        let s4 := send client ("STATUS BOARD " ++ E.String game.GameState) s3
        let s5 := send client ("STATUS YOU_ARE " ++ assignedPlayer.Color) s4
        let s6 := game.Broadcast ("STATUS JOINED " ++ assignedPlayer.Color) [client] s5
        game.Turn.map (fun t => (none, game.Broadcast ("STATUS TURN " ++ t) [] s6))
    | none => some (some ("game " ++ gameId ++ " does not exist"), s)
  | _ => some (some "expected single game id", s)

/-- The function `spectateGame`. -/
def spectateGame (E : Env) (o : Oracle) (client : Client) (args : List String) (s : State) :
    Option (Option String × State) :=
  match args with
  | [gameId] =>
    match gamesGet s.Games gameId with
    | some gp =>
      ((s.heap gp).CanSpectate E).bind fun can =>
      if !can then some (some "game is not available for spectating", s)
      else
        (leaveIfInGame o client s).bind fun s1 =>
        let game : Game := { s1.heap gp with Spectators := (s1.heap gp).Spectators ++ [client] }
        let s2 : State :=
          { s1.setGame gp game with Spectators := Function.update s1.Spectators client (some gp) }
        let s3 := send client ("STATUS GAME_ID " ++ gameId) s2
        let s4 := send client ("STATUS BOARD " ++ E.String game.GameState) s3
        game.Turn.map (fun t => (none, send client ("STATUS TURN " ++ t) s4))
    | none => some (some ("game " ++ gameId ++ " does not exist"), s)
  | _ => some (some "expected single game id", s)

/-- The function `newGame`. -/
def newGame (E : Env) (o : Oracle) (client : Client) (args : List String) (s : State) :
    Option (Option String × State) :=
  if args.length > 0 then some (some "unsupported arguments", s)
  else if (s.Players client).isSome then some (some "already in game", s)
  else
    let game := NewGame E o
    let s1 : State :=
      { s with heap := Function.update s.heap s.next game, next := s.next + 1,
               Games := gamesSet s.Games game.Id s.next }
    joinGame E o client [game.Id] s1

/-- The condition of the loop of `listGames`, with the short-circuit
evaluation of `&&` and `||`. -/
def listCond (E : Env) (spectate : Bool) (client : Client) (s : State) (gp : Nat) : Option Bool :=
  if spectate then
    ((s.heap gp).CanSpectate E).map (fun can => can && !(s.heap gp).IsSpectator client)
  else if s.Players client ≠ some gp then (s.heap gp).NeedsPlayer E
  else some false

/-- One iteration of the loop of `listGames` on the buffer `gameIds`. -/
def listStep (E : Env) (spectate : Bool) (client : Client) (s : State)
    (gameIds : Option String) (gameId : String) : Option String :=
  gameIds.bind fun buf =>
  match gamesGet s.Games gameId with
  | none => some buf
  | some gp =>
    (listCond E spectate client s gp).map fun c =>
      if c then (if buf.length > 0 then buf ++ " " else buf) ++ gameId else buf

/-- The function `listGames`. -/
def listGames (E : Env) (o : Oracle) (client : Client) (args : List String) (s : State) :
    Option (Option String × State) :=
  let spectate := decide (args = ["SPECTATE"])
  if !spectate && decide (args.length > 0) then some (some "unsupported arguments", s)
  else
    ((rangeOrder o.gamesOrder (s.Games.map Prod.fst)).foldl
        (listStep E spectate client s) (some "")).map fun gameIds =>
      if spectate then (none, send client ("STATUS LIST SPECTATE " ++ gameIds) s)
      else (none, send client ("STATUS LIST " ++ gameIds) s)

/-- The function `quit`. -/
def quit (o : Oracle) (client : Client) (args : List String) (s : State) :
    Option (Option String × State) :=
  if args.length > 0 then some (some "unsupported arguments", s)
  else if IsInGame s client then leaveGame o client [] s
  else some (none, s)

/-- The function `createPos`. -/
def createPos (E : Env) (coords : List String) : Except String (Pos × Pos) :=
  if coords.length ≠ 4 then .error "invalid positions, expected SRCX SRCY DSTX DSTY"
  else
    match coords.mapM E.ParseInt with
    | .error badVal => .error badVal
    | .ok converted =>
      .ok (⟨converted.getD 0 0, converted.getD 1 0⟩, ⟨converted.getD 2 0, converted.getD 3 0⟩)

/-- The text `fmt.Sprintf` with the verb v prints for an `int`. -/
def fmtInt (n : Int) : String := toString n

/-- The function `move`. -/
def move (E : Env) (client : Client) (args : List String) (s : State) :
    Option (Option String × State) :=
  match s.Players client with
  | some gp =>
    match createPos E args with
    | .error posErr => some (some posErr, s)
    | .ok (src, dst) =>
      if (s.heap gp).TurnIs E client then
        let wasKing := ((s.heap gp).GameState.pieceOrZero src).King
        let r := E.Move (s.heap gp).GameState src dst
        let game : Game := { s.heap gp with GameState := r.game }
        let s1 := s.setGame gp game
        match r.err with
        | some mvErr => some (some mvErr, s1)
        | none =>
          let s2 := game.Broadcast
            ("STATUS MOVED " ++ fmtInt src.X ++ " " ++ fmtInt src.Y ++ " " ++ fmtInt dst.X ++ " "
              ++ fmtInt dst.Y) [] s1
          let s3 := if r.cap ≠ NO_POS then
              game.Broadcast ("STATUS CAPTURED " ++ fmtInt r.cap.X ++ " " ++ fmtInt r.cap.Y) [] s2
            else s2
          let s4 := if !wasKing && (game.GameState.pieceOrZero dst).King then
              game.Broadcast ("STATUS KING " ++ fmtInt dst.X ++ " " ++ fmtInt dst.Y) [] s3
            else s3
          let s5 := if game.HasWinner E then
              game.Broadcast ("STATUS WINNER " ++ game.Winner E) [] s4
            else s4
          game.Turn.map (fun t => (none, game.Broadcast ("STATUS TURN " ++ t) [] s5))
      else some (some "not your turn", s)
  | none => some (some "not playing game", s)

/-- The function `boardStatus`. -/
def boardStatus (E : Env) (client : Client) (args : List String) (s : State) :
    Option (Option String × State) :=
  if args.length > 0 then some (some "unsupported arguments", s)
  else
    match s.Players client with
    | some gp => some (none, send client ("STATUS BOARD " ++ E.String (s.heap gp).GameState) s)
    | none => some (some "not playing game", s)

/-- The function `turnStatus`. -/
def turnStatus (client : Client) (args : List String) (s : State) :
    Option (Option String × State) :=
  if args.length > 0 then some (some "unsupported argments", s)
  else
    match s.Players client with
    | some gp => (s.heap gp).Turn.map (fun t => (none, send client ("STATUS TURN " ++ t) s))
    | none => some (some "not playing game", s)

/-- The type `Command`, with the runtime's choices as an extra argument. -/
abbrev Command := Oracle → Client → List String → State → Option (Option String × State)

/-- The table `supportedCommands`. -/
def supportedCommands (E : Env) (cmd : String) : Option Command :=
  if cmd = "NEW" then some (newGame E)
  else if cmd = "LIST" then some (listGames E)
  else if cmd = "JOIN" then some (joinGame E)
  else if cmd = "LEAVE" then some leaveGame
  else if cmd = "MOVE" then some (fun _ => move E)
  else if cmd = "BOARD" then some (fun _ => boardStatus E)
  else if cmd = "TURN" then some (fun _ => turnStatus)
  else if cmd = "SPECTATE" then some (spectateGame E)
  else if cmd = "QUIT" then some quit
  else none

/-- The function `serviceMessage`. -/
def serviceMessage (E : Env) (o : Oracle) (message : ClientMessage) (s : State) :
    Option (Option String × State) :=
  match supportedCommands E message.Cmd with
  | some executor => executor o message.Client message.CmdArgs s
  | none => some (some "invalid command", s)

/-- The body of the loop of `serviceMessages`: handle one message, then
acknowledge it on the submitting client's queue. -/
def serviceMessages (E : Env) (o : Oracle) (message : ClientMessage) (s : State) : Option State :=
  (serviceMessage E o message s).map fun r =>
    match r.1 with
    | some err => send message.Client ("ERROR " ++ err) r.2
    | none => send message.Client "OK" r.2

/-- Handle a sequence of messages in arrival order, from the state `s`. -/
def runMessages (E : Env) : List (Oracle × ClientMessage) → State → Option State
  | [], s => some s
  | (o, m) :: rest, s => (serviceMessages E o m s).bind (runMessages E rest)

/-- The states the coordinator can be in: reached from the empty tables by
handling messages, none of which panicked. -/
inductive Reachable (E : Env) : State → Prop
  | init : Reachable E (State.empty E)
  | step {s s1 : State} (o : Oracle) (m : ClientMessage) :
      Reachable E s → serviceMessages E o m s = some s1 → Reachable E s1

/-- The consistency of the tables with the seats and spectator slices of the
games: what every state reached by the coordinator satisfies. -/
structure Inv (s : State) : Prop where
  players_lt : ∀ c gp, s.Players c = some gp → gp < s.next
  spectators_lt : ∀ c gp, s.Spectators c = some gp → gp < s.next
  games_lt : ∀ id gp, gamesGet s.Games id = some gp → gp < s.next
  seat_player : ∀ gp p c, (s.heap gp).Players p = some c → s.Players c = some gp
  player_seat : ∀ c gp, s.Players c = some gp → ∃ p, (s.heap gp).Players p = some c
  seat_unique : ∀ gp p q c,
    (s.heap gp).Players p = some c → (s.heap gp).Players q = some c → p = q
  no_player_seat : ∀ gp, (s.heap gp).Players NO_PLAYER = none
  disjoint : ∀ c, s.Players c = none ∨ s.Spectators c = none
  spectator_iff : ∀ c gp, s.Spectators c = some gp ↔ c ∈ (s.heap gp).Spectators
  spectators_nodup : ∀ gp, (s.heap gp).Spectators.Nodup
  spectators_len : ∀ gp, (s.heap gp).Spectators.length ≤ spectatorsCap

/-- The rules engine as the spec describes it, with decimal integer literals. -/
def specEnv : Env :=
  { ParseInt := checkers.parseDecimal
    New := checkers.New
    Move := checkers.Game.Move
    Winner := checkers.Game.Winner
    TurnIs := checkers.Game.TurnIs
    String := checkers.Game.String }

/-- The status messages the spec prescribes for a successful move, in order:
MOVED, then CAPTURED if a capture occurred, then KING if coronation occurred
on this move, then WINNER if the game now has a winner, and TURN last. -/
def moveStatusMessages (src dst cap : Pos) (captured crowned : Bool) (winner : Option String)
    (turn : String) : List String :=
  ["STATUS MOVED " ++ fmtInt src.X ++ " " ++ fmtInt src.Y ++ " " ++ fmtInt dst.X ++ " "
      ++ fmtInt dst.Y]
    ++ (if captured then ["STATUS CAPTURED " ++ fmtInt cap.X ++ " " ++ fmtInt cap.Y] else [])
    ++ (if crowned then ["STATUS KING " ++ fmtInt dst.X ++ " " ++ fmtInt dst.Y] else [])
    ++ (match winner with
        | some w => ["STATUS WINNER " ++ w]
        | none => [])
    ++ ["STATUS TURN " ++ turn]

/-- A message is a `STATUS TURN` message: it starts with these words. -/
def isTurnStatus (m : String) : Bool := "STATUS TURN".toList.isPrefixOf m.toList

/-- The client is seated in the game or is one of its spectators. -/
def Game.hasParticipant (game : Game) (x : Client) : Prop :=
  (∃ p, game.Players p = some x) ∨ x ∈ game.Spectators

instance Game.decidableHasParticipant (game : Game) (x : Client) :
    Decidable (game.hasParticipant x) := by
  unfold Game.hasParticipant
  infer_instance

/-- Runtime choices of the sample runs: every random letter is `a`. -/
def sampleOracle : Oracle := ⟨[], [], []⟩

/-- The id of the game created in the sample runs. -/
def sampleId : String := "aaaaaaaaaaaaaaaa"

/-- The state the coordinator is in after it handled the given messages,
starting from the empty tables, with the rules engine of the spec. -/
def stateAfter (l : List ClientMessage) : State :=
  (runMessages specEnv (l.map (fun m => (sampleOracle, m))) (State.empty specEnv)).getD
    (State.empty specEnv)

/-- Client 1 created a game and left it: the game is registered, both seats are open. -/
def openGameState : State := stateAfter [⟨1, "NEW", []⟩, ⟨1, "LEAVE", []⟩]

/-- Client 1 created a game, client 2 joined it. -/
def twoPlayersState : State := stateAfter [⟨1, "NEW", []⟩, ⟨2, "JOIN", [sampleId]⟩]

/-- Client 1 created a game, client 2 joined it, client 1 left: client 2 is
the only seated player, BLACK, and BLACK is to move. -/
def loneMoverState : State :=
  stateAfter [⟨1, "NEW", []⟩, ⟨2, "JOIN", [sampleId]⟩, ⟨1, "LEAVE", []⟩]

/-- Clients 1 and 2 play, clients 3 and 4 spectate, in this order. -/
def twoSpectatorsState : State :=
  stateAfter [⟨1, "NEW", []⟩, ⟨2, "JOIN", [sampleId]⟩, ⟨3, "SPECTATE", [sampleId]⟩,
    ⟨4, "SPECTATE", [sampleId]⟩]

/-- Client 1 created a game and joined it a second time. -/
def rejoinedState : State := stateAfter [⟨1, "NEW", []⟩, ⟨1, "JOIN", [sampleId]⟩]

/-- The state after the rules engine rejected the move 3 2 3 3 of client 2. -/
def rejectedMoveState : State :=
  ((serviceMessage specEnv sampleOracle ⟨2, "MOVE", ["3", "2", "3", "3"]⟩ twoPlayersState).map
    Prod.snd).getD twoPlayersState

/-- Client 1 created a game: it holds the RED seat, the BLACK seat is open. -/
def oneGameState : State := stateAfter [⟨1, "NEW", []⟩]

/-- The state after client 2 sent `NEW` in `oneGameState` and the generator
returned the id of the first game again. -/
def secondGameState : State :=
  ((newGame specEnv sampleOracle 2 [] oneGameState).map Prod.snd).getD oneGameState

/-- The keys of `Games` are distinct (it is a map) and are 16 characters long. -/
def GamesKeys (s : State) : Prop :=
  (s.Games.map Prod.fst).Nodup ∧ ∀ id, id ∈ s.Games.map Prod.fst → id.length = 16

/-- Clients 1 and 2 play, clients 3 to 10 spectate: the spectator slice of the
game is at its capacity. -/
def fullHouseState : State :=
  stateAfter [⟨1, "NEW", []⟩, ⟨2, "JOIN", [sampleId]⟩, ⟨3, "SPECTATE", [sampleId]⟩,
    ⟨4, "SPECTATE", [sampleId]⟩, ⟨5, "SPECTATE", [sampleId]⟩, ⟨6, "SPECTATE", [sampleId]⟩,
    ⟨7, "SPECTATE", [sampleId]⟩, ⟨8, "SPECTATE", [sampleId]⟩, ⟨9, "SPECTATE", [sampleId]⟩,
    ⟨10, "SPECTATE", [sampleId]⟩]

/-- The state after client 3 sent `SPECTATE` for the game of clients 1 and 2. -/
def thirdSpectatesState : State :=
  ((serviceMessage specEnv sampleOracle ⟨3, "SPECTATE", [sampleId]⟩ twoPlayersState).map
    Prod.snd).getD twoPlayersState

/-- Clients 1 and 2 play; client 2, BLACK, has moved 3 2 4 3: the board is no
longer the initial one and RED is to move. -/
def movedState : State :=
  stateAfter [⟨1, "NEW", []⟩, ⟨2, "JOIN", [sampleId]⟩, ⟨2, "MOVE", ["3", "2", "4", "3"]⟩]

/-- The state after client 1 left the game of `movedState` and client 3 joined it. -/
def inheritedState : State :=
  (runMessages specEnv [(sampleOracle, ⟨1, "LEAVE", []⟩), (sampleOracle, ⟨3, "JOIN", [sampleId]⟩)]
    movedState).getD movedState

end Server

namespace Server

open checkers checkers.Player

/-! ## Messages -/

theorem send_Messages (c : Client) (m : String) (s : State) (x : Client) :
    (send c m s).Messages x = if x = c then s.Messages c ++ [m] else s.Messages x := by
  unfold send
  by_cases h : x = c
  · subst h; simp
  · simp [Function.update_noteq h, h]

theorem sendAll_Messages (m : String) (l : List Client) (s : State) (x : Client) :
    (l.foldl (fun st c => send c m st) s).Messages x
      = s.Messages x ++ List.replicate (l.count x) m := by
  induction l generalizing s with
  | nil => simp
  | cons a l ih =>
    rw [List.foldl_cons, ih, send_Messages]
    by_cases h : x = a
    · subst h
      simp [List.replicate_succ]
    · have h2 : a ≠ x := fun e => h e.symm
      simp [h, List.count_cons_of_ne h2]

theorem sendAll_frame (m : String) (l : List Client) (s : State) :
    (l.foldl (fun st c => send c m st) s).heap = s.heap
    ∧ (l.foldl (fun st c => send c m st) s).next = s.next
    ∧ (l.foldl (fun st c => send c m st) s).Games = s.Games
    ∧ (l.foldl (fun st c => send c m st) s).Players = s.Players
    ∧ (l.foldl (fun st c => send c m st) s).Spectators = s.Spectators := by
  induction l generalizing s with
  | nil => simp
  | cons a l ih =>
    rw [List.foldl_cons]
    obtain ⟨h1, h2, h3, h4, h5⟩ := ih (send a m s)
    exact ⟨h1, h2, h3, h4, h5⟩

@[simp] theorem send_heap (c : Client) (m : String) (s : State) : (send c m s).heap = s.heap := rfl
@[simp] theorem send_next (c : Client) (m : String) (s : State) : (send c m s).next = s.next := rfl
@[simp] theorem send_Games (c : Client) (m : String) (s : State) : (send c m s).Games = s.Games := rfl
@[simp] theorem send_Players (c : Client) (m : String) (s : State) :
    (send c m s).Players = s.Players := rfl
@[simp] theorem send_Spectators (c : Client) (m : String) (s : State) :
    (send c m s).Spectators = s.Spectators := rfl

@[simp] theorem Broadcast_heap (g : Game) (m : String) (ex : List Client) (s : State) :
    (g.Broadcast m ex s).heap = s.heap := (sendAll_frame m _ s).1
@[simp] theorem Broadcast_next (g : Game) (m : String) (ex : List Client) (s : State) :
    (g.Broadcast m ex s).next = s.next := (sendAll_frame m _ s).2.1
@[simp] theorem Broadcast_Games (g : Game) (m : String) (ex : List Client) (s : State) :
    (g.Broadcast m ex s).Games = s.Games := (sendAll_frame m _ s).2.2.1
@[simp] theorem Broadcast_Players (g : Game) (m : String) (ex : List Client) (s : State) :
    (g.Broadcast m ex s).Players = s.Players := (sendAll_frame m _ s).2.2.2.1
@[simp] theorem Broadcast_Spectators (g : Game) (m : String) (ex : List Client) (s : State) :
    (g.Broadcast m ex s).Spectators = s.Spectators := (sendAll_frame m _ s).2.2.2.2

theorem Broadcast_Messages (g : Game) (m : String) (ex : List Client) (s : State) (x : Client) :
    (g.Broadcast m ex s).Messages x
      = s.Messages x ++ List.replicate ((g.recipients ex).count x) m :=
  sendAll_Messages m _ s x

/-! ## The removal loop of `leaveGame` -/

theorem removeSpectatorLoop_stuck (client : Client) (is : List Nat) :
    ∀ (arr : List Client) (len : Nat),
      (∃ j, j ∈ is ∧ len ≤ j ∧ arr[j]? = some client) →
      removeSpectatorLoop client is arr len = none := by
  induction is with
  | nil => intro arr len h; obtain ⟨j, hj, _⟩ := h; simp at hj
  | cons i rest ih =>
    intro arr len h
    obtain ⟨j, hj, hlen, harr⟩ := h
    unfold removeSpectatorLoop
    cases hi : arr[i]? with
    | none => rfl
    | some c =>
      simp only
      by_cases hc : c = client
      · simp only [hc, if_true]
        by_cases hlt : 0 < len ∧ i < len
        · simp only [hlt, and_self, if_true]
          cases hf : arr[len - 1]? with
          | none => rfl
          | some v =>
            simp only
            apply ih
            have hji : j ≠ i := by omega
            have hjr : j ∈ rest := by
              rcases List.mem_cons.mp hj with h1 | h1
              · exact absurd h1 hji
              · exact h1
            refine ⟨j, hjr, by omega, ?_⟩
            rw [List.getElem?_set_ne (by omega), List.getElem?_set_ne (by omega)]
            exact harr
        · simp only [hlt, if_false]
      · simp only [hc, if_false]
        apply ih
        have hji : j ≠ i := by
          intro e; subst e; rw [hi] at harr; exact hc (Option.some.inj harr)
        have hjr : j ∈ rest := by
          rcases List.mem_cons.mp hj with h1 | h1
          · exact absurd h1 hji
          · exact h1
        exact ⟨j, hjr, hlen, harr⟩


theorem set_set_same (arr : List Client) (i n : Nat) (v client : Client)
    (hi : arr[i]? = some client) (hn : n = i) : (arr.set i v).set n client = arr := by
  subst hn
  apply List.ext_getElem?
  intro j
  by_cases hj : j = n
  · subst hj
    have hlt : j < arr.length := by
      by_contra hge
      rw [List.getElem?_eq_none (by omega)] at hi
      exact Option.noConfusion hi
    rw [List.getElem?_set_self (by simp; exact hlt), hi]
  · rw [List.getElem?_set_ne (fun e => hj e.symm), List.getElem?_set_ne (fun e => hj e.symm)]

theorem removeSpectatorLoop_ok (client : Client) (arr : List Client) :
    ∀ (k i : Nat), i + k = arr.length →
      ∀ r, removeSpectatorLoop client (List.range' i k) arr arr.length = some r →
        ((∀ j, i ≤ j → arr[j]? ≠ some client) ∧ r = (arr, arr.length))
        ∨ (0 < arr.length ∧ arr[arr.length - 1]? = some client
            ∧ (∀ j, i ≤ j → j < arr.length - 1 → arr[j]? ≠ some client)
            ∧ r = (arr, arr.length - 1)) := by
  intro k
  induction k with
  | zero =>
    intro i hi r hr
    left
    simp only [List.range'_zero, removeSpectatorLoop, Option.some.injEq] at hr
    refine ⟨fun j hj => ?_, hr.symm⟩
    rw [List.getElem?_eq_none (by omega)]
    simp
  | succ k ih =>
    intro i hi r hr
    rw [List.range'_succ] at hr
    unfold removeSpectatorLoop at hr
    have hilt : i < arr.length := by omega
    have hget : arr[i]? = some arr[i] := List.getElem?_eq_getElem hilt
    rw [hget] at hr
    simp only at hr
    by_cases hc : arr[i] = client
    · simp only [hc, if_true] at hr
      have hguard : 0 < arr.length ∧ i < arr.length := ⟨by omega, hilt⟩
      simp only [hguard, and_self, if_true] at hr
      have hlast : arr[arr.length - 1]? = some arr[arr.length - 1] :=
        List.getElem?_eq_getElem (by omega)
      rw [hlast] at hr
      simp only at hr
      by_cases hik : i < arr.length - 1
      · exfalso
        have hstuck := removeSpectatorLoop_stuck client (List.range' (i + 1) k)
          ((arr.set i arr[arr.length - 1]).set (arr.length - 1) client) (arr.length - 1)
          ⟨arr.length - 1, by simp; omega, le_refl _, by
            rw [List.getElem?_set_self (by simp; omega)]⟩
        rw [hstuck] at hr
        exact Option.noConfusion hr
      · have hie : i = arr.length - 1 := by omega
        have hk : k = 0 := by omega
        subst hk
        simp only [List.range'_zero, removeSpectatorLoop, Option.some.injEq] at hr
        right
        refine ⟨by omega, ?_, fun j hj hj2 => by omega, ?_⟩
        · rw [← hie, hget, hc]
        · rw [← hr]
          congr 1
          exact set_set_same arr i (arr.length - 1) _ client (by rw [hget, hc]) hie.symm
    · simp only [hc, if_false] at hr
      have hne : arr[i]? ≠ some client := by
        rw [hget]; intro e; exact hc (Option.some.inj e)
      rcases ih (i + 1) (by omega) r hr with ⟨h1, h2⟩ | ⟨h0, h1, h2, h3⟩
      · left
        refine ⟨fun j hj => ?_, h2⟩
        by_cases hji : j = i
        · subst hji; exact hne
        · exact h1 j (by omega)
      · right
        refine ⟨h0, h1, fun j hj hj2 => ?_, h3⟩
        by_cases hji : j = i
        · subst hji; exact hne
        · exact h2 j (by omega) hj2

/-- When the removal loop of `leaveGame` does not panic, the client was not
in the slice, or it was its last element and nowhere else. -/
theorem removeSpectator_some (client : Client) (l l1 : List Client)
    (h : removeSpectator client l = some l1) :
    (client ∉ l ∧ l1 = l) ∨ (l = l1 ++ [client] ∧ client ∉ l1) := by
  unfold removeSpectator at h
  rw [List.range_eq_range'] at h
  cases hr : removeSpectatorLoop client (List.range' 0 l.length) l l.length with
  | none => rw [hr] at h; simp at h
  | some r =>
    rw [hr] at h
    simp only [Option.map_some', Option.some.injEq] at h
    rcases removeSpectatorLoop_ok client l l.length 0 (by omega) r hr with
      ⟨h1, h2⟩ | ⟨h0, h1, h2, h3⟩
    · left
      subst h2
      refine ⟨fun hm => ?_, ?_⟩
      · obtain ⟨n, hn⟩ := List.mem_iff_getElem?.mp hm
        exact h1 n (Nat.zero_le _) hn
      · rw [← h]; simp
    · right
      subst h3
      simp only at h
      have hlen : l.length - 1 < l.length := by omega
      have hlast : l[l.length - 1] = client := by
        rw [List.getElem?_eq_getElem hlen] at h1
        exact Option.some.inj h1
      have htake : l.take (l.length - 1) ++ [client] = l := by
        have := List.take_concat_get l (l.length - 1) hlen
        rw [List.concat_eq_append, hlast] at this
        rw [this]
        have e : l.length - 1 + 1 = l.length := by omega
        rw [e, List.take_length]
      refine ⟨by rw [← h]; exact htake.symm, ?_⟩
      rw [← h]
      intro hm
      obtain ⟨j, hj, hjc⟩ := List.mem_take_iff_getElem.mp hm
      have hj1 : j < l.length - 1 := by
        have := Nat.lt_min.mp hj
        exact this.1
      have hj2 : j < l.length := by omega
      exact h2 j (Nat.zero_le _) hj1 (by rw [List.getElem?_eq_getElem hj2, hjc])


/-! ## Open seats -/

theorem OpenSeats_eq (game : Game) (h : game.Players NO_PLAYER = none) :
    game.OpenSeats = some
      (match game.Players BLACK_PLAYER, game.Players RED_PLAYER with
       | none, none => [RED_PLAYER, NO_PLAYER]
       | none, some _ => [BLACK_PLAYER]
       | some _, none => [RED_PLAYER]
       | some _, some _ => []) := by
  cases hb : game.Players BLACK_PLAYER <;> cases hr : game.Players RED_PLAYER <;>
    simp [Game.OpenSeats, Game.seatCount, allPlayers, checkers.Players, openSeatsStep, h, hb, hr,
      List.replicate]

theorem SeatsFilled_eq (game : Game) (h : game.Players NO_PLAYER = none) :
    game.SeatsFilled
      = some ((game.Players BLACK_PLAYER).isSome && (game.Players RED_PLAYER).isSome) := by
  unfold Game.SeatsFilled
  rw [OpenSeats_eq game h]
  cases hb : game.Players BLACK_PLAYER <;> cases hr : game.Players RED_PLAYER <;> simp

/-- The seat `joinGame` assigns: the RED seat when it is open, else the BLACK seat. -/
theorem OpenSeats_head (game : Game) (h : game.Players NO_PLAYER = none)
    (seats : List Player) (p : Player)
    (hs : game.OpenSeats = some seats) (hp : seats[0]? = some p) :
    game.Players p = none ∧ p ≠ NO_PLAYER
      ∧ p = (if game.Players RED_PLAYER = none then RED_PLAYER else BLACK_PLAYER) := by
  rw [OpenSeats_eq game h] at hs
  cases hb : game.Players BLACK_PLAYER <;> cases hr : game.Players RED_PLAYER <;>
    rw [hb, hr] at hs <;> simp only [Option.some.injEq] at hs <;> subst hs <;>
    simp at hp <;> subst hp <;> simp [hb, hr]

theorem Turn_eq (game : Game) (h : game.Players NO_PLAYER = none) :
    game.Turn = some
      (if (game.Players BLACK_PLAYER).isSome && (game.Players RED_PLAYER).isSome
       then game.GameState.Turn.Color else "waiting") := by
  unfold Game.Turn
  rw [SeatsFilled_eq game h]
  simp


/-! ## The invariant -/

theorem Inv_empty (E : Env) : Inv (State.empty E) := by
  constructor <;> simp [State.empty, emptyGame, gamesGet, spectatorsCap]

/-- The invariant only reads the tables and the seats and spectators of the games. -/
theorem Inv_congr {s s1 : State} (h : Inv s) (hnext : s1.next = s.next)
    (hgames : s1.Games = s.Games) (hplayers : s1.Players = s.Players)
    (hspec : s1.Spectators = s.Spectators)
    (hseats : ∀ gp, (s1.heap gp).Players = (s.heap gp).Players)
    (hspecs : ∀ gp, (s1.heap gp).Spectators = (s.heap gp).Spectators) : Inv s1 := by
  constructor
  · intro c gp; rw [hplayers, hnext]; exact h.players_lt c gp
  · intro c gp; rw [hspec, hnext]; exact h.spectators_lt c gp
  · intro id gp; rw [hgames, hnext]; exact h.games_lt id gp
  · intro gp p c; rw [hseats, hplayers]; exact h.seat_player gp p c
  · intro c gp; rw [hplayers]; intro hc
    obtain ⟨p, hp⟩ := h.player_seat c gp hc
    exact ⟨p, by rw [hseats]; exact hp⟩
  · intro gp p q c; rw [hseats]; exact h.seat_unique gp p q c
  · intro gp; rw [hseats]; exact h.no_player_seat gp
  · intro c; rw [hplayers, hspec]; exact h.disjoint c
  · intro c gp; rw [hspec, hspecs]; exact h.spectator_iff c gp
  · intro gp; rw [hspecs]; exact h.spectators_nodup gp
  · intro gp; rw [hspecs]; exact h.spectators_len gp

/-- Freeing the seat of a player and deleting it from `Players` keeps the invariant. -/
theorem Inv_leave_player {s s1 : State} (h : Inv s) (c : Client) (gp : Nat) (p : Player)
    (hc : s.Players c = some gp) (hseat : (s.heap gp).Players p = some c)
    (hnext : s1.next = s.next) (hgames : s1.Games = s.Games)
    (hplayers : s1.Players = Function.update s.Players c none)
    (hspec : s1.Spectators = s.Spectators)
    (hseats : ∀ g, (s1.heap g).Players
      = if g = gp then Function.update (s.heap gp).Players p none else (s.heap g).Players)
    (hspecs : ∀ g, (s1.heap g).Spectators = (s.heap g).Spectators) : Inv s1 := by
  have hsub : ∀ g q x, (s1.heap g).Players q = some x →
      (s.heap g).Players q = some x ∧ ¬ (g = gp ∧ q = p) := by
    intro g q x hx
    rw [hseats] at hx
    by_cases hg : g = gp
    · subst hg
      rw [if_pos rfl, Function.update_apply] at hx
      by_cases hq : q = p
      · rw [if_pos hq] at hx; exact Option.noConfusion hx
      · rw [if_neg hq] at hx; exact ⟨hx, fun e => hq e.2⟩
    · rw [if_neg hg] at hx; exact ⟨hx, fun e => hg e.1⟩
  have hsup : ∀ g q x, (s.heap g).Players q = some x → ¬ (g = gp ∧ q = p) →
      (s1.heap g).Players q = some x := by
    intro g q x hx hne
    rw [hseats]
    by_cases hg : g = gp
    · subst hg
      rw [if_pos rfl, Function.update_apply]
      by_cases hq : q = p
      · exact absurd ⟨rfl, hq⟩ hne
      · rw [if_neg hq]; exact hx
    · rw [if_neg hg]; exact hx
  have hpl : ∀ x g, s1.Players x = some g → x ≠ c ∧ s.Players x = some g := by
    intro x g hx
    rw [hplayers, Function.update_apply] at hx
    by_cases hxc : x = c
    · rw [if_pos hxc] at hx; exact Option.noConfusion hx
    · rw [if_neg hxc] at hx; exact ⟨hxc, hx⟩
  constructor
  · intro x g hx; rw [hnext]; exact h.players_lt x g (hpl x g hx).2
  · intro x g; rw [hspec, hnext]; exact h.spectators_lt x g
  · intro id g; rw [hgames, hnext]; exact h.games_lt id g
  · intro g q x hx
    obtain ⟨hx1, hne⟩ := hsub g q x hx
    have hxg := h.seat_player g q x hx1
    have hxc : x ≠ c := by
      intro e; subst e
      rw [hc] at hxg
      have hg : gp = g := Option.some.inj hxg
      subst hg
      exact hne ⟨rfl, h.seat_unique gp q p x hx1 hseat⟩
    rw [hplayers, Function.update_noteq hxc]; exact hxg
  · intro x g hx
    obtain ⟨hxc, hx1⟩ := hpl x g hx
    obtain ⟨q, hq⟩ := h.player_seat x g hx1
    refine ⟨q, hsup g q x hq ?_⟩
    rintro ⟨rfl, rfl⟩
    rw [hseat] at hq
    exact hxc (Option.some.inj hq).symm
  · intro g q1 q2 x h1 h2
    exact h.seat_unique g q1 q2 x (hsub g q1 x h1).1 (hsub g q2 x h2).1
  · intro g
    cases hx : (s1.heap g).Players NO_PLAYER with
    | none => rfl
    | some x =>
      have := (hsub g _ x hx).1
      rw [h.no_player_seat g] at this
      exact Option.noConfusion this
  · intro x
    rw [hspec]
    rcases h.disjoint x with h1 | h1
    · left
      rw [hplayers, Function.update_apply]
      split_ifs <;> simp [h1]
    · right; exact h1
  · intro x g; rw [hspec, hspecs]; exact h.spectator_iff x g
  · intro g; rw [hspecs]; exact h.spectators_nodup g
  · intro g; rw [hspecs]; exact h.spectators_len g

/-- Removing the last spectator of a game and deleting it from `Spectators`
keeps the invariant. -/
theorem Inv_leave_spectator {s s1 : State} (h : Inv s) (c : Client) (gp : Nat) (l : List Client)
    (hl : (s.heap gp).Spectators = l ++ [c])
    (hnext : s1.next = s.next) (hgames : s1.Games = s.Games)
    (hplayers : s1.Players = s.Players)
    (hspec : s1.Spectators = Function.update s.Spectators c none)
    (hseats : ∀ g, (s1.heap g).Players = (s.heap g).Players)
    (hspecs : ∀ g, (s1.heap g).Spectators = if g = gp then l else (s.heap g).Spectators) :
    Inv s1 := by
  have hnd := h.spectators_nodup gp
  rw [hl] at hnd
  have hcl : c ∉ l := by
    intro hm
    have := List.nodup_append.mp hnd
    exact this.2.2 hm (List.mem_singleton.mpr rfl)
  have hcgp : s.Spectators c = some gp := by
    rw [h.spectator_iff, hl]; simp
  constructor
  · intro x g; rw [hplayers, hnext]; exact h.players_lt x g
  · intro x g hx
    rw [hspec, Function.update_apply] at hx
    rw [hnext]
    by_cases hxc : x = c
    · rw [if_pos hxc] at hx; exact Option.noConfusion hx
    · rw [if_neg hxc] at hx; exact h.spectators_lt x g hx
  · intro id g; rw [hgames, hnext]; exact h.games_lt id g
  · intro g q x; rw [hseats, hplayers]; exact h.seat_player g q x
  · intro x g; rw [hplayers]; intro hx
    obtain ⟨q, hq⟩ := h.player_seat x g hx
    exact ⟨q, by rw [hseats]; exact hq⟩
  · intro g q1 q2 x; rw [hseats]; exact h.seat_unique g q1 q2 x
  · intro g; rw [hseats]; exact h.no_player_seat g
  · intro x
    rw [hplayers]
    rcases h.disjoint x with h1 | h1
    · left; exact h1
    · right
      rw [hspec, Function.update_apply]
      split_ifs <;> simp [h1]
  · intro x g
    rw [hspec, hspecs, Function.update_apply]
    by_cases hxc : x = c
    · subst hxc
      rw [if_pos rfl]
      by_cases hg : g = gp
      · rw [if_pos hg]; simp [hcl]
      · rw [if_neg hg]
        constructor
        · intro e; exact Option.noConfusion e
        · intro hm
          have := (h.spectator_iff x g).mpr hm
          rw [hcgp] at this
          exact absurd (Option.some.inj this).symm hg
    · rw [if_neg hxc, h.spectator_iff x g]
      by_cases hg : g = gp
      · subst hg
        rw [if_pos rfl, hl]
        simp [hxc]
      · rw [if_neg hg]
  · intro g
    rw [hspecs]
    by_cases hg : g = gp
    · rw [if_pos hg]; exact (List.nodup_append.mp hnd).1
    · rw [if_neg hg]; exact h.spectators_nodup g
  · intro g
    rw [hspecs]
    by_cases hg : g = gp
    · rw [if_pos hg]
      have := h.spectators_len gp
      rw [hl] at this
      simp at this
      omega
    · rw [if_neg hg]; exact h.spectators_len g


theorem mem_rangeOrder {α : Type} [DecidableEq α] (ord keys : List α) (k : α) (h : k ∈ keys) :
    k ∈ rangeOrder ord keys := by
  unfold rangeOrder
  by_cases hk : k ∈ ord
  · exact List.mem_append_left _ (List.mem_filter.mpr ⟨List.mem_dedup.mpr hk, by simpa using h⟩)
  · exact List.mem_append_right _ (List.mem_filter.mpr ⟨h, by simpa using hk⟩)

theorem mem_seatRange (o : Oracle) (game : Game) (p : Player) (c : Client)
    (h : game.Players p = some c) : p ∈ game.seatRange o := by
  apply mem_rangeOrder
  apply List.mem_filter.mpr
  refine ⟨?_, by simp [h]⟩
  cases p <;> simp [allPlayers]

/-- What `leaveGame` without arguments does in a consistent state. -/
theorem leaveGame_ok (o : Oracle) (c : Client) (s : State) (h : Inv s)
    (e : Option String) (s1 : State) (hr : leaveGame o c [] s = some (e, s1)) :
    (e = none ∧ IsInGame s c = true ∧ Inv s1 ∧ s1.Players c = none ∧ s1.Spectators c = none
      ∧ s1.next = s.next ∧ s1.Games = s.Games
      ∧ (∀ g p, (s.heap g).Players p = none → (s1.heap g).Players p = none)
      ∧ (∀ g, (s1.heap g).Spectators.length ≤ (s.heap g).Spectators.length)
      ∧ (∀ g, (s1.heap g).GameState = (s.heap g).GameState))
    ∨ (e = some "not in game" ∧ s1 = s ∧ IsInGame s c = false) := by
  unfold leaveGame at hr
  simp only [List.length_nil, gt_iff_lt, lt_self_iff_false, if_false] at hr
  split at hr
  · rename_i gp hgp
    split at hr
    · rename_i p hp
      have hseat : (s.heap gp).Players p = some c := by
        have := List.find?_some hp
        simpa using this
      obtain ⟨t, _, ht⟩ := Option.map_eq_some'.mp hr
      simp only [Prod.mk.injEq] at ht
      obtain ⟨he, hs1⟩ := ht
      left
      subst hs1
      refine ⟨he.symm, by simp [IsInGame, IsPlayer, hgp], ?_, ?_, ?_, ?_, ?_, ?_, ?_, ?_⟩
      · apply Inv_leave_player h c gp p hgp hseat
        · simp [State.setGame]
        · simp [State.setGame]
        · simp [State.setGame]
        · simp [State.setGame]
        · intro g
          simp only [Broadcast_heap, State.setGame, Function.update_apply]
          split_ifs <;> rfl
        · intro g
          simp only [Broadcast_heap, State.setGame, Function.update_apply]
          split_ifs with hg
          · subst hg; rfl
          · rfl
      · simp [State.setGame]
      · simp only [Broadcast_Spectators, State.setGame]
        rcases h.disjoint c with h1 | h1
        · rw [hgp] at h1; exact Option.noConfusion h1
        · exact h1
      · simp [State.setGame]
      · simp [State.setGame]
      · intro g q hq
        simp only [Broadcast_heap, State.setGame, Function.update_apply]
        split_ifs with hg
        · subst hg
          simp only [Function.update_apply]
          split_ifs
          · rfl
          · exact hq
        · exact hq
      · intro g
        simp only [Broadcast_heap, State.setGame, Function.update_apply]
        split_ifs with hg
        · subst hg; exact le_refl _
        · exact le_refl _
      · intro g
        simp only [Broadcast_heap, State.setGame, Function.update_apply]
        split_ifs with hg
        · subst hg; rfl
        · rfl
    · rename_i hnone
      exfalso
      obtain ⟨p, hp⟩ := h.player_seat c gp hgp
      have hmem := mem_seatRange o (s.heap gp) p c hp
      have := List.find?_eq_none.mp hnone p hmem
      simp [hp] at this
  · rename_i hnp
    split at hr
    · rename_i gp hgp
      obtain ⟨l, hl, ht⟩ := Option.map_eq_some'.mp hr
      simp only [Prod.mk.injEq] at ht
      obtain ⟨he, hs1⟩ := ht
      have hmem : c ∈ (s.heap gp).Spectators := (h.spectator_iff c gp).mp hgp
      rcases removeSpectator_some c _ l hl with ⟨h1, _⟩ | ⟨h1, _⟩
      · exact absurd hmem h1
      · left
        subst hs1
        refine ⟨he.symm, by simp [IsInGame, IsSpectator, hgp], ?_, ?_, ?_, ?_, ?_, ?_, ?_, ?_⟩
        · apply Inv_leave_spectator h c gp l h1
          · simp [State.setGame]
          · simp [State.setGame]
          · simp [State.setGame]
          · simp [State.setGame]
          · intro g
            simp only [State.setGame, Function.update_apply]
            split_ifs with hg
            · subst hg; rfl
            · rfl
          · intro g
            simp only [State.setGame, Function.update_apply]
            split_ifs <;> rfl
        · simp [State.setGame, hnp]
        · simp [State.setGame]
        · simp [State.setGame]
        · simp [State.setGame]
        · intro g q hq
          simp only [State.setGame, Function.update_apply]
          split_ifs with hg
          · subst hg; exact hq
          · exact hq
        · intro g
          simp only [State.setGame, Function.update_apply]
          split_ifs with hg
          · subst hg
            simp only
            rw [h1]; simp
          · exact le_refl _
        · intro g
          simp only [State.setGame, Function.update_apply]
          split_ifs with hg
          · subst hg; rfl
          · rfl
    · rename_i hns
      right
      simp only [Option.some.injEq, Prod.mk.injEq] at hr
      refine ⟨hr.1.symm, hr.2.symm, ?_⟩
      simp [IsInGame, IsSpectator, IsPlayer, hnp, hns]


/-- What the implicit leave of `joinGame` and `spectateGame` does in a consistent state. -/
theorem leaveIfInGame_ok (o : Oracle) (c : Client) (s : State) (h : Inv s)
    (s1 : State) (hr : leaveIfInGame o c s = some s1) :
    Inv s1 ∧ s1.Players c = none ∧ s1.Spectators c = none
      ∧ s1.next = s.next ∧ s1.Games = s.Games
      ∧ (∀ g p, (s.heap g).Players p = none → (s1.heap g).Players p = none)
      ∧ (∀ g, (s1.heap g).Spectators.length ≤ (s.heap g).Spectators.length)
      ∧ (∀ g, (s1.heap g).GameState = (s.heap g).GameState) := by
  unfold leaveIfInGame at hr
  by_cases hin : IsInGame s c = true
  · rw [if_pos hin] at hr
    obtain ⟨r, hr1, hr2⟩ := Option.map_eq_some'.mp hr
    obtain ⟨e, s2⟩ := r
    simp only at hr2
    subst hr2
    rcases leaveGame_ok o c s h e s2 hr1 with ⟨_, _, h3⟩ | ⟨_, _, h3⟩
    · exact h3
    · rw [hin] at h3; exact Bool.noConfusion h3
  · rw [if_neg hin] at hr
    simp only [Option.some.injEq] at hr
    subst hr
    simp only [IsInGame, IsSpectator, IsPlayer, Bool.or_eq_true, Option.isSome_iff_ne_none,
      not_or, not_not] at hin
    exact ⟨h, hin.2, hin.1, rfl, rfl, fun _ _ hq => hq, fun _ => le_refl _, fun _ => rfl⟩

/-- Seating a client that is in no game on an open seat keeps the invariant. -/
theorem Inv_join {s s1 : State} (h : Inv s) (c : Client) (gp : Nat) (p : Player)
    (hc : s.Players c = none) (hcs : s.Spectators c = none) (hgp : gp < s.next)
    (hopen : (s.heap gp).Players p = none) (hp : p ≠ NO_PLAYER)
    (hnext : s1.next = s.next) (hgames : s1.Games = s.Games)
    (hplayers : s1.Players = Function.update s.Players c (some gp))
    (hspec : s1.Spectators = s.Spectators)
    (hseats : ∀ g, (s1.heap g).Players
      = if g = gp then Function.update (s.heap gp).Players p (some c) else (s.heap g).Players)
    (hspecs : ∀ g, (s1.heap g).Spectators = (s.heap g).Spectators) : Inv s1 := by
  have hnoseat : ∀ g q, (s.heap g).Players q ≠ some c := by
    intro g q hq
    have := h.seat_player g q c hq
    rw [hc] at this
    exact Option.noConfusion this
  have hsub : ∀ g q x, (s1.heap g).Players q = some x →
      (g = gp ∧ q = p ∧ x = c) ∨ (x ≠ c ∧ (s.heap g).Players q = some x) := by
    intro g q x hx
    rw [hseats] at hx
    by_cases hg : g = gp
    · subst hg
      rw [if_pos rfl, Function.update_apply] at hx
      by_cases hq : q = p
      · rw [if_pos hq] at hx; exact Or.inl ⟨rfl, hq, (Option.some.inj hx).symm⟩
      · rw [if_neg hq] at hx
        exact Or.inr ⟨fun e => hnoseat g q (e ▸ hx), hx⟩
    · rw [if_neg hg] at hx
      exact Or.inr ⟨fun e => hnoseat g q (e ▸ hx), hx⟩
  constructor
  · intro x g hx
    rw [hplayers, Function.update_apply] at hx
    rw [hnext]
    by_cases hxc : x = c
    · rw [if_pos hxc] at hx
      rw [← Option.some.inj hx]; exact hgp
    · rw [if_neg hxc] at hx; exact h.players_lt x g hx
  · intro x g; rw [hspec, hnext]; exact h.spectators_lt x g
  · intro id g; rw [hgames, hnext]; exact h.games_lt id g
  · intro g q x hx
    rw [hplayers, Function.update_apply]
    rcases hsub g q x hx with ⟨h1, _, h3⟩ | ⟨h1, h2⟩
    · rw [if_pos h3, h1]
    · rw [if_neg h1]; exact h.seat_player g q x h2
  · intro x g hx
    rw [hplayers, Function.update_apply] at hx
    by_cases hxc : x = c
    · rw [if_pos hxc] at hx
      have hg : gp = g := Option.some.inj hx
      subst hg
      refine ⟨p, ?_⟩
      rw [hseats, if_pos rfl, Function.update_same, hxc]
    · rw [if_neg hxc] at hx
      obtain ⟨q, hq⟩ := h.player_seat x g hx
      refine ⟨q, ?_⟩
      rw [hseats]
      by_cases hg : g = gp
      · subst hg
        rw [if_pos rfl, Function.update_apply]
        by_cases hqp : q = p
        · subst hqp; rw [hopen] at hq; exact Option.noConfusion hq
        · rw [if_neg hqp]; exact hq
      · rw [if_neg hg]; exact hq
  · intro g q1 q2 x h1 h2
    rcases hsub g q1 x h1 with ⟨_, a2, a3⟩ | ⟨a1, a2⟩ <;>
      rcases hsub g q2 x h2 with ⟨_, b2, b3⟩ | ⟨b1, b2⟩
    · rw [a2, b2]
    · exact absurd a3 b1
    · exact absurd b3 a1
    · exact h.seat_unique g q1 q2 x a2 b2
  · intro g
    cases hx : (s1.heap g).Players NO_PLAYER with
    | none => rfl
    | some x =>
      rcases hsub g _ x hx with ⟨_, a2, _⟩ | ⟨_, a2⟩
      · exact absurd a2.symm hp
      · rw [h.no_player_seat g] at a2; exact Option.noConfusion a2
  · intro x
    rw [hspec, hplayers, Function.update_apply]
    by_cases hxc : x = c
    · right; rw [hxc]; exact hcs
    · rw [if_neg hxc]; exact h.disjoint x
  · intro x g; rw [hspec, hspecs]; exact h.spectator_iff x g
  · intro g; rw [hspecs]; exact h.spectators_nodup g
  · intro g; rw [hspecs]; exact h.spectators_len g

/-- Appending a client that is in no game to a spectator slice below capacity
keeps the invariant. -/
theorem Inv_spectate {s s1 : State} (h : Inv s) (c : Client) (gp : Nat)
    (hc : s.Players c = none) (hcs : s.Spectators c = none) (hgp : gp < s.next)
    (hlen : (s.heap gp).Spectators.length < spectatorsCap)
    (hnext : s1.next = s.next) (hgames : s1.Games = s.Games)
    (hplayers : s1.Players = s.Players)
    (hspec : s1.Spectators = Function.update s.Spectators c (some gp))
    (hseats : ∀ g, (s1.heap g).Players = (s.heap g).Players)
    (hspecs : ∀ g, (s1.heap g).Spectators
      = if g = gp then (s.heap gp).Spectators ++ [c] else (s.heap g).Spectators) : Inv s1 := by
  have hnotin : ∀ g, c ∉ (s.heap g).Spectators := by
    intro g hm
    have := (h.spectator_iff c g).mpr hm
    rw [hcs] at this
    exact Option.noConfusion this
  constructor
  · intro x g; rw [hplayers, hnext]; exact h.players_lt x g
  · intro x g hx
    rw [hspec, Function.update_apply] at hx
    rw [hnext]
    by_cases hxc : x = c
    · rw [if_pos hxc] at hx
      rw [← Option.some.inj hx]; exact hgp
    · rw [if_neg hxc] at hx; exact h.spectators_lt x g hx
  · intro id g; rw [hgames, hnext]; exact h.games_lt id g
  · intro g q x; rw [hseats, hplayers]; exact h.seat_player g q x
  · intro x g; rw [hplayers]; intro hx
    obtain ⟨q, hq⟩ := h.player_seat x g hx
    exact ⟨q, by rw [hseats]; exact hq⟩
  · intro g q1 q2 x; rw [hseats]; exact h.seat_unique g q1 q2 x
  · intro g; rw [hseats]; exact h.no_player_seat g
  · intro x
    rw [hplayers, hspec, Function.update_apply]
    by_cases hxc : x = c
    · left; rw [hxc]; exact hc
    · rw [if_neg hxc]; exact h.disjoint x
  · intro x g
    rw [hspec, hspecs, Function.update_apply]
    by_cases hxc : x = c
    · subst hxc
      rw [if_pos rfl]
      by_cases hg : g = gp
      · subst hg; simp
      · rw [if_neg hg]
        constructor
        · intro e; exact absurd (Option.some.inj e).symm hg
        · intro hm; exact absurd hm (hnotin g)
    · rw [if_neg hxc, h.spectator_iff x g]
      by_cases hg : g = gp
      · subst hg
        rw [if_pos rfl]
        simp [hxc]
      · rw [if_neg hg]
  · intro g
    rw [hspecs]
    by_cases hg : g = gp
    · rw [if_pos hg]
      apply List.nodup_append.mpr
      refine ⟨h.spectators_nodup gp, List.nodup_singleton c, ?_⟩
      intro a ha hb
      rw [List.mem_singleton] at hb
      subst hb
      exact hnotin gp ha
    · rw [if_neg hg]; exact h.spectators_nodup g
  · intro g
    rw [hspecs]
    by_cases hg : g = gp
    · rw [if_pos hg]
      simp
      omega
    · rw [if_neg hg]; exact h.spectators_len g

theorem gamesGet_gamesSet (m : List (String × Nat)) (id : String) (g : Nat) (k : String) :
    gamesGet (gamesSet m id g) k = if k = id then some g else gamesGet m k := by
  unfold gamesGet gamesSet
  by_cases hk : k = id
  · subst hk
    rw [if_pos rfl, List.find?_append]
    have : List.find? (fun e => e.1 == k) (List.filter (fun e => e.1 != k) m) = none := by
      apply List.find?_eq_none.mpr
      intro x hx
      have := (List.mem_filter.mp hx).2
      simpa using this
    rw [this]
    simp
  · rw [if_neg hk, List.find?_append]
    have hf : List.find? (fun e => e.1 == k) (List.filter (fun e => e.1 != id) m)
        = List.find? (fun e => e.1 == k) m := by
      induction m with
      | nil => rfl
      | cons a m ih =>
        rw [List.filter_cons]
        by_cases ha : a.1 = id
        · have h1 : (a.1 != id) = false := by simp [ha]
          have h2 : (a.1 == k) = false := by
            simp only [beq_eq_false_iff_ne, ne_eq]
            intro e; exact hk (e.symm.trans ha)
          rw [h1, if_neg (by simp), List.find?_cons, h2]
          exact ih
        · have h1 : (a.1 != id) = true := by simp [ha]
          rw [h1, if_pos rfl, List.find?_cons, List.find?_cons, ih]
    rw [hf]
    have : (id == k) = false := by simpa using fun e : id = k => hk e.symm
    cases hm : List.find? (fun e => e.1 == k) m <;> simp [List.find?_cons, this]

/-- Allocating a fresh game and registering it keeps the invariant. -/
theorem Inv_alloc {s s1 : State} (h : Inv s) (id : String)
    (hnext : s1.next = s.next + 1) (hgames : s1.Games = gamesSet s.Games id s.next)
    (hplayers : s1.Players = s.Players) (hspec : s1.Spectators = s.Spectators)
    (hseats : ∀ g, (s1.heap g).Players
      = if g = s.next then (fun _ => none) else (s.heap g).Players)
    (hspecs : ∀ g, (s1.heap g).Spectators = if g = s.next then [] else (s.heap g).Spectators) :
    Inv s1 := by
  have hfresh : ∀ q x, (s.heap s.next).Players q ≠ some x := by
    intro q x hq
    have := h.players_lt x s.next (h.seat_player s.next q x hq)
    omega
  have hfresh2 : ∀ x, x ∉ (s.heap s.next).Spectators := by
    intro x hx
    have := h.spectators_lt x s.next ((h.spectator_iff x s.next).mpr hx)
    omega
  have hseats2 : ∀ g q x, (s1.heap g).Players q = some x ↔ (s.heap g).Players q = some x := by
    intro g q x
    rw [hseats]
    by_cases hg : g = s.next
    · subst hg
      rw [if_pos rfl]
      constructor
      · intro e; exact Option.noConfusion e
      · intro e; exact absurd e (hfresh q x)
    · rw [if_neg hg]
  have hspecs2 : ∀ g x, x ∈ (s1.heap g).Spectators ↔ x ∈ (s.heap g).Spectators := by
    intro g x
    rw [hspecs]
    by_cases hg : g = s.next
    · subst hg
      rw [if_pos rfl]
      constructor
      · intro e; simp at e
      · intro e; exact absurd e (hfresh2 x)
    · rw [if_neg hg]
  constructor
  · intro x g hx; rw [hplayers] at hx; rw [hnext]
    exact Nat.lt_succ_of_lt (h.players_lt x g hx)
  · intro x g hx; rw [hspec] at hx; rw [hnext]
    exact Nat.lt_succ_of_lt (h.spectators_lt x g hx)
  · intro k g hk
    rw [hgames, gamesGet_gamesSet] at hk
    rw [hnext]
    by_cases hkid : k = id
    · rw [if_pos hkid] at hk
      rw [← Option.some.inj hk]; exact Nat.lt_succ_self _
    · rw [if_neg hkid] at hk
      exact Nat.lt_succ_of_lt (h.games_lt k g hk)
  · intro g q x hx
    rw [hplayers]; exact h.seat_player g q x ((hseats2 g q x).mp hx)
  · intro x g hx
    rw [hplayers] at hx
    obtain ⟨q, hq⟩ := h.player_seat x g hx
    exact ⟨q, (hseats2 g q x).mpr hq⟩
  · intro g q1 q2 x h1 h2
    exact h.seat_unique g q1 q2 x ((hseats2 g q1 x).mp h1) ((hseats2 g q2 x).mp h2)
  · intro g
    cases hx : (s1.heap g).Players NO_PLAYER with
    | none => rfl
    | some x =>
      have := (hseats2 g _ x).mp hx
      rw [h.no_player_seat g] at this
      exact Option.noConfusion this
  · intro x; rw [hplayers, hspec]; exact h.disjoint x
  · intro x g
    rw [hspec, hspecs2]; exact h.spectator_iff x g
  · intro g
    rw [hspecs]
    by_cases hg : g = s.next
    · rw [if_pos hg]; exact List.nodup_nil
    · rw [if_neg hg]; exact h.spectators_nodup g
  · intro g
    rw [hspecs]
    by_cases hg : g = s.next
    · rw [if_pos hg]; simp
    · rw [if_neg hg]; exact h.spectators_len g


/-! ## The handlers keep the invariant, and change nothing when they fail -/

theorem joinGame_ok (E : Env) (o : Oracle) (c : Client) (args : List String) (s : State)
    (h : Inv s) (e : Option String) (s1 : State)
    (hr : joinGame E o c args s = some (e, s1)) :
    Inv s1 ∧ ∀ err, e = some err → s1 = s
      ∧ ∀ id gp, args = [id] → gamesGet s.Games id = some gp →
          (s.heap gp).SeatsFilled = some true := by
  unfold joinGame at hr
  split at hr
  · rename_i gameId
    split at hr
    · rename_i gp hgp
      have hnp := h.no_player_seat gp
      obtain ⟨filled, hfilled, hr⟩ := Option.bind_eq_some.mp hr
      by_cases hf : filled = true
      · rw [if_pos hf] at hr
        simp only [Option.some.injEq, Prod.mk.injEq] at hr
        obtain ⟨he, hs⟩ := hr
        subst hs
        refine ⟨h, fun err _ => ⟨rfl, ?_⟩⟩
        intro id gp2 hid hgp2
        simp only [List.cons.injEq, and_true] at hid
        subst hid
        rw [hgp] at hgp2
        rw [← Option.some.inj hgp2, hfilled, hf]
      · rw [if_neg hf] at hr
        obtain ⟨seats, hseats, hr⟩ := Option.bind_eq_some.mp hr
        obtain ⟨p, hp, hr⟩ := Option.bind_eq_some.mp hr
        obtain ⟨s2, hs2, hr⟩ := Option.bind_eq_some.mp hr
        obtain ⟨t, _, hr⟩ := Option.map_eq_some'.mp hr
        simp only [Prod.mk.injEq] at hr
        obtain ⟨he, hs⟩ := hr
        obtain ⟨hopen, hpne, _⟩ := OpenSeats_head (s.heap gp) hnp seats p hseats hp
        obtain ⟨hinv2, hc2, hcs2, hnext2, hgames2, hframe, _, _⟩ :=
          leaveIfInGame_ok o c s h s2 hs2
        refine ⟨?_, fun err herr => ?_⟩
        · subst hs
          apply Inv_join hinv2 c gp p hc2 hcs2 (by rw [hnext2]; exact h.games_lt _ _ hgp)
            (hframe gp p hopen) hpne
          · simp [State.setGame]
          · simp [State.setGame]
          · simp [State.setGame]
          · simp [State.setGame]
          · intro g
            simp only [Broadcast_heap, send_heap, State.setGame, Function.update_apply]
            split_ifs <;> rfl
          · intro g
            simp only [Broadcast_heap, send_heap, State.setGame, Function.update_apply]
            split_ifs with hg
            · subst hg; rfl
            · rfl
        · rw [herr] at he; exact Option.noConfusion he
    · rename_i hnone
      simp only [Option.some.injEq, Prod.mk.injEq] at hr
      obtain ⟨_, hs⟩ := hr
      subst hs
      refine ⟨h, fun err _ => ⟨rfl, ?_⟩⟩
      intro id gp2 hid hgp2
      simp only [List.cons.injEq, and_true] at hid
      subst hid
      rw [hnone] at hgp2
      exact Option.noConfusion hgp2
  · rename_i hne
    simp only [Option.some.injEq, Prod.mk.injEq] at hr
    obtain ⟨_, hs⟩ := hr
    subst hs
    refine ⟨h, fun err _ => ⟨rfl, ?_⟩⟩
    intro id gp2 hid
    exact absurd hid (hne id)

theorem spectateGame_ok (E : Env) (o : Oracle) (c : Client) (args : List String) (s : State)
    (h : Inv s) (e : Option String) (s1 : State)
    (hr : spectateGame E o c args s = some (e, s1)) :
    Inv s1 ∧ ∀ err, e = some err → s1 = s := by
  unfold spectateGame at hr
  split at hr
  · rename_i gameId
    split at hr
    · rename_i gp hgp
      have hnp := h.no_player_seat gp
      obtain ⟨can, hcan, hr⟩ := Option.bind_eq_some.mp hr
      by_cases hf : can = true
      · simp only [hf, Bool.not_true, Bool.false_eq_true, if_false] at hr
        obtain ⟨s2, hs2, hr⟩ := Option.bind_eq_some.mp hr
        obtain ⟨t, _, hr⟩ := Option.map_eq_some'.mp hr
        simp only [Prod.mk.injEq] at hr
        obtain ⟨he, hs⟩ := hr
        obtain ⟨hinv2, hc2, hcs2, hnext2, hgames2, _, hlen, _⟩ :=
          leaveIfInGame_ok o c s h s2 hs2
        have hlt : (s.heap gp).Spectators.length < spectatorsCap := by
          unfold Game.CanSpectate at hcan
          obtain ⟨f, _, hf2⟩ := Option.map_eq_some'.mp hcan
          rw [hf] at hf2
          simp only [Bool.and_eq_true, decide_eq_true_eq] at hf2
          exact hf2.2
        refine ⟨?_, fun err herr => ?_⟩
        · subst hs
          apply Inv_spectate hinv2 c gp hc2 hcs2 (by rw [hnext2]; exact h.games_lt _ _ hgp)
            (lt_of_le_of_lt (hlen gp) hlt)
          · simp [State.setGame]
          · simp [State.setGame]
          · simp [State.setGame]
          · simp [State.setGame]
          · intro g
            simp only [send_heap, State.setGame, Function.update_apply]
            split_ifs with hg
            · subst hg; rfl
            · rfl
          · intro g
            simp only [send_heap, State.setGame, Function.update_apply]
            split_ifs <;> rfl
        · rw [herr] at he; exact Option.noConfusion he
      · simp only [hf, Bool.not_eq_true] at hr
        have hcf : can = false := by simpa using hf
        simp only [hcf, Bool.not_false, if_true, Option.some.injEq, Prod.mk.injEq] at hr
        obtain ⟨_, hs⟩ := hr
        subst hs
        exact ⟨h, fun err _ => rfl⟩
    · simp only [Option.some.injEq, Prod.mk.injEq] at hr
      obtain ⟨_, hs⟩ := hr
      subst hs
      exact ⟨h, fun err _ => rfl⟩
  · simp only [Option.some.injEq, Prod.mk.injEq] at hr
    obtain ⟨_, hs⟩ := hr
    subst hs
    exact ⟨h, fun err _ => rfl⟩

theorem leaveGame_inv (o : Oracle) (c : Client) (args : List String) (s : State)
    (h : Inv s) (e : Option String) (s1 : State)
    (hr : leaveGame o c args s = some (e, s1)) :
    Inv s1 ∧ ∀ err, e = some err → s1 = s := by
  cases args with
  | nil =>
    rcases leaveGame_ok o c s h e s1 hr with ⟨he, _, hinv, _⟩ | ⟨_, hs, _⟩
    · exact ⟨hinv, fun err herr => by rw [he] at herr; exact Option.noConfusion herr⟩
    · subst hs; exact ⟨h, fun _ _ => rfl⟩
  | cons a l =>
    unfold leaveGame at hr
    simp only [List.length_cons, gt_iff_lt, Nat.zero_lt_succ, if_true, Option.some.injEq,
      Prod.mk.injEq] at hr
    obtain ⟨_, hs⟩ := hr
    subst hs
    exact ⟨h, fun _ _ => rfl⟩

theorem quit_inv (o : Oracle) (c : Client) (args : List String) (s : State)
    (h : Inv s) (e : Option String) (s1 : State)
    (hr : quit o c args s = some (e, s1)) :
    Inv s1 ∧ ∀ err, e = some err → s1 = s := by
  unfold quit at hr
  split_ifs at hr
  · simp only [Option.some.injEq, Prod.mk.injEq] at hr
    obtain ⟨_, hs⟩ := hr
    subst hs
    exact ⟨h, fun _ _ => rfl⟩
  · exact leaveGame_inv o c [] s h e s1 hr
  · simp only [Option.some.injEq, Prod.mk.injEq] at hr
    obtain ⟨_, hs⟩ := hr
    subst hs
    exact ⟨h, fun _ _ => rfl⟩

theorem newGame_inv (E : Env) (o : Oracle) (c : Client) (args : List String) (s : State)
    (h : Inv s) (e : Option String) (s1 : State)
    (hr : newGame E o c args s = some (e, s1)) :
    Inv s1 ∧ ∀ err, e = some err → s1 = s := by
  unfold newGame at hr
  split_ifs at hr
  · simp only [Option.some.injEq, Prod.mk.injEq] at hr
    obtain ⟨_, hs⟩ := hr
    subst hs
    exact ⟨h, fun _ _ => rfl⟩
  · simp only [Option.some.injEq, Prod.mk.injEq] at hr
    obtain ⟨_, hs⟩ := hr
    subst hs
    exact ⟨h, fun _ _ => rfl⟩
  · simp only at hr
    have hinv1 : Inv { s with heap := Function.update s.heap s.next (NewGame E o),
                              next := s.next + 1,
                              Games := gamesSet s.Games (NewGame E o).Id s.next } := by
      apply Inv_alloc h (NewGame E o).Id
      · rfl
      · rfl
      · rfl
      · rfl
      · intro g
        simp only [Function.update_apply]
        split_ifs <;> rfl
      · intro g
        simp only [Function.update_apply]
        split_ifs <;> rfl
    obtain ⟨hinv2, herr⟩ := joinGame_ok E o c _ _ hinv1 e s1 hr
    refine ⟨hinv2, fun err he => ?_⟩
    exfalso
    have := (herr err he).2 (NewGame E o).Id s.next rfl
      (by simp only [gamesGet_gamesSet, if_true])
    simp only [Function.update_same] at this
    rw [SeatsFilled_eq _ (by simp [NewGame])] at this
    simp [NewGame] at this


theorem listGames_inv (E : Env) (o : Oracle) (c : Client) (args : List String) (s : State)
    (h : Inv s) (e : Option String) (s1 : State)
    (hr : listGames E o c args s = some (e, s1)) :
    Inv s1 ∧ ∀ err, e = some err → s1 = s := by
  unfold listGames at hr
  simp only at hr
  split_ifs at hr
  · simp only [Option.some.injEq, Prod.mk.injEq] at hr
    obtain ⟨_, hs⟩ := hr
    subst hs
    exact ⟨h, fun _ _ => rfl⟩
  all_goals
    obtain ⟨ids, _, hr⟩ := Option.map_eq_some'.mp hr
    simp only [Prod.mk.injEq] at hr
    obtain ⟨he, hs⟩ := hr
    subst hs
    exact ⟨Inv_congr h rfl rfl rfl rfl (fun _ => rfl) (fun _ => rfl),
      fun err herr => by rw [herr] at he; exact Option.noConfusion he⟩

theorem boardStatus_inv (E : Env) (c : Client) (args : List String) (s : State)
    (h : Inv s) (e : Option String) (s1 : State)
    (hr : boardStatus E c args s = some (e, s1)) :
    Inv s1 ∧ ∀ err, e = some err → s1 = s := by
  unfold boardStatus at hr
  split_ifs at hr
  · simp only [Option.some.injEq, Prod.mk.injEq] at hr
    obtain ⟨_, hs⟩ := hr
    subst hs
    exact ⟨h, fun _ _ => rfl⟩
  · split at hr <;>
    · simp only [Option.some.injEq, Prod.mk.injEq] at hr
      obtain ⟨he, hs⟩ := hr
      subst hs
      exact ⟨Inv_congr h rfl rfl rfl rfl (fun _ => rfl) (fun _ => rfl),
        fun err herr => by first | rfl | (rw [herr] at he; exact Option.noConfusion he)⟩

theorem turnStatus_inv (c : Client) (args : List String) (s : State)
    (h : Inv s) (e : Option String) (s1 : State)
    (hr : turnStatus c args s = some (e, s1)) :
    Inv s1 ∧ ∀ err, e = some err → s1 = s := by
  unfold turnStatus at hr
  split_ifs at hr
  · simp only [Option.some.injEq, Prod.mk.injEq] at hr
    obtain ⟨_, hs⟩ := hr
    subst hs
    exact ⟨h, fun _ _ => rfl⟩
  · split at hr
    · obtain ⟨t, _, hr⟩ := Option.map_eq_some'.mp hr
      simp only [Prod.mk.injEq] at hr
      obtain ⟨he, hs⟩ := hr
      subst hs
      exact ⟨Inv_congr h rfl rfl rfl rfl (fun _ => rfl) (fun _ => rfl),
        fun err herr => by rw [herr] at he; exact Option.noConfusion he⟩
    · simp only [Option.some.injEq, Prod.mk.injEq] at hr
      obtain ⟨_, hs⟩ := hr
      subst hs
      exact ⟨h, fun _ _ => rfl⟩

/-- The state `move` leaves behind once the rules engine accepted the move:
the broadcasts in the order of the source. -/
theorem move_some (E : Env) (c : Client) (args : List String) (s : State)
    (e : Option String) (s1 : State) (hr : move E c args s = some (e, s1)) :
    (∃ err, e = some err ∧ s1 = s)
    ∨ ∃ gp src dst, s.Players c = some gp ∧ createPos E args = .ok (src, dst)
        ∧ (s.heap gp).TurnIs E c = true
        ∧ ((∃ err, (E.Move (s.heap gp).GameState src dst).err = some err ∧ e = some err
              ∧ s1 = s.setGame gp
                  { s.heap gp with GameState := (E.Move (s.heap gp).GameState src dst).game })
          ∨ ((E.Move (s.heap gp).GameState src dst).err = none ∧ e = none
              ∧ ∀ g, ((s1.heap g).Players = (s.heap g).Players
                  ∧ (s1.heap g).Spectators = (s.heap g).Spectators)
              ∧ s1.next = s.next ∧ s1.Games = s.Games ∧ s1.Players = s.Players
              ∧ s1.Spectators = s.Spectators)) := by
  unfold move at hr
  split at hr
  · rename_i gp hgp
    split at hr
    · rename_i posErr hpos
      simp only [Option.some.injEq, Prod.mk.injEq] at hr
      exact Or.inl ⟨posErr, hr.1.symm, hr.2.symm⟩
    · rename_i src dst hpos
      split_ifs at hr with hturn
      · right
        refine ⟨gp, src, dst, hgp, hpos, hturn, ?_⟩
        simp only at hr
        split at hr
        · rename_i mvErr hmv
          simp only [Option.some.injEq, Prod.mk.injEq] at hr
          exact Or.inl ⟨mvErr, hmv, hr.1.symm, hr.2.symm⟩
        · rename_i hmv
          obtain ⟨t, _, hr⟩ := Option.map_eq_some'.mp hr
          simp only [Prod.mk.injEq] at hr
          obtain ⟨he, hs⟩ := hr
          right
          refine ⟨hmv, he.symm, ?_⟩
          subst hs
          intro g
          refine ⟨⟨?_, ?_⟩, ?_, ?_, ?_, ?_⟩
          · simp only [Broadcast_heap]
            split_ifs <;>
            · simp only [Broadcast_heap, State.setGame, Function.update_apply]
              split_ifs with hg
              · subst hg; rfl
              · rfl
          · simp only [Broadcast_heap]
            split_ifs <;>
            · simp only [Broadcast_heap, State.setGame, Function.update_apply]
              split_ifs with hg
              · subst hg; rfl
              · rfl
          · simp only [Broadcast_next]
            split_ifs <;> simp [State.setGame]
          · simp only [Broadcast_Games]
            split_ifs <;> simp [State.setGame]
          · simp only [Broadcast_Players]
            split_ifs <;> simp [State.setGame]
          · simp only [Broadcast_Spectators]
            split_ifs <;> simp [State.setGame]
      · simp only [Option.some.injEq, Prod.mk.injEq] at hr
        exact Or.inl ⟨_, hr.1.symm, hr.2.symm⟩
  · simp only [Option.some.injEq, Prod.mk.injEq] at hr
    exact Or.inl ⟨_, hr.1.symm, hr.2.symm⟩

theorem move_inv (E : Env) (c : Client) (args : List String) (s : State)
    (h : Inv s) (e : Option String) (s1 : State)
    (hr : move E c args s = some (e, s1)) : Inv s1 := by
  rcases move_some E c args s e s1 hr with ⟨_, _, hs⟩ | ⟨gp, src, dst, _, _, _, hcase⟩
  · subst hs; exact h
  · rcases hcase with ⟨_, _, _, hs⟩ | ⟨_, _, hfr⟩
    · subst hs
      refine Inv_congr h rfl rfl rfl rfl (fun g => ?_) (fun g => ?_)
      · simp only [State.setGame, Function.update_apply]
        split_ifs with hg
        · subst hg; rfl
        · rfl
      · simp only [State.setGame, Function.update_apply]
        split_ifs with hg
        · subst hg; rfl
        · rfl
    · exact Inv_congr h (hfr 0).2.1 (hfr 0).2.2.1 (hfr 0).2.2.2.1 (hfr 0).2.2.2.2
        (fun g => (hfr g).1.1) (fun g => (hfr g).1.2)

theorem move_err (E : Env)
    (hE : ∀ g src dst, (E.Move g src dst).err ≠ none → (E.Move g src dst).game = g)
    (c : Client) (args : List String) (s : State) (err : String) (s1 : State)
    (hr : move E c args s = some (some err, s1)) : s1 = s := by
  rcases move_some E c args s _ s1 hr with ⟨_, _, hs⟩ | ⟨gp, src, dst, _, _, _, hcase⟩
  · exact hs
  · rcases hcase with ⟨e2, hm, _, hs⟩ | ⟨_, he, _⟩
    · rw [hs, hE _ src dst (by rw [hm]; simp)]
      simp [State.setGame]
    · exact Option.noConfusion he

theorem serviceMessage_inv (E : Env) (o : Oracle) (m : ClientMessage) (s : State)
    (h : Inv s) (e : Option String) (s1 : State)
    (hr : serviceMessage E o m s = some (e, s1)) : Inv s1 := by
  unfold serviceMessage supportedCommands at hr
  split_ifs at hr
  · exact (newGame_inv E o _ _ s h e s1 hr).1
  · exact (listGames_inv E o _ _ s h e s1 hr).1
  · exact (joinGame_ok E o _ _ s h e s1 hr).1
  · exact (leaveGame_inv o _ _ s h e s1 hr).1
  · exact move_inv E _ _ s h e s1 hr
  · exact (boardStatus_inv E _ _ s h e s1 hr).1
  · exact (turnStatus_inv _ _ s h e s1 hr).1
  · exact (spectateGame_ok E o _ _ s h e s1 hr).1
  · exact (quit_inv o _ _ s h e s1 hr).1
  · simp only [Option.some.injEq, Prod.mk.injEq] at hr
    rw [← hr.2]; exact h

theorem serviceMessage_err (E : Env)
    (hE : ∀ g src dst, (E.Move g src dst).err ≠ none → (E.Move g src dst).game = g)
    (o : Oracle) (m : ClientMessage) (s : State)
    (h : Inv s) (err : String) (s1 : State)
    (hr : serviceMessage E o m s = some (some err, s1)) : s1 = s := by
  unfold serviceMessage supportedCommands at hr
  split_ifs at hr
  · exact (newGame_inv E o _ _ s h _ s1 hr).2 err rfl
  · exact (listGames_inv E o _ _ s h _ s1 hr).2 err rfl
  · exact ((joinGame_ok E o _ _ s h _ s1 hr).2 err rfl).1
  · exact (leaveGame_inv o _ _ s h _ s1 hr).2 err rfl
  · exact move_err E hE _ _ s err s1 hr
  · exact (boardStatus_inv E _ _ s h _ s1 hr).2 err rfl
  · exact (turnStatus_inv _ _ s h _ s1 hr).2 err rfl
  · exact (spectateGame_ok E o _ _ s h _ s1 hr).2 err rfl
  · exact (quit_inv o _ _ s h _ s1 hr).2 err rfl
  · simp only [Option.some.injEq, Prod.mk.injEq] at hr
    exact hr.2.symm

theorem serviceMessages_inv (E : Env) (o : Oracle) (m : ClientMessage) (s : State)
    (h : Inv s) (s1 : State) (hr : serviceMessages E o m s = some s1) : Inv s1 := by
  unfold serviceMessages at hr
  obtain ⟨r, hr1, hr2⟩ := Option.map_eq_some'.mp hr
  obtain ⟨e, s2⟩ := r
  have hinv := serviceMessage_inv E o m s h e s2 hr1
  subst hr2
  cases e <;> exact Inv_congr hinv rfl rfl rfl rfl (fun _ => rfl) (fun _ => rfl)

/-- Every state the coordinator reaches is consistent. -/
theorem Reachable_inv (E : Env) (s : State) (h : Reachable E s) : Inv s := by
  induction h with
  | init => exact Inv_empty E
  | step o m _ hstep ih => exact serviceMessages_inv E o m _ ih _ hstep


end Server

namespace checkers

open Player

/-! ## The rules engine of the spec -/

/-- A successful `Move` is `applyMove` on the piece at `src`, as a jump when a
jump is available for the side to move and as a step otherwise; a rejected
`Move` gives back the game and `NO_POS`. -/
theorem Move_cases (g : Game) (src dst : Pos) :
    ((g.Move src dst).err ≠ none ∧ (g.Move src dst).game = g ∧ (g.Move src dst).cap = NO_POS
      ∧ ¬ (g.jumpAvailable g.Turn = true ∧ g.ValidJump src dst = true
            ∧ ∃ piece, g.Pieces src = some piece ∧ piece.Player = g.Turn))
    ∨ (∃ piece, g.Pieces src = some piece ∧ piece.Player = g.Turn
        ∧ ((g.jumpAvailable g.Turn = true ∧ g.ValidJump src dst = true
              ∧ g.Move src dst = applyMove g src dst piece true)
          ∨ (g.jumpAvailable g.Turn = false ∧ g.ValidMove src dst = true
              ∧ g.Move src dst = applyMove g src dst piece false))) := by
  unfold Game.Move
  cases hp : g.Pieces src with
  | none => left; simp
  | some piece =>
    simp only
    by_cases h1 : piece.Player = g.Turn
    · by_cases h2 : g.jumpAvailable g.Turn = true
      · by_cases h3 : g.ValidJump src dst = true
        · right
          exact ⟨piece, rfl, h1, Or.inl ⟨h2, h3, by simp [h1, h2, h3]⟩⟩
        · left; simp [h1, h2, h3]
      · by_cases h3 : g.ValidMove src dst = true
        · right
          have h2f : g.jumpAvailable g.Turn = false := by simpa using h2
          exact ⟨piece, rfl, h1, Or.inr ⟨h2f, h3, by simp [h1, h2, h3]⟩⟩
        · left; simp [h1, h2, h3]
    · left; simp [h1]

theorem applyMove_err (g : Game) (src dst : Pos) (piece : Piece) (j : Bool) :
    (applyMove g src dst piece j).err = none := rfl

/-- A rejected `Move` does not alter the game and returns `NO_POS`. -/
theorem Move_rejected (g : Game) (src dst : Pos) (h : (g.Move src dst).err ≠ none) :
    (g.Move src dst).game = g ∧ (g.Move src dst).cap = NO_POS := by
  rcases Move_cases g src dst with ⟨_, h2, h3, _⟩ | ⟨piece, _, _, ⟨_, _, h3⟩ | ⟨_, _, h3⟩⟩
  · exact ⟨h2, h3⟩
  · rw [h3] at h; exact absurd (applyMove_err g src dst piece true) h
  · rw [h3] at h; exact absurd (applyMove_err g src dst piece false) h

theorem mem_grid (xs ys : List Int) (x y : Int) (hx : x ∈ xs) (hy : y ∈ ys) :
    (⟨x, y⟩ : Pos) ∈ ys.foldr (fun y acc => xs.map (fun x => (⟨x, y⟩ : Pos)) ++ acc) [] := by
  induction ys with
  | nil => simp at hy
  | cons b ys ih =>
    simp only [List.foldr_cons, List.mem_append, List.mem_map]
    rcases List.mem_cons.mp hy with h | h
    · left; exact ⟨x, hx, by rw [h]⟩
    · right; exact ih h

theorem mem_coordRange (x : Int) (h1 : -2 ≤ x) (h2 : x ≤ 9) : x ∈ coordRange := by
  unfold coordRange
  interval_cases x <;> decide

theorem mem_sourceRegion (p : Pos) (hx1 : -2 ≤ p.X) (hx2 : p.X ≤ 9) (hy1 : -2 ≤ p.Y)
    (hy2 : p.Y ≤ 9) : p ∈ sourceRegion :=
  mem_grid coordRange coordRange p.X p.Y (mem_coordRange _ hx1 hx2) (mem_coordRange _ hy1 hy2)

/-- What `ValidJump` says when it holds. -/
theorem ValidJump_true (g : Game) (src dst : Pos) (h : g.ValidJump src dst = true) :
    ∃ piece, g.Pieces src = some piece ∧ usable dst = true
      ∧ (dst.X - src.X).natAbs = 2 ∧ (dst.Y - src.Y).natAbs = 2 := by
  unfold Game.ValidJump at h
  cases hp : g.Pieces src with
  | none => rw [hp] at h; exact Bool.noConfusion h
  | some piece =>
    rw [hp] at h
    simp only [Bool.and_eq_true, decide_eq_true_eq] at h
    exact ⟨piece, rfl, h.1.1.1.1.1, h.1.1.1.2, h.1.1.2⟩

/-- A valid jump of a piece makes a jump available for its owner: the search
of `jumpAvailable` misses no jump. -/
theorem jumpAvailable_of_ValidJump (g : Game) (src dst : Pos) (piece : Piece)
    (hp : g.Pieces src = some piece) (h : g.ValidJump src dst = true) :
    g.jumpAvailable piece.Player = true := by
  obtain ⟨_, _, hu, hx, hy⟩ := ValidJump_true g src dst h
  unfold usable at hu
  simp only [Bool.and_eq_true, decide_eq_true_eq] at hu
  obtain ⟨⟨⟨⟨hu1, hu2⟩, hu3⟩, hu4⟩, _⟩ := hu
  unfold Game.jumpAvailable
  rw [List.any_eq_true]
  refine ⟨src, mem_sourceRegion src (by omega) (by omega) (by omega) (by omega), ?_⟩
  rw [hp]
  simp only [decide_True, Bool.true_and]
  unfold Game.jumpPossibleFrom
  rw [List.any_eq_true]
  have hdx : dst.X = src.X + 2 * 1 ∨ dst.X = src.X + 2 * (-1) := by omega
  have hdy : dst.Y = src.Y + 2 * 1 ∨ dst.Y = src.Y + 2 * (-1) := by omega
  obtain ⟨dx, dy⟩ := dst
  simp only at hdx hdy
  rcases hdx with hdx | hdx <;> rcases hdy with hdy | hdy
  · exact ⟨(1, 1), by simp [diagonals], by rw [← hdx, ← hdy]; exact h⟩
  · exact ⟨(1, -1), by simp [diagonals], by rw [← hdx, ← hdy]; exact h⟩
  · exact ⟨(-1, 1), by simp [diagonals], by rw [← hdx, ← hdy]; exact h⟩
  · exact ⟨(-1, -1), by simp [diagonals], by rw [← hdx, ← hdy]; exact h⟩

/-- Whether a jump is possible depends on the pieces only. -/
theorem jumpPossibleFrom_congr (g g1 : Game) (h : g.Pieces = g1.Pieces) (p : Pos) :
    g.jumpPossibleFrom p = g1.jumpPossibleFrom p := by
  unfold Game.jumpPossibleFrom Game.ValidJump
  rw [h]

/-- The turn after `applyMove`, in terms of the game it returns. -/
theorem applyMove_turn (g : Game) (src dst : Pos) (piece : Piece) (isJump : Bool) :
    (applyMove g src dst piece isJump).game.Turn
      = if (isJump && (applyMove g src dst piece isJump).game.jumpPossibleFrom dst
            && !(onBackRank piece.Player dst && !piece.King)) = true
        then g.Turn else opponent g.Turn := rfl

/-- A successful `Move` along a valid jump is `applyMove` as a jump. -/
theorem Move_jump (g : Game) (src dst : Pos) (piece : Piece)
    (hp : g.Pieces src = some piece) (hj : g.ValidJump src dst = true)
    (hok : (g.Move src dst).err = none) :
    piece.Player = g.Turn ∧ g.Move src dst = applyMove g src dst piece true := by
  rcases Move_cases g src dst with ⟨h1, _⟩ | ⟨piece1, hp1, hown, hcase⟩
  · exact absurd hok h1
  · rw [hp] at hp1
    have hpe : piece = piece1 := Option.some.inj hp1
    subst hpe
    refine ⟨hown, ?_⟩
    rcases hcase with ⟨_, _, h3⟩ | ⟨h2, _, _⟩
    · exact h3
    · have := jumpAvailable_of_ValidJump g src dst piece hp hj
      rw [hown, h2] at this
      exact Bool.noConfusion this

/-! ## The claims on the rules engine -/

/-- C9 (mandatory capture): when some piece of the side to move has a valid
jump, `Move(src, dst)` for a pair that is not a valid jump returns an error
and `NO_POS`, and leaves the board and the turn unchanged. -/
theorem C9_mandatory_capture (g : Game) (src dst s d : Pos) (piece : Piece)
    (hp : g.Pieces s = some piece) (hown : piece.Player = g.Turn)
    (hj : g.ValidJump s d = true) (hnot : g.ValidJump src dst = false) :
    (g.Move src dst).err ≠ none ∧ (g.Move src dst).cap = NO_POS
      ∧ (g.Move src dst).game.Pieces = g.Pieces ∧ (g.Move src dst).game.Turn = g.Turn := by
  have hav : g.jumpAvailable g.Turn = true := by
    rw [← hown]; exact jumpAvailable_of_ValidJump g s d piece hp hj
  rcases Move_cases g src dst with ⟨h1, h2, h3, _⟩ | ⟨_, _, _, ⟨_, h2, _⟩ | ⟨h2, _, _⟩⟩
  · exact ⟨h1, h3, by rw [h2], by rw [h2]⟩
  · rw [hnot] at h2; exact Bool.noConfusion h2
  · rw [hav] at h2; exact Bool.noConfusion h2

/-- C9 at the position of `TestMustJump`: the man at (3,2) can jump to (5,4),
so the step of the man at (1,2) to (0,3) is rejected. -/
theorem C9_mandatory_capture_witness :
    mustJumpGame.Pieces ⟨3, 2⟩ = some ⟨BLACK_PLAYER, false⟩
    ∧ (⟨BLACK_PLAYER, false⟩ : Piece).Player = mustJumpGame.Turn
    ∧ mustJumpGame.ValidJump ⟨3, 2⟩ ⟨5, 4⟩ = true
    ∧ mustJumpGame.ValidJump ⟨1, 2⟩ ⟨0, 3⟩ = false
    ∧ mustJumpGame.ValidMove ⟨1, 2⟩ ⟨0, 3⟩ = true
    ∧ ((mustJumpGame.Move ⟨1, 2⟩ ⟨0, 3⟩).err ≠ none
        ∧ (mustJumpGame.Move ⟨1, 2⟩ ⟨0, 3⟩).cap = NO_POS
        ∧ (mustJumpGame.Move ⟨1, 2⟩ ⟨0, 3⟩).game.Pieces = mustJumpGame.Pieces
        ∧ (mustJumpGame.Move ⟨1, 2⟩ ⟨0, 3⟩).game.Turn = mustJumpGame.Turn) :=
  ⟨by decide, by decide, by decide, by decide, by decide,
    C9_mandatory_capture mustJumpGame ⟨1, 2⟩ ⟨0, 3⟩ ⟨3, 2⟩ ⟨5, 4⟩ ⟨BLACK_PLAYER, false⟩
      (by decide) (by decide) (by decide) (by decide)⟩

/-- C10 (new king stops the chain): after a successful jump, a man that lands
on its owner's back rank is crowned and the turn passes to the opponent,
whether or not a further jump is available from the landing square; a piece
that was a king before the jump and has a further jump available from the
landing square keeps the turn. -/
theorem C10_new_king_stops_chain (g : Game) (src dst : Pos) (piece : Piece)
    (hp : g.Pieces src = some piece) (hj : g.ValidJump src dst = true)
    (hok : (g.Move src dst).err = none) :
    (piece.King = false → onBackRank piece.Player dst = true →
        (g.Move src dst).game.Pieces dst = some ⟨piece.Player, true⟩
        ∧ (g.Move src dst).game.Turn = opponent g.Turn)
    ∧ (piece.King = true → (g.Move src dst).game.jumpPossibleFrom dst = true →
        (g.Move src dst).game.Turn = g.Turn) := by
  obtain ⟨_, hmove⟩ := Move_jump g src dst piece hp hj hok
  rw [hmove]
  constructor
  · intro hk hb
    simp [applyMove, movedPieces, hk, hb]
  · intro hk hfurther
    rw [applyMove_turn, hfurther, hk]
    simp

/-- C10 at the positions of the two tests: the black man jumps from (4,5) to
(2,7), is crowned, could jump on to (0,5), and the turn passes to RED; the
black king making the same jump keeps the turn. -/
theorem C10_new_king_stops_chain_witness :
    (newKingGame.Pieces ⟨4, 5⟩ = some ⟨BLACK_PLAYER, false⟩
      ∧ newKingGame.ValidJump ⟨4, 5⟩ ⟨2, 7⟩ = true
      ∧ (newKingGame.Move ⟨4, 5⟩ ⟨2, 7⟩).err = none
      ∧ onBackRank BLACK_PLAYER ⟨2, 7⟩ = true
      ∧ (newKingGame.Move ⟨4, 5⟩ ⟨2, 7⟩).game.jumpPossibleFrom ⟨2, 7⟩ = true
      ∧ (newKingGame.Move ⟨4, 5⟩ ⟨2, 7⟩).game.Pieces ⟨2, 7⟩ = some ⟨BLACK_PLAYER, true⟩
      ∧ (newKingGame.Move ⟨4, 5⟩ ⟨2, 7⟩).game.Turn = opponent newKingGame.Turn)
    ∧ (oldKingGame.Pieces ⟨4, 5⟩ = some ⟨BLACK_PLAYER, true⟩
      ∧ oldKingGame.ValidJump ⟨4, 5⟩ ⟨2, 7⟩ = true
      ∧ (oldKingGame.Move ⟨4, 5⟩ ⟨2, 7⟩).err = none
      ∧ (oldKingGame.Move ⟨4, 5⟩ ⟨2, 7⟩).game.jumpPossibleFrom ⟨2, 7⟩ = true
      ∧ (oldKingGame.Move ⟨4, 5⟩ ⟨2, 7⟩).game.Turn = oldKingGame.Turn) :=
  ⟨⟨by decide, by decide, by decide, by decide, by decide,
      ((C10_new_king_stops_chain newKingGame ⟨4, 5⟩ ⟨2, 7⟩ ⟨BLACK_PLAYER, false⟩
        (by decide) (by decide) (by decide)).1 rfl (by decide)).1,
      ((C10_new_king_stops_chain newKingGame ⟨4, 5⟩ ⟨2, 7⟩ ⟨BLACK_PLAYER, false⟩
        (by decide) (by decide) (by decide)).1 rfl (by decide)).2⟩,
    ⟨by decide, by decide, by decide, by decide,
      (C10_new_king_stops_chain oldKingGame ⟨4, 5⟩ ⟨2, 7⟩ ⟨BLACK_PLAYER, true⟩
        (by decide) (by decide) (by decide)).2 rfl (by decide)⟩⟩

end checkers

namespace Server

open checkers checkers.Player

/-! ## Sample runs -/

theorem runMessages_reachable (E : Env) (l : List (Oracle × ClientMessage)) :
    ∀ (s s1 : State), Reachable E s → runMessages E l s = some s1 → Reachable E s1 := by
  induction l with
  | nil =>
    intro s s1 hs h
    simp only [runMessages, Option.some.injEq] at h
    rw [← h]; exact hs
  | cons a l ih =>
    intro s s1 hs h
    obtain ⟨o, m⟩ := a
    simp only [runMessages] at h
    obtain ⟨s2, h2, h3⟩ := Option.bind_eq_some.mp h
    exact ih s2 s1 (Reachable.step o m hs h2) h3

theorem stateAfter_reachable (l : List ClientMessage) : Reachable specEnv (stateAfter l) := by
  unfold stateAfter
  cases h : runMessages specEnv (l.map (fun m => (sampleOracle, m))) (State.empty specEnv) with
  | none => exact Reachable.init
  | some s1 => exact runMessages_reachable specEnv _ _ s1 Reachable.init h

theorem specEnv_move_err (g : checkers.Game) (src dst : Pos)
    (h : (specEnv.Move g src dst).err ≠ none) : (specEnv.Move g src dst).game = g :=
  (checkers.Move_rejected g src dst h).1

/-! ## Broadcasts of `move` -/

/-- In a consistent state `Broadcast` reaches every participant of a game once. -/
theorem recipients_count (s : State) (h : Inv s) (gp : Nat) (x : Client)
    (hx : (s.heap gp).hasParticipant x) (game : Game)
    (hP : game.Players = (s.heap gp).Players) (hS : game.Spectators = (s.heap gp).Spectators) :
    (game.recipients []).count x = 1 := by
  have hno := h.no_player_seat gp
  have hcount : (game.recipients []).count x
      = (allPlayers.filterMap (s.heap gp).Players).count x + (s.heap gp).Spectators.count x := by
    unfold Game.recipients
    rw [hP, hS]
    simp
  rw [hcount]
  rcases hx with ⟨p, hp⟩ | hm
  · have hpl := h.seat_player gp p x hp
    have hns : x ∉ (s.heap gp).Spectators := by
      intro hm
      have := (h.spectator_iff x gp).mpr hm
      rcases h.disjoint x with h1 | h1
      · rw [h1] at hpl; exact Option.noConfusion hpl
      · rw [h1] at this; exact Option.noConfusion this
    rw [List.count_eq_zero_of_not_mem hns]
    have huniq := h.seat_unique gp
    cases p with
    | NO_PLAYER => rw [hno] at hp; exact Option.noConfusion hp
    | BLACK_PLAYER =>
      have hr : (s.heap gp).Players RED_PLAYER ≠ some x := by
        intro hr
        have := huniq _ _ x hp hr
        exact Player.noConfusion this
      cases hrv : (s.heap gp).Players RED_PLAYER with
      | none => simp [allPlayers, List.filterMap, hno, hp, hrv]
      | some y =>
        have hyx : y ≠ x := by
          intro e; rw [hrv, e] at hr; exact hr rfl
        simp [allPlayers, List.filterMap, hno, hp, hrv, List.count_cons, hyx]
    | RED_PLAYER =>
      have hb : (s.heap gp).Players BLACK_PLAYER ≠ some x := by
        intro hb
        have := huniq _ _ x hp hb
        exact Player.noConfusion this
      cases hbv : (s.heap gp).Players BLACK_PLAYER with
      | none => simp [allPlayers, List.filterMap, hno, hp, hbv]
      | some y =>
        have hyx : y ≠ x := by
          intro e; rw [hbv, e] at hb; exact hb rfl
        simp [allPlayers, List.filterMap, hno, hp, hbv, List.count_cons, hyx]
  · have hsp := (h.spectator_iff x gp).mpr hm
    have hnoseat : ∀ q, (s.heap gp).Players q ≠ some x := by
      intro q hq
      have hpl := h.seat_player gp q x hq
      rcases h.disjoint x with h1 | h1
      · rw [h1] at hpl; exact Option.noConfusion hpl
      · rw [h1] at hsp; exact Option.noConfusion hsp
    rw [List.count_eq_one_of_mem (h.spectators_nodup gp) hm]
    have : (allPlayers.filterMap (s.heap gp).Players).count x = 0 := by
      apply List.count_eq_zero_of_not_mem
      intro hmem
      obtain ⟨q, _, hq⟩ := List.mem_filterMap.mp hmem
      exact hnoseat q hq
    rw [this]

/-- The queue of a participant after a successful `move`: the status messages
of the source, in its order. -/
theorem move_broadcasts (E : Env) (s : State) (h : Inv s) (c : Client) (args : List String)
    (gp : Nat) (src dst : Pos)
    (hc : s.Players c = some gp) (hpos : createPos E args = .ok (src, dst))
    (hturn : (s.heap gp).TurnIs E c = true)
    (hmv : (E.Move (s.heap gp).GameState src dst).err = none) :
    ∃ s1, move E c args s = some (none, s1)
      ∧ (∀ g, g ≠ gp → s1.heap g = s.heap g)
      ∧ s1.heap gp = { s.heap gp with GameState := (E.Move (s.heap gp).GameState src dst).game }
      ∧ ∀ x, (s.heap gp).hasParticipant x →
        s1.Messages x = s.Messages x ++
          moveStatusMessages src dst (E.Move (s.heap gp).GameState src dst).cap
            (decide ((E.Move (s.heap gp).GameState src dst).cap ≠ NO_POS))
            (!((s.heap gp).GameState.pieceOrZero src).King
              && ((E.Move (s.heap gp).GameState src dst).game.pieceOrZero dst).King)
            (if E.Winner (E.Move (s.heap gp).GameState src dst).game ≠ NO_PLAYER
              then some (E.Winner (E.Move (s.heap gp).GameState src dst).game).Color else none)
            (if ((s.heap gp).Players BLACK_PLAYER).isSome && ((s.heap gp).Players RED_PLAYER).isSome
              then (E.Move (s.heap gp).GameState src dst).game.Turn.Color else "waiting") := by
  have hT := Turn_eq { s.heap gp with GameState := (E.Move (s.heap gp).GameState src dst).game }
    (h.no_player_seat gp)
  simp only at hT
  unfold move
  simp only [hc, hpos, hturn, if_true, hmv, hT, Option.map_some']
  refine ⟨_, rfl, ?_, ?_, ?_⟩
  · intro g hg
    simp only [Broadcast_heap]
    split_ifs <;> simp [State.setGame, Function.update_noteq hg]
  · simp only [Broadcast_heap]
    split_ifs <;> simp [State.setGame]
  · intro x hx
    have hcnt := recipients_count s h gp x hx
      { s.heap gp with GameState := (E.Move (s.heap gp).GameState src dst).game } rfl rfl
    simp only [Broadcast_Messages, hcnt, List.replicate_one]
    unfold moveStatusMessages Game.HasWinner Game.Winner
    split_ifs <;>
      simp_all [Broadcast_Messages, State.setGame, List.replicate_one]

theorem String_toList_append (a b : String) : (a ++ b).toList = a.toList ++ b.toList := by
  simp [String.toList]

theorem isTurnStatus_turn (r : String) : isTurnStatus ("STATUS TURN " ++ r) = true := by
  unfold isTurnStatus
  rw [String_toList_append]
  have h1 : "STATUS TURN ".toList = ['S', 'T', 'A', 'T', 'U', 'S', ' ', 'T', 'U', 'R', 'N', ' '] := by
    decide
  have h2 : "STATUS TURN".toList = ['S', 'T', 'A', 'T', 'U', 'S', ' ', 'T', 'U', 'R', 'N'] := by
    decide
  rw [h1, h2]
  simp [List.isPrefixOf]

theorem isTurnStatus_moved (r : String) : isTurnStatus ("STATUS MOVED " ++ r) = false := by
  unfold isTurnStatus
  rw [String_toList_append]
  have h1 : "STATUS MOVED ".toList
      = ['S', 'T', 'A', 'T', 'U', 'S', ' ', 'M', 'O', 'V', 'E', 'D', ' '] := by decide
  have h2 : "STATUS TURN".toList = ['S', 'T', 'A', 'T', 'U', 'S', ' ', 'T', 'U', 'R', 'N'] := by
    decide
  rw [h1, h2]
  simp [List.isPrefixOf]

theorem isTurnStatus_captured (r : String) : isTurnStatus ("STATUS CAPTURED " ++ r) = false := by
  unfold isTurnStatus
  rw [String_toList_append]
  have h1 : "STATUS CAPTURED ".toList
      = ['S', 'T', 'A', 'T', 'U', 'S', ' ', 'C', 'A', 'P', 'T', 'U', 'R', 'E', 'D', ' '] := by
    decide
  have h2 : "STATUS TURN".toList = ['S', 'T', 'A', 'T', 'U', 'S', ' ', 'T', 'U', 'R', 'N'] := by
    decide
  rw [h1, h2]
  simp [List.isPrefixOf]

theorem isTurnStatus_king (r : String) : isTurnStatus ("STATUS KING " ++ r) = false := by
  unfold isTurnStatus
  rw [String_toList_append]
  have h1 : "STATUS KING ".toList
      = ['S', 'T', 'A', 'T', 'U', 'S', ' ', 'K', 'I', 'N', 'G', ' '] := by decide
  have h2 : "STATUS TURN".toList = ['S', 'T', 'A', 'T', 'U', 'S', ' ', 'T', 'U', 'R', 'N'] := by
    decide
  rw [h1, h2]
  simp [List.isPrefixOf]

theorem isTurnStatus_winner (r : String) : isTurnStatus ("STATUS WINNER " ++ r) = false := by
  unfold isTurnStatus
  rw [String_toList_append]
  have h1 : "STATUS WINNER ".toList
      = ['S', 'T', 'A', 'T', 'U', 'S', ' ', 'W', 'I', 'N', 'N', 'E', 'R', ' '] := by decide
  have h2 : "STATUS TURN".toList = ['S', 'T', 'A', 'T', 'U', 'S', ' ', 'T', 'U', 'R', 'N'] := by
    decide
  rw [h1, h2]
  simp [List.isPrefixOf]

/-- The messages of a successful move end with the only `STATUS TURN` message. -/
theorem moveStatusMessages_turn (src dst cap : Pos) (captured crowned : Bool)
    (winner : Option String) (turn : String) :
    ∃ pre, moveStatusMessages src dst cap captured crowned winner turn
        = pre ++ ["STATUS TURN " ++ turn]
      ∧ ∀ m, m ∈ pre → isTurnStatus m = false := by
  refine ⟨_, rfl, ?_⟩
  intro m hm
  simp only [List.mem_append, List.mem_singleton] at hm
  rcases hm with ((hm | hm) | hm) | hm
  · rw [hm]
    simp only [String.append_assoc]
    exact isTurnStatus_moved _
  · cases captured
    · simp at hm
    · simp only [if_true, List.mem_singleton] at hm
      rw [hm]
      simp only [String.append_assoc]
      exact isTurnStatus_captured _
  · cases crowned
    · simp at hm
    · simp only [if_true, List.mem_singleton] at hm
      rw [hm]
      simp only [String.append_assoc]
      exact isTurnStatus_king _
  · cases winner with
    | none => simp at hm
    | some w =>
      simp only [List.mem_singleton] at hm
      rw [hm]
      exact isTurnStatus_winner _

/-! ## The claims on the session coordinator -/

/-- C1, evaluated on a registered game with both seats open (client 1 created
the game and left it): `JOIN` by client 2 succeeds and seats the client as RED,
the BLACK seat stays open, and the client is told `STATUS YOU_ARE red`:
`OpenSeats` never advances its index, so its first entry is the last open seat. -/
theorem C1_join_open_game_seats_red :
    (openGameState.heap 0).Players BLACK_PLAYER = none
    ∧ (openGameState.heap 0).Players RED_PLAYER = none
    ∧ gamesGet openGameState.Games sampleId = some 0
    ∧ (joinGame specEnv sampleOracle 2 [sampleId] openGameState).map
        (fun r => (r.1, (r.2.heap 0).Players BLACK_PLAYER, (r.2.heap 0).Players RED_PLAYER,
          (r.2.Messages 2).drop 2))
      = some (none, none, some 2, ["STATUS YOU_ARE red", "STATUS TURN waiting"]) := by
  decide

/-- C3: in every reachable state, a handler that returns an error leaves the
whole state as it was: the three tables, every game (seats, spectators,
rules-engine state) and every outbound queue; provided the rules engine's
`Move` leaves its game unchanged when it returns an error. -/
theorem C3_error_leaves_state_unchanged (E : Env)
    (hE : ∀ g src dst, (E.Move g src dst).err ≠ none → (E.Move g src dst).game = g)
    (s : State) (hs : Reachable E s) (o : Oracle) (m : ClientMessage)
    (err : String) (s1 : State)
    (hr : serviceMessage E o m s = some (some err, s1)) : s1 = s :=
  serviceMessage_err E hE o m s (Reachable_inv E s hs) err s1 hr

theorem rejectedMove_result :
    serviceMessage specEnv sampleOracle ⟨2, "MOVE", ["3", "2", "3", "3"]⟩ twoPlayersState
      = some (some "illegal move", rejectedMoveState) := by
  have h : (serviceMessage specEnv sampleOracle ⟨2, "MOVE", ["3", "2", "3", "3"]⟩
      twoPlayersState).map Prod.fst = some (some "illegal move") := by decide
  unfold rejectedMoveState
  cases hx : serviceMessage specEnv sampleOracle ⟨2, "MOVE", ["3", "2", "3", "3"]⟩
      twoPlayersState with
  | none => rw [hx] at h; exact Option.noConfusion h
  | some r =>
    rw [hx] at h
    simp only [Option.map_some', Option.some.injEq] at h
    simp only [Option.map_some', Option.getD_some]
    rw [← h]

/-- C3 at a sample input: seated players 1 and 2; the rules engine rejects
the move 3 2 3 3 of client 2, and the state is unchanged. -/
theorem C3_error_leaves_state_unchanged_witness :
    Reachable specEnv twoPlayersState
    ∧ serviceMessage specEnv sampleOracle ⟨2, "MOVE", ["3", "2", "3", "3"]⟩ twoPlayersState
        = some (some "illegal move", rejectedMoveState)
    ∧ rejectedMoveState = twoPlayersState :=
  ⟨stateAfter_reachable _, rejectedMove_result,
    C3_error_leaves_state_unchanged specEnv specEnv_move_err twoPlayersState
      (stateAfter_reachable _) sampleOracle ⟨2, "MOVE", ["3", "2", "3", "3"]⟩ "illegal move"
      rejectedMoveState rejectedMove_result⟩

/-- C4: in every reachable state no client is a key of both the `Players`
and the `Spectators` table. -/
theorem C4_player_or_spectator (E : Env) (s : State) (hs : Reachable E s) (c : Client) :
    ¬ ((s.Players c).isSome = true ∧ (s.Spectators c).isSome = true) := by
  rintro ⟨h1, h2⟩
  rcases (Reachable_inv E s hs).disjoint c with h | h
  · rw [h] at h1; exact Bool.noConfusion h1
  · rw [h] at h2; exact Bool.noConfusion h2

/-- C4 at a sample state: two players and two spectators; client 3 spectates. -/
theorem C4_player_or_spectator_witness :
    Reachable specEnv twoSpectatorsState
    ∧ ¬ ((twoSpectatorsState.Players 3).isSome = true
          ∧ (twoSpectatorsState.Spectators 3).isSome = true) :=
  ⟨stateAfter_reachable _, C4_player_or_spectator specEnv twoSpectatorsState
    (stateAfter_reachable _) 3⟩

/-- C5: in every reachable state, for every client `c` and game `g`, the
`Players` table maps `c` to `g` iff `c` occupies exactly one seat of `g`; and
`c` never holds two seats of a game, nor seats in two games. -/
theorem C5_players_table_iff_one_seat (E : Env) (s : State) (hs : Reachable E s)
    (c : Client) (g : Nat) :
    (s.Players c = some g ↔ ∃! p, (s.heap g).Players p = some c)
    ∧ (∀ p q, (s.heap g).Players p = some c → (s.heap g).Players q = some c → p = q)
    ∧ (∀ g2 p q, (s.heap g).Players p = some c → (s.heap g2).Players q = some c → g = g2) := by
  have h := Reachable_inv E s hs
  refine ⟨⟨fun hc => ?_, fun hp => ?_⟩, fun p q => h.seat_unique g p q c, fun g2 p q hp hq => ?_⟩
  · obtain ⟨p, hp⟩ := h.player_seat c g hc
    exact ⟨p, hp, fun q hq => h.seat_unique g q p c hq hp⟩
  · obtain ⟨p, hp, _⟩ := hp
    exact h.seat_player g p c hp
  · have h1 := h.seat_player g p c hp
    have h2 := h.seat_player g2 q c hq
    rw [h1] at h2
    exact Option.some.inj h2

/-- C5 at a sample state: client 1 created a game and joined it again; it is
in the `Players` table and holds the BLACK seat only. -/
theorem C5_players_table_iff_one_seat_witness :
    Reachable specEnv rejoinedState
    ∧ rejoinedState.Players 1 = some 0
    ∧ (rejoinedState.heap 0).Players BLACK_PLAYER = some 1
    ∧ (rejoinedState.heap 0).Players RED_PLAYER = none
    ∧ (rejoinedState.Players 1 = some 0 ↔ ∃! p, (rejoinedState.heap 0).Players p = some 1) :=
  ⟨stateAfter_reachable _, by decide, by decide, by decide,
    (C5_players_table_iff_one_seat specEnv rejoinedState (stateAfter_reachable _) 1 0).1⟩

/-- C6, evaluated on a game whose spectator slice is `[3, 4]`: `LEAVE` by
client 3, the spectator at index 0, makes the removal loop index the slice out
of range (the loop goes on after the swap and meets the client again at the
old final index), so the handler does not return. -/
theorem C6_leave_first_spectator_panics :
    (twoSpectatorsState.heap 0).Spectators = [3, 4]
    ∧ twoSpectatorsState.Spectators 3 = some 0
    ∧ twoSpectatorsState.Players 3 = none
    ∧ removeSpectator 3 [3, 4] = none
    ∧ (leaveGame sampleOracle 3 [] twoSpectatorsState).isNone = true := by
  decide

/-- C7, evaluated on the same input as C6: the coordinator handles the
message `LEAVE` of the spectator at index 0, the handler panics, and nothing is
acknowledged. -/
theorem C7_no_acknowledgement_on_panic :
    (serviceMessages specEnv sampleOracle ⟨3, "LEAVE", []⟩ twoSpectatorsState).isNone = true := by
  decide

/-- Whenever the handler returns, the coordinator appends exactly one
acknowledgement to the submitting client's queue, after the messages of the
handler: `OK` iff the handler returned no error, else `ERROR` and the error
text; nothing else changes. -/
theorem serviceMessages_ack (E : Env) (o : Oracle) (m : ClientMessage) (s : State)
    (e : Option String) (s1 : State) (hr : serviceMessage E o m s = some (e, s1)) :
    ∃ s2, serviceMessages E o m s = some s2
      ∧ s2.Messages m.Client = s1.Messages m.Client ++
          [match e with
           | none => "OK"
           | some err => "ERROR " ++ err]
      ∧ (∀ x, x ≠ m.Client → s2.Messages x = s1.Messages x)
      ∧ s2.heap = s1.heap ∧ s2.next = s1.next ∧ s2.Games = s1.Games
      ∧ s2.Players = s1.Players ∧ s2.Spectators = s1.Spectators := by
  unfold serviceMessages
  rw [hr]
  cases e with
  | none =>
    refine ⟨_, rfl, ?_, fun x hx => ?_, rfl, rfl, rfl, rfl, rfl⟩
    · simp [send_Messages]
    · simp [send_Messages, hx]
  | some err =>
    refine ⟨_, rfl, ?_, fun x hx => ?_, rfl, rfl, rfl, rfl, rfl⟩
    · simp [send_Messages]
    · simp [send_Messages, hx]

/-- A verb that is not one of the nine commands is answered `invalid command`. -/
theorem serviceMessage_unknown (E : Env) (o : Oracle) (m : ClientMessage) (s : State)
    (h : m.Cmd ∉ ["NEW", "LIST", "JOIN", "LEAVE", "MOVE", "BOARD", "TURN", "SPECTATE", "QUIT"]) :
    serviceMessage E o m s = some (some "invalid command", s) := by
  simp only [List.mem_cons, List.mem_singleton, not_or, List.not_mem_nil, or_false] at h
  obtain ⟨h1, h2, h3, h4, h5, h6, h7, h8, h9⟩ := h
  unfold serviceMessage supportedCommands
  simp only [h1, h2, h3, h4, h5, h6, h7, h8, h9, if_false]


/-- C2: in every reachable state, when the rules engine accepts the move of
the client whose turn it is, `move` succeeds and every seated player and every
spectator of the game receives exactly: MOVED; CAPTURED iff the capture
position is not `NO_POS`; KING iff the piece at `src` was not a king before and
the piece at `dst` is a king after; WINNER iff the game now has a winner; and
TURN last. -/
theorem C2_move_status_sequence (E : Env) (s : State) (hs : Reachable E s) (c : Client)
    (args : List String) (gp : Nat) (src dst : Pos)
    (hc : s.Players c = some gp) (hpos : createPos E args = .ok (src, dst))
    (hturn : (s.heap gp).TurnIs E c = true)
    (hmv : (E.Move (s.heap gp).GameState src dst).err = none) :
    ∃ s1 turn, move E c args s = some (none, s1)
      ∧ ∀ x, (s.heap gp).hasParticipant x →
        s1.Messages x = s.Messages x ++
          moveStatusMessages src dst (E.Move (s.heap gp).GameState src dst).cap
            (decide ((E.Move (s.heap gp).GameState src dst).cap ≠ NO_POS))
            (!((s.heap gp).GameState.pieceOrZero src).King
              && ((E.Move (s.heap gp).GameState src dst).game.pieceOrZero dst).King)
            (if E.Winner (E.Move (s.heap gp).GameState src dst).game ≠ NO_PLAYER
              then some (E.Winner (E.Move (s.heap gp).GameState src dst).game).Color else none)
            turn := by
  obtain ⟨s1, h1, _, _, h2⟩ :=
    move_broadcasts E s (Reachable_inv E s hs) c args gp src dst hc hpos hturn hmv
  exact ⟨s1, _, h1, h2⟩

/-- C2 at a sample input: clients 1 (RED) and 2 (BLACK) are seated, client 2
moves 3 2 4 3. -/
theorem C2_move_status_sequence_witness :
    Reachable specEnv twoPlayersState
    ∧ twoPlayersState.Players 2 = some 0
    ∧ createPos specEnv ["3", "2", "4", "3"] = .ok (⟨3, 2⟩, ⟨4, 3⟩)
    ∧ (twoPlayersState.heap 0).TurnIs specEnv 2 = true
    ∧ (specEnv.Move (twoPlayersState.heap 0).GameState ⟨3, 2⟩ ⟨4, 3⟩).err = none
    ∧ ∃ s1 turn, move specEnv 2 ["3", "2", "4", "3"] twoPlayersState = some (none, s1)
      ∧ ∀ x, (twoPlayersState.heap 0).hasParticipant x →
        s1.Messages x = twoPlayersState.Messages x ++
          moveStatusMessages ⟨3, 2⟩ ⟨4, 3⟩
            (specEnv.Move (twoPlayersState.heap 0).GameState ⟨3, 2⟩ ⟨4, 3⟩).cap
            (decide ((specEnv.Move (twoPlayersState.heap 0).GameState ⟨3, 2⟩ ⟨4, 3⟩).cap ≠ NO_POS))
            (!((twoPlayersState.heap 0).GameState.pieceOrZero ⟨3, 2⟩).King
              && ((specEnv.Move (twoPlayersState.heap 0).GameState ⟨3, 2⟩ ⟨4, 3⟩).game.pieceOrZero
                    ⟨4, 3⟩).King)
            (if specEnv.Winner (specEnv.Move (twoPlayersState.heap 0).GameState ⟨3, 2⟩ ⟨4, 3⟩).game
                ≠ NO_PLAYER
              then some (specEnv.Winner
                (specEnv.Move (twoPlayersState.heap 0).GameState ⟨3, 2⟩ ⟨4, 3⟩).game).Color
              else none)
            turn :=
  ⟨stateAfter_reachable _, by decide, rfl, by decide, by decide,
    C2_move_status_sequence specEnv twoPlayersState (stateAfter_reachable _) 2
      ["3", "2", "4", "3"] 0 ⟨3, 2⟩ ⟨4, 3⟩ (by decide) rfl (by decide) (by decide)⟩

/-- C8 fails when the mover is the only seated player: client 2 holds the
BLACK seat alone (client 1 left), moves 3 2 4 3 with success, and the last
status message of the move is `STATUS TURN waiting`, which names no player. -/
theorem C8_lone_mover_turn_waiting :
    Reachable specEnv loneMoverState
    ∧ (loneMoverState.heap 0).Players BLACK_PLAYER = some 2
    ∧ (loneMoverState.heap 0).Players RED_PLAYER = none
    ∧ (move specEnv 2 ["3", "2", "4", "3"] loneMoverState).map
        (fun r => (r.1, (r.2.Messages 2).drop (loneMoverState.Messages 2).length))
      = some (none, ["STATUS MOVED 3 2 4 3", "STATUS TURN waiting"])
    ∧ "STATUS TURN waiting" ≠ "STATUS TURN black"
    ∧ "STATUS TURN waiting" ≠ "STATUS TURN red" :=
  ⟨stateAfter_reachable _, by decide, by decide, by decide, by decide, by decide⟩

/-- C8 as amended: in every reachable state, a successful move sends every
participant status messages of which the last, and only the last, is a
`STATUS TURN` message; it carries the color of the side to move after the move
when both seats of the game are filled (`black` or `red` when the rules engine
names a player), and `waiting` when a seat is open. -/
theorem C8_one_turn_status_last (E : Env) (s : State) (hs : Reachable E s) (c : Client)
    (args : List String) (gp : Nat) (src dst : Pos)
    (hc : s.Players c = some gp) (hpos : createPos E args = .ok (src, dst))
    (hturn : (s.heap gp).TurnIs E c = true)
    (hmv : (E.Move (s.heap gp).GameState src dst).err = none) :
    ∃ s1 pre t, move E c args s = some (none, s1)
      ∧ (s.heap gp).hasParticipant c
      ∧ (∀ x, (s.heap gp).hasParticipant x →
          s1.Messages x = s.Messages x ++ (pre ++ ["STATUS TURN " ++ t]))
      ∧ (∀ m, m ∈ pre → isTurnStatus m = false)
      ∧ isTurnStatus ("STATUS TURN " ++ t) = true
      ∧ (((s.heap gp).Players BLACK_PLAYER).isSome = true
          ∧ ((s.heap gp).Players RED_PLAYER).isSome = true →
          t = (s1.heap gp).GameState.Turn.Color
          ∧ ((s1.heap gp).GameState.Turn ≠ NO_PLAYER → t = "black" ∨ t = "red"))
      ∧ (¬ (((s.heap gp).Players BLACK_PLAYER).isSome = true
          ∧ ((s.heap gp).Players RED_PLAYER).isSome = true) → t = "waiting") := by
  have hinv := Reachable_inv E s hs
  obtain ⟨s1, h1, _, hgame, h2⟩ := move_broadcasts E s hinv c args gp src dst hc hpos hturn hmv
  obtain ⟨pre, hpre, hnot⟩ := moveStatusMessages_turn src dst
    (E.Move (s.heap gp).GameState src dst).cap
    (decide ((E.Move (s.heap gp).GameState src dst).cap ≠ NO_POS))
    (!((s.heap gp).GameState.pieceOrZero src).King
      && ((E.Move (s.heap gp).GameState src dst).game.pieceOrZero dst).King)
    (if E.Winner (E.Move (s.heap gp).GameState src dst).game ≠ NO_PLAYER
      then some (E.Winner (E.Move (s.heap gp).GameState src dst).game).Color else none)
    (if ((s.heap gp).Players BLACK_PLAYER).isSome && ((s.heap gp).Players RED_PLAYER).isSome
      then (E.Move (s.heap gp).GameState src dst).game.Turn.Color else "waiting")
  refine ⟨s1, pre,
    (if ((s.heap gp).Players BLACK_PLAYER).isSome && ((s.heap gp).Players RED_PLAYER).isSome
      then (E.Move (s.heap gp).GameState src dst).game.Turn.Color else "waiting"),
    h1, ?_, fun x hx => ?_, hnot, isTurnStatus_turn _, fun hboth => ?_, fun hnb => ?_⟩
  · obtain ⟨p, hp⟩ := hinv.player_seat c gp hc
    exact Or.inl ⟨p, hp⟩
  · rw [h2 x hx, hpre]
  · rw [hgame]
    have hb : (((s.heap gp).Players BLACK_PLAYER).isSome
        && ((s.heap gp).Players RED_PLAYER).isSome) = true := by
      rw [hboth.1, hboth.2]; rfl
    rw [hb, if_pos rfl]
    refine ⟨rfl, fun hne => ?_⟩
    simp only at hne ⊢
    cases hcol : (E.Move (s.heap gp).GameState src dst).game.Turn with
    | NO_PLAYER => exact absurd hcol hne
    | BLACK_PLAYER => left; rfl
    | RED_PLAYER => right; rfl
  · have : (((s.heap gp).Players BLACK_PLAYER).isSome
        && ((s.heap gp).Players RED_PLAYER).isSome) = false := by
      simpa [Bool.and_eq_true] using hnb
    rw [this]
    simp

/-- C8 as amended, at the input of the counterexample: the lone mover gets
`STATUS TURN waiting` last. -/
theorem C8_one_turn_status_last_witness :
    Reachable specEnv loneMoverState
    ∧ loneMoverState.Players 2 = some 0
    ∧ createPos specEnv ["3", "2", "4", "3"] = .ok (⟨3, 2⟩, ⟨4, 3⟩)
    ∧ (loneMoverState.heap 0).TurnIs specEnv 2 = true
    ∧ (specEnv.Move (loneMoverState.heap 0).GameState ⟨3, 2⟩ ⟨4, 3⟩).err = none
    ∧ ∃ s1 pre t, move specEnv 2 ["3", "2", "4", "3"] loneMoverState = some (none, s1)
      ∧ (loneMoverState.heap 0).hasParticipant 2
      ∧ (∀ x, (loneMoverState.heap 0).hasParticipant x →
          s1.Messages x = loneMoverState.Messages x ++ (pre ++ ["STATUS TURN " ++ t]))
      ∧ (∀ m, m ∈ pre → isTurnStatus m = false)
      ∧ isTurnStatus ("STATUS TURN " ++ t) = true
      ∧ (((loneMoverState.heap 0).Players BLACK_PLAYER).isSome = true
          ∧ ((loneMoverState.heap 0).Players RED_PLAYER).isSome = true →
          t = (s1.heap 0).GameState.Turn.Color
          ∧ ((s1.heap 0).GameState.Turn ≠ NO_PLAYER → t = "black" ∨ t = "red"))
      ∧ (¬ (((loneMoverState.heap 0).Players BLACK_PLAYER).isSome = true
          ∧ ((loneMoverState.heap 0).Players RED_PLAYER).isSome = true) → t = "waiting") :=
  ⟨stateAfter_reachable _, by decide, rfl, by decide, by decide,
    C8_one_turn_status_last specEnv loneMoverState (stateAfter_reachable _) 2
      ["3", "2", "4", "3"] 0 ⟨3, 2⟩ ⟨4, 3⟩ (by decide) rfl (by decide) (by decide)⟩

end Server

namespace Server

open checkers checkers.Player

/-! ## Further claims on the session coordinator -/

/-- C20, evaluated on a game with both seats open (a game as `NewGame` makes
it): `OpenSeats` returns `[RED, Player{}]`: BLACK, which has no seat, is
missing, and the zero `Player` is listed although it is no seat. -/
theorem C20_open_seats_of_new_game :
    (NewGame specEnv sampleOracle).Players BLACK_PLAYER = none
    ∧ (NewGame specEnv sampleOracle).Players RED_PLAYER = none
    ∧ (NewGame specEnv sampleOracle).OpenSeats = some [RED_PLAYER, NO_PLAYER]
    ∧ BLACK_PLAYER ∉ [RED_PLAYER, NO_PLAYER] := by
  decide

theorem mapM_error (f : String → Except String Int) (l : List String)
    (h : ∃ a, a ∈ l ∧ ∃ e, f a = .error e) : ∃ e, l.mapM f = .error e := by
  induction l with
  | nil => obtain ⟨a, ha, _⟩ := h; simp at ha
  | cons b l ih =>
    rw [List.mapM_cons]
    cases hb : f b with
    | error e => exact ⟨e, rfl⟩
    | ok v =>
      obtain ⟨a, ha, e, he⟩ := h
      rcases List.mem_cons.mp ha with h1 | h1
      · subst h1; rw [hb] at he; exact Except.noConfusion he
      · obtain ⟨e2, he2⟩ := ih ⟨a, h1, e, he⟩
        refine ⟨e2, ?_⟩
        rw [he2]
        rfl

theorem createPos_error (E : Env) (args : List String)
    (h : args.length ≠ 4 ∨ ∃ a, a ∈ args ∧ ∃ e, E.ParseInt a = .error e) :
    ∃ e, createPos E args = .error e := by
  unfold createPos
  by_cases hl : args.length ≠ 4
  · exact ⟨_, if_pos hl⟩
  · rw [if_neg hl]
    rcases h with h | h
    · exact absurd h hl
    · obtain ⟨e, he⟩ := mapM_error E.ParseInt args h
      rw [he]
      exact ⟨e, rfl⟩

/-- C17: `move` returns an error and leaves the state as it is, whatever the
rules engine's `Move` would do (it is not invoked), whenever the client is not
a seated player, or the argument count is not 4, or some argument is rejected
by `ParseInt`, or the client does not hold the seat whose turn it is. -/
theorem C17_move_rejected_before_engine (E : Env) (c : Client) (args : List String) (s : State)
    (h : s.Players c = none ∨ args.length ≠ 4
      ∨ (∃ a, a ∈ args ∧ ∃ e, E.ParseInt a = .error e)
      ∨ (∃ gp, s.Players c = some gp ∧ (s.heap gp).TurnIs E c = false)) :
    ∃ err, move E c args s = some (some err, s)
      ∧ (∀ mv, move { E with Move := mv } c args s = some (some err, s))
      ∧ (s.Players c = none → err = "not playing game")
      ∧ ((∃ gp src dst, s.Players c = some gp ∧ createPos E args = .ok (src, dst)
            ∧ (s.heap gp).TurnIs E c = false) → err = "not your turn") := by
  cases hp : s.Players c with
  | none =>
    refine ⟨"not playing game", ?_, fun mv => ?_, fun _ => rfl, ?_⟩
    · unfold move; rw [hp]
    · unfold move; rw [hp]
    · rintro ⟨gp, _, _, h1, _⟩; exact Option.noConfusion h1
  | some gp =>
    cases hpos : createPos E args with
    | error e =>
      refine ⟨e, ?_, fun mv => ?_, fun h1 => Option.noConfusion h1, ?_⟩
      · unfold move; rw [hp]; simp only [hpos]
      · unfold move; rw [hp]
        have : createPos { E with Move := mv } args = .error e := hpos
        simp only [this]
      · rintro ⟨_, _, _, _, h1, _⟩; exact Except.noConfusion h1
    | ok r =>
      obtain ⟨src, dst⟩ := r
      have hturn : (s.heap gp).TurnIs E c = false := by
        rcases h with h | h | h | h
        · rw [hp] at h; exact Option.noConfusion h
        · obtain ⟨e, he⟩ := createPos_error E args (Or.inl h)
          rw [he] at hpos; exact Except.noConfusion hpos
        · obtain ⟨e, he⟩ := createPos_error E args (Or.inr h)
          rw [he] at hpos; exact Except.noConfusion hpos
        · obtain ⟨gp2, h1, h2⟩ := h
          rw [hp] at h1
          rw [Option.some.inj h1]; exact h2
      refine ⟨"not your turn", ?_, fun mv => ?_, fun h1 => Option.noConfusion h1, fun _ => rfl⟩
      · unfold move; rw [hp]; simp only [hpos, hturn]; rfl
      · unfold move; rw [hp]
        have h1 : createPos { E with Move := mv } args = .ok (src, dst) := hpos
        have h2 : (s.heap gp).TurnIs { E with Move := mv } c = false := hturn
        simp only [h1, h2]; rfl

/-- C17 at a sample input: clients 1 (RED) and 2 (BLACK) are seated, BLACK is
to move, and client 1 sends MOVE 2 5 3 4. -/
theorem C17_move_rejected_before_engine_witness :
    (twoPlayersState.Players 1 = none ∨ ["2", "5", "3", "4"].length ≠ 4
      ∨ (∃ a, a ∈ ["2", "5", "3", "4"] ∧ ∃ e, specEnv.ParseInt a = .error e)
      ∨ (∃ gp, twoPlayersState.Players 1 = some gp
          ∧ (twoPlayersState.heap gp).TurnIs specEnv 1 = false))
    ∧ ∃ err, move specEnv 1 ["2", "5", "3", "4"] twoPlayersState
          = some (some err, twoPlayersState)
      ∧ (∀ mv, move { specEnv with Move := mv } 1 ["2", "5", "3", "4"] twoPlayersState
          = some (some err, twoPlayersState))
      ∧ (twoPlayersState.Players 1 = none → err = "not playing game")
      ∧ ((∃ gp src dst, twoPlayersState.Players 1 = some gp
            ∧ createPos specEnv ["2", "5", "3", "4"] = .ok (src, dst)
            ∧ (twoPlayersState.heap gp).TurnIs specEnv 1 = false) → err = "not your turn") :=
  ⟨Or.inr (Or.inr (Or.inr ⟨0, by decide, by decide⟩)),
    C17_move_rejected_before_engine specEnv 1 ["2", "5", "3", "4"] twoPlayersState
      (Or.inr (Or.inr (Or.inr ⟨0, by decide, by decide⟩)))⟩

/-- C15: in every reachable state and for every client and argument list,
`BOARD` and `TURN` return; when they fail the state is as it was, and they fail
when the client is not in the `Players` table (a spectator is not); when they
succeed the state differs by one message appended to the caller's queue only:
the board encoding, respectively the turn (`waiting` unless both seats are
filled). -/
theorem C15_board_and_turn_read_only (E : Env) (s : State) (hs : Reachable E s) (c : Client)
    (args : List String) :
    (∃ e s1, boardStatus E c args s = some (e, s1)
      ∧ (s.Players c = none → e ≠ none)
      ∧ (e ≠ none → s1 = s)
      ∧ (e = none → ∃ gp, s.Players c = some gp
          ∧ s1 = send c ("STATUS BOARD " ++ E.String (s.heap gp).GameState) s))
    ∧ (∃ e s1, turnStatus c args s = some (e, s1)
      ∧ (s.Players c = none → e ≠ none)
      ∧ (e ≠ none → s1 = s)
      ∧ (e = none → ∃ gp, s.Players c = some gp
          ∧ s1 = send c ("STATUS TURN " ++
              (if ((s.heap gp).Players BLACK_PLAYER).isSome
                    && ((s.heap gp).Players RED_PLAYER).isSome
                then (s.heap gp).GameState.Turn.Color else "waiting")) s)) := by
  have hinv := Reachable_inv E s hs
  constructor
  · unfold boardStatus
    by_cases ha : args.length > 0
    · rw [if_pos ha]
      exact ⟨_, _, rfl, fun _ => by simp, fun _ => rfl, fun h => by simp at h⟩
    · rw [if_neg ha]
      cases hp : s.Players c with
      | none => exact ⟨_, _, rfl, fun _ => by simp, fun _ => rfl, fun h => by simp at h⟩
      | some gp =>
        exact ⟨_, _, rfl, fun h => by simp at h, fun h => by simp at h, fun _ => ⟨gp, rfl, rfl⟩⟩
  · unfold turnStatus
    by_cases ha : args.length > 0
    · rw [if_pos ha]
      exact ⟨_, _, rfl, fun _ => by simp, fun _ => rfl, fun h => by simp at h⟩
    · rw [if_neg ha]
      cases hp : s.Players c with
      | none => exact ⟨_, _, rfl, fun _ => by simp, fun _ => rfl, fun h => by simp at h⟩
      | some gp =>
        simp only [Turn_eq (s.heap gp) (hinv.no_player_seat gp), Option.map_some']
        exact ⟨_, _, rfl, fun h => by simp at h, fun h => by simp at h, fun _ => ⟨gp, rfl, rfl⟩⟩

/-- C15 at a sample input: clients 1 and 2 are seated; client 1 asks. -/
theorem C15_board_and_turn_read_only_witness :
    Reachable specEnv twoPlayersState
    ∧ (∃ e s1, boardStatus specEnv 1 [] twoPlayersState = some (e, s1)
      ∧ (twoPlayersState.Players 1 = none → e ≠ none)
      ∧ (e ≠ none → s1 = twoPlayersState)
      ∧ (e = none → ∃ gp, twoPlayersState.Players 1 = some gp
          ∧ s1 = send 1 ("STATUS BOARD " ++ specEnv.String (twoPlayersState.heap gp).GameState)
              twoPlayersState))
    ∧ (∃ e s1, turnStatus 1 [] twoPlayersState = some (e, s1)
      ∧ (twoPlayersState.Players 1 = none → e ≠ none)
      ∧ (e ≠ none → s1 = twoPlayersState)
      ∧ (e = none → ∃ gp, twoPlayersState.Players 1 = some gp
          ∧ s1 = send 1 ("STATUS TURN " ++
              (if ((twoPlayersState.heap gp).Players BLACK_PLAYER).isSome
                    && ((twoPlayersState.heap gp).Players RED_PLAYER).isSome
                then (twoPlayersState.heap gp).GameState.Turn.Color else "waiting"))
              twoPlayersState)) :=
  ⟨stateAfter_reachable _,
    C15_board_and_turn_read_only specEnv twoPlayersState (stateAfter_reachable _) 1 []⟩

theorem recipients_count_zero (game : Game) (ex : List Client) (x : Client)
    (h : ¬ game.hasParticipant x) : (game.recipients ex).count x = 0 := by
  apply List.count_eq_zero_of_not_mem
  intro hm
  unfold Game.recipients at hm
  have hm2 := (List.mem_filter.mp hm).1
  rcases List.mem_append.mp hm2 with h1 | h1
  · obtain ⟨p, _, hp⟩ := List.mem_filterMap.mp h1
    exact h (Or.inl ⟨p, hp⟩)
  · exact h (Or.inr h1)

theorem recipients_count_excluded (game : Game) (ex : List Client) (x : Client) :
    (game.recipients ex).count x = if x ∈ ex then 0 else (game.recipients []).count x := by
  unfold Game.recipients
  by_cases hx : x ∈ ex
  · rw [if_pos hx]
    apply List.count_eq_zero_of_not_mem
    intro hm
    have := (List.mem_filter.mp hm).2
    simp at this
    exact this hx
  · rw [if_neg hx]
    simp only [List.not_mem_nil, not_false_eq_true, decide_True, List.filter_true]
    rw [List.count_filter]
    simpa using hx

/-- What `leaveGame` without arguments does for a seated client in a
consistent state. -/
theorem leaveGame_player (o : Oracle) (c : Client) (s : State) (h : Inv s) (gp : Nat)
    (p : Player) (hseat : (s.heap gp).Players p = some c) :
    ∃ s1, leaveGame o c [] s = some (none, s1) ∧ Inv s1
      ∧ s1.Players = Function.update s.Players c none ∧ s1.Spectators = s.Spectators
      ∧ s1.Games = s.Games ∧ s1.next = s.next
      ∧ s1.heap = Function.update s.heap gp
          { s.heap gp with Players := Function.update (s.heap gp).Players p none }
      ∧ ∀ x, s1.Messages x = s.Messages x ++
          (if (s1.heap gp).hasParticipant x
            then ["STATUS LEFT " ++ p.Color, "STATUS TURN waiting"] else []) := by
  have hc := h.seat_player gp p c hseat
  have hpne : p ≠ NO_PLAYER := by
    intro e; rw [e, h.no_player_seat gp] at hseat; exact Option.noConfusion hseat
  have hfind : ((s.heap gp).seatRange o).find? (fun q => decide ((s.heap gp).Players q = some c))
      = some p := by
    cases hf : ((s.heap gp).seatRange o).find? (fun q => decide ((s.heap gp).Players q = some c))
      with
    | none =>
      have := List.find?_eq_none.mp hf p (mem_seatRange o (s.heap gp) p c hseat)
      simp [hseat] at this
    | some q =>
      have := List.find?_some hf
      simp only [decide_eq_true_eq] at this
      rw [h.seat_unique gp q p c this hseat]
  have hturn : ({ s.heap gp with Players := Function.update (s.heap gp).Players p none } :
      Game).Turn = some "waiting" := by
    rw [Turn_eq]
    · cases p with
      | NO_PLAYER => exact absurd rfl hpne
      | BLACK_PLAYER => simp
      | RED_PLAYER => simp
    · simp only [Function.update_apply]
      split_ifs
      · rfl
      · exact h.no_player_seat gp
  cases hr : leaveGame o c [] s with
  | none =>
    exfalso
    unfold leaveGame at hr
    simp only [List.length_nil, gt_iff_lt, lt_self_iff_false, if_false, hc, hfind, hturn,
      Option.map_some'] at hr
    exact Option.noConfusion hr
  | some r =>
    obtain ⟨e, s1⟩ := r
    have hr2 := hr
    unfold leaveGame at hr2
    simp only [List.length_nil, gt_iff_lt, lt_self_iff_false, if_false, hc, hfind, hturn,
      Option.map_some', Option.some.injEq, Prod.mk.injEq] at hr2
    obtain ⟨he, hs1⟩ := hr2
    have hinv1 : Inv s1 := (leaveGame_inv o c [] s h e s1 hr).1
    have hw : "STATUS TURN " ++ "waiting" = "STATUS TURN waiting" := by decide
    rw [hw] at hs1
    subst he
    refine ⟨s1, rfl, hinv1, ?_, ?_, ?_, ?_, ?_, ?_⟩
    · rw [← hs1]; simp [State.setGame]
    · rw [← hs1]; simp [State.setGame]
    · rw [← hs1]; simp [State.setGame]
    · rw [← hs1]; simp [State.setGame]
    · rw [← hs1]; simp [State.setGame]
    · intro x
      have hheap : s1.heap gp
          = { s.heap gp with Players := Function.update (s.heap gp).Players p none } := by
        rw [← hs1]; simp [State.setGame]
      by_cases hx : (s1.heap gp).hasParticipant x
      · have hcnt := recipients_count s1 hinv1 gp x hx
          { s.heap gp with Players := Function.update (s.heap gp).Players p none }
          (by rw [hheap]) (by rw [hheap])
        rw [if_pos hx, ← hs1]
        simp only [Broadcast_Messages, hcnt, List.replicate_one, State.setGame,
          List.append_assoc, List.singleton_append]
      · have hcnt := recipients_count_zero
          { s.heap gp with Players := Function.update (s.heap gp).Players p none } [] x
          (by rw [← hheap]; exact hx)
        rw [if_neg hx, ← hs1]
        simp only [Broadcast_Messages, hcnt, List.replicate_zero, State.setGame,
          List.append_nil]

/-- C16: in every reachable state, `LEAVE` without arguments by the client
seated with color `p` in game `g` succeeds: seat `p` is freed, the other seats
and the spectators of `g` are as before, the client is no key of `Players`,
every remaining seat holder and spectator of `g` gets `STATUS LEFT p` then
`STATUS TURN waiting`, and the queue of the leaving client (as of every client
outside the game) is as before; `LEAVE` by a client in no game fails and
changes nothing. -/
theorem C16_leave_as_player (E : Env) (s : State) (hs : Reachable E s) (o : Oracle)
    (c : Client) :
    (∀ gp p, (s.heap gp).Players p = some c →
      ∃ s1, leaveGame o c [] s = some (none, s1)
        ∧ (s1.heap gp).Players p = none
        ∧ (∀ q, q ≠ p → (s1.heap gp).Players q = (s.heap gp).Players q)
        ∧ (s1.heap gp).Spectators = (s.heap gp).Spectators
        ∧ s1.Players c = none
        ∧ (∀ x, (s1.heap gp).hasParticipant x →
            s1.Messages x = s.Messages x ++ ["STATUS LEFT " ++ p.Color, "STATUS TURN waiting"])
        ∧ (∀ x, ¬ (s1.heap gp).hasParticipant x → s1.Messages x = s.Messages x)
        ∧ ¬ (s1.heap gp).hasParticipant c)
    ∧ (s.Players c = none → s.Spectators c = none →
        leaveGame o c [] s = some (some "not in game", s)) := by
  have hinv := Reachable_inv E s hs
  constructor
  · intro gp p hseat
    obtain ⟨s1, h1, hinv1, hpl, hsp, _, _, hheap, hmsg⟩ := leaveGame_player o c s hinv gp p hseat
    have hg : s1.heap gp
        = { s.heap gp with Players := Function.update (s.heap gp).Players p none } := by
      rw [hheap]; simp
    have hcp : s1.Players c = none := by rw [hpl]; simp
    refine ⟨s1, h1, ?_, ?_, ?_, hcp, ?_, ?_, ?_⟩
    · rw [hg]; simp
    · intro q hq; rw [hg]; simp [Function.update_noteq hq]
    · rw [hg]
    · intro x hx; rw [hmsg x, if_pos hx]
    · intro x hx; rw [hmsg x, if_neg hx]; simp
    · rintro (⟨q, hq⟩ | hm)
      · have := hinv1.seat_player gp q c hq
        rw [hcp] at this; exact Option.noConfusion this
      · have h2 := (hinv1.spectator_iff c gp).mpr hm
        have h3 : s1.Spectators c = s.Spectators c := by rw [hsp]
        rw [h3] at h2
        rcases hinv.disjoint c with h4 | h4
        · rw [hinv.seat_player gp p c hseat] at h4; exact Option.noConfusion h4
        · rw [h4] at h2; exact Option.noConfusion h2
  · intro h1 h2
    unfold leaveGame
    simp [h1, h2]

/-- C16 at a sample state: clients 1 (RED) and 2 (BLACK) play, clients 3 and 4
spectate; client 1 leaves; client 5 is in no game. -/
theorem C16_leave_as_player_witness :
    Reachable specEnv twoSpectatorsState
    ∧ (twoSpectatorsState.heap 0).Players RED_PLAYER = some 1
    ∧ (∃ s1, leaveGame sampleOracle 1 [] twoSpectatorsState = some (none, s1)
        ∧ (s1.heap 0).Players RED_PLAYER = none
        ∧ (∀ q, q ≠ RED_PLAYER →
            (s1.heap 0).Players q = (twoSpectatorsState.heap 0).Players q)
        ∧ (s1.heap 0).Spectators = (twoSpectatorsState.heap 0).Spectators
        ∧ s1.Players 1 = none
        ∧ (∀ x, (s1.heap 0).hasParticipant x →
            s1.Messages x = twoSpectatorsState.Messages x
              ++ ["STATUS LEFT " ++ RED_PLAYER.Color, "STATUS TURN waiting"])
        ∧ (∀ x, ¬ (s1.heap 0).hasParticipant x → s1.Messages x = twoSpectatorsState.Messages x)
        ∧ ¬ (s1.heap 0).hasParticipant 1)
    ∧ twoSpectatorsState.Players 5 = none ∧ twoSpectatorsState.Spectators 5 = none
    ∧ leaveGame sampleOracle 5 [] twoSpectatorsState = some (some "not in game", twoSpectatorsState) :=
  ⟨stateAfter_reachable _, by decide,
    (C16_leave_as_player specEnv twoSpectatorsState (stateAfter_reachable _) sampleOracle 1).1
      0 RED_PLAYER (by decide),
    by decide, by decide,
    (C16_leave_as_player specEnv twoSpectatorsState (stateAfter_reachable _) sampleOracle 5).2
      (by decide) (by decide)⟩

theorem serviceMessage_QUIT (E : Env) (o : Oracle) (c : Client) (args : List String)
    (s : State) : serviceMessage E o ⟨c, "QUIT", args⟩ s = quit o c args s := by
  unfold serviceMessage supportedCommands
  simp

/-- C12 fails for a `QUIT` with arguments: client 2 holds the BLACK seat and
sends `QUIT now`; the handler answers `unsupported arguments`, and the client
is still a key of `Players` and still holds the seat. -/
theorem C12_quit_with_arguments_stays :
    Reachable specEnv twoPlayersState
    ∧ twoPlayersState.Players 2 = some 0
    ∧ (serviceMessages specEnv sampleOracle ⟨2, "QUIT", ["now"]⟩ twoPlayersState).map
        (fun s => (s.Players 2, (s.heap 0).Players BLACK_PLAYER, (s.Messages 2).getLast?))
      = some (some 0, some 2, some "ERROR unsupported arguments") :=
  ⟨stateAfter_reachable _, by decide, by decide⟩

/-- C12 as amended: in every reachable state and for every client that is
seated or spectating, once the coordinator has handled `QUIT` without
arguments from the client, the client is a key of neither `Players` nor
`Spectators` and is in no game's seats or spectator slice; for a seated client
the coordinator does get through the message; `QUIT` with arguments is
answered `ERROR unsupported arguments` and leaves tables and games as they were. -/
theorem C12_quit_without_arguments (E : Env) (s : State) (hs : Reachable E s) (o : Oracle)
    (c : Client) (hin : IsInGame s c = true) :
    (∀ s2, serviceMessages E o ⟨c, "QUIT", []⟩ s = some s2 →
      s2.Players c = none ∧ s2.Spectators c = none
        ∧ (∀ g p, (s2.heap g).Players p ≠ some c) ∧ (∀ g, c ∉ (s2.heap g).Spectators))
    ∧ ((s.Players c).isSome = true → ∃ s2, serviceMessages E o ⟨c, "QUIT", []⟩ s = some s2)
    ∧ (∀ args, args ≠ [] →
        serviceMessages E o ⟨c, "QUIT", args⟩ s
          = some (send c "ERROR unsupported arguments" s)) := by
  have hinv := Reachable_inv E s hs
  have hquit : quit o c [] s = leaveGame o c [] s := by
    unfold quit
    simp [hin]
  refine ⟨fun s2 h2 => ?_, fun hp => ?_, fun args ha => ?_⟩
  · have hinv2 := serviceMessages_inv E o _ s hinv s2 h2
    unfold serviceMessages at h2
    rw [serviceMessage_QUIT, hquit] at h2
    obtain ⟨r, hr, hr2⟩ := Option.map_eq_some'.mp h2
    obtain ⟨e, s1⟩ := r
    rcases leaveGame_ok o c s hinv e s1 hr with ⟨he, _, _, hp1, hs1, _⟩ | ⟨_, _, hn⟩
    · subst he
      simp only at hr2
      have hp2 : s2.Players c = none := by rw [← hr2]; exact hp1
      have hs2 : s2.Spectators c = none := by rw [← hr2]; exact hs1
      refine ⟨hp2, hs2, fun g p hgp => ?_, fun g hm => ?_⟩
      · have := hinv2.seat_player g p c hgp
        rw [hp2] at this; exact Option.noConfusion this
      · have := (hinv2.spectator_iff c g).mpr hm
        rw [hs2] at this; exact Option.noConfusion this
    · rw [hin] at hn; exact Bool.noConfusion hn
  · obtain ⟨gp, hgp⟩ := Option.isSome_iff_exists.mp hp
    obtain ⟨p, hseat⟩ := hinv.player_seat c gp hgp
    obtain ⟨s1, h1, _⟩ := leaveGame_player o c s hinv gp p hseat
    unfold serviceMessages
    rw [serviceMessage_QUIT, hquit, h1]
    exact ⟨_, rfl⟩
  · unfold serviceMessages
    rw [serviceMessage_QUIT]
    unfold quit
    have hl : args.length > 0 := by
      cases args with
      | nil => exact absurd rfl ha
      | cons a l => simp
    rw [if_pos hl]
    rfl

/-- C12 as amended, at a sample state: client 2 holds the BLACK seat. -/
theorem C12_quit_without_arguments_witness :
    Reachable specEnv twoPlayersState ∧ IsInGame twoPlayersState 2 = true
    ∧ (∀ s2, serviceMessages specEnv sampleOracle ⟨2, "QUIT", []⟩ twoPlayersState = some s2 →
      s2.Players 2 = none ∧ s2.Spectators 2 = none
        ∧ (∀ g p, (s2.heap g).Players p ≠ some 2) ∧ (∀ g, 2 ∉ (s2.heap g).Spectators))
    ∧ ((twoPlayersState.Players 2).isSome = true →
        ∃ s2, serviceMessages specEnv sampleOracle ⟨2, "QUIT", []⟩ twoPlayersState = some s2)
    ∧ (∀ args, args ≠ [] →
        serviceMessages specEnv sampleOracle ⟨2, "QUIT", args⟩ twoPlayersState
          = some (send 2 "ERROR unsupported arguments" twoPlayersState)) :=
  ⟨stateAfter_reachable _, by decide,
    C12_quit_without_arguments specEnv twoPlayersState (stateAfter_reachable _) sampleOracle 2
      (by decide)⟩

theorem OpenSeats_open (game : Game) (hno : game.Players NO_PLAYER = none)
    (hopen : game.Players BLACK_PLAYER = none ∨ game.Players RED_PLAYER = none) :
    game.SeatsFilled = some false
    ∧ ∃ seats, game.OpenSeats = some seats
      ∧ seats[0]? = some (if game.Players RED_PLAYER = none then RED_PLAYER else BLACK_PLAYER) := by
  rw [SeatsFilled_eq game hno, OpenSeats_eq game hno]
  cases hb : game.Players BLACK_PLAYER <;> cases hr : game.Players RED_PLAYER
  · exact ⟨rfl, _, rfl, by simp⟩
  · exact ⟨rfl, _, rfl, by simp⟩
  · exact ⟨rfl, _, rfl, by simp⟩
  · rcases hopen with h | h
    · rw [hb] at h; exact Option.noConfusion h
    · rw [hr] at h; exact Option.noConfusion h

/-- What `joinGame` does for a client that is in no game, on a registered
game with an open seat, in a consistent state. -/
theorem joinGame_not_in_game (E : Env) (o : Oracle) (c : Client) (id : String) (s : State)
    (h : Inv s) (gp : Nat) (hg : gamesGet s.Games id = some gp)
    (hopen : (s.heap gp).Players BLACK_PLAYER = none ∨ (s.heap gp).Players RED_PLAYER = none)
    (hc : s.Players c = none) (hcs : s.Spectators c = none) :
    ∃ s1 p t, joinGame E o c [id] s = some (none, s1) ∧ Inv s1
      ∧ p = (if (s.heap gp).Players RED_PLAYER = none then RED_PLAYER else BLACK_PLAYER)
      ∧ (s.heap gp).Players p = none
      ∧ s1.heap = Function.update s.heap gp
          { s.heap gp with Players := Function.update (s.heap gp).Players p (some c) }
      ∧ s1.Players = Function.update s.Players c (some gp)
      ∧ s1.Spectators = s.Spectators ∧ s1.Games = s.Games ∧ s1.next = s.next
      ∧ t = (if ((s1.heap gp).Players BLACK_PLAYER).isSome
                && ((s1.heap gp).Players RED_PLAYER).isSome
              then (s.heap gp).GameState.Turn.Color else "waiting")
      ∧ s1.Messages c = s.Messages c ++
          ["STATUS GAME_ID " ++ id, "STATUS BOARD " ++ E.String (s.heap gp).GameState,
            "STATUS YOU_ARE " ++ p.Color, "STATUS TURN " ++ t]
      ∧ ∀ x, x ≠ c → s1.Messages x = s.Messages x ++
          (if (s.heap gp).hasParticipant x
            then ["STATUS JOINED " ++ p.Color, "STATUS TURN " ++ t] else []) := by
  have hno := h.no_player_seat gp
  obtain ⟨hfilled, seats, hseats, hhead⟩ := OpenSeats_open (s.heap gp) hno hopen
  obtain ⟨hpopen, hpne, _⟩ := OpenSeats_head (s.heap gp) hno seats _ hseats hhead
  generalize hpdef : (if (s.heap gp).Players RED_PLAYER = none then RED_PLAYER else BLACK_PLAYER)
    = p at hhead hpopen hpne
  have hleave : leaveIfInGame o c s = some s := by
    unfold leaveIfInGame IsInGame IsSpectator IsPlayer
    simp [hc, hcs]
  have hno2 : ({ s.heap gp with Players := Function.update (s.heap gp).Players p (some c) } :
      Game).Players NO_PLAYER = none := by
    simp only [Function.update_apply]
    rw [if_neg (fun e => hpne e.symm)]
    exact hno
  have hturn := Turn_eq
    { s.heap gp with Players := Function.update (s.heap gp).Players p (some c) } hno2
  cases hr : joinGame E o c [id] s with
  | none =>
    exfalso
    unfold joinGame at hr
    simp only [hg, hfilled, Option.some_bind, Bool.false_eq_true, if_false, hseats, hhead,
      hleave, hturn, Option.map_some'] at hr
    exact Option.noConfusion hr
  | some r =>
    obtain ⟨e, s1⟩ := r
    have hinv1 := (joinGame_ok E o c [id] s h e s1 hr).1
    unfold joinGame at hr
    simp only [hg, hfilled, Option.some_bind, Bool.false_eq_true, if_false, hseats, hhead,
      hleave, hturn, Option.map_some', Option.some.injEq, Prod.mk.injEq] at hr
    obtain ⟨he, hs1⟩ := hr
    subst he
    have hheap : s1.heap = Function.update s.heap gp
        { s.heap gp with Players := Function.update (s.heap gp).Players p (some c) } := by
      rw [← hs1]; simp [State.setGame]
    have hgame : s1.heap gp
        = { s.heap gp with Players := Function.update (s.heap gp).Players p (some c) } := by
      rw [hheap]; simp
    have hcpart : (s1.heap gp).hasParticipant c := by
      left; exact ⟨p, by rw [hgame]; simp⟩
    have hcnt_c := recipients_count s1 hinv1 gp c hcpart
      { s.heap gp with Players := Function.update (s.heap gp).Players p (some c) }
      (by rw [hgame]) (by rw [hgame])
    refine ⟨s1, p,
      (if ((Function.update (s.heap gp).Players p (some c)) BLACK_PLAYER).isSome
            && ((Function.update (s.heap gp).Players p (some c)) RED_PLAYER).isSome
        then (s.heap gp).GameState.Turn.Color else "waiting"),
      rfl, hinv1, rfl, hpopen, hheap, ?_, ?_, ?_, ?_, ?_, ?_, ?_⟩
    · rw [← hs1]; simp [State.setGame]
    · rw [← hs1]; simp [State.setGame]
    · rw [← hs1]; simp [State.setGame]
    · rw [← hs1]; simp [State.setGame]
    · rw [hgame]
    · rw [← hs1]
      simp only [Broadcast_Messages, hcnt_c, recipients_count_excluded, List.mem_singleton,
        if_true, List.replicate_zero, List.replicate_one, List.append_nil, send_Messages,
        State.setGame, List.append_assoc, List.singleton_append, List.cons_append,
        List.nil_append]
    · intro x hx
      by_cases hpx : (s.heap gp).hasParticipant x
      · have hpx1 : (s1.heap gp).hasParticipant x := by
          rcases hpx with ⟨q, hq⟩ | hm
          · left
            refine ⟨q, ?_⟩
            rw [hgame]
            simp only [Function.update_apply]
            split_ifs with hqp
            · rw [hqp, hpopen] at hq; exact Option.noConfusion hq
            · exact hq
          · right; rw [hgame]; exact hm
        have hcnt := recipients_count s1 hinv1 gp x hpx1
          { s.heap gp with Players := Function.update (s.heap gp).Players p (some c) }
          (by rw [hgame]) (by rw [hgame])
        rw [if_pos hpx, ← hs1]
        simp only [Broadcast_Messages, hcnt, recipients_count_excluded, List.mem_singleton, hx,
          if_false, List.replicate_one, send_Messages, State.setGame, List.append_assoc,
          List.singleton_append]
      · have hpx1 : ¬ (s1.heap gp).hasParticipant x := by
          rintro (⟨q, hq⟩ | hm)
          · rw [hgame] at hq
            simp only [Function.update_apply] at hq
            split_ifs at hq with hqp
            · exact hx (Option.some.inj hq).symm
            · exact hpx (Or.inl ⟨q, hq⟩)
          · rw [hgame] at hm; exact hpx (Or.inr hm)
        have hcnt := recipients_count_zero
          { s.heap gp with Players := Function.update (s.heap gp).Players p (some c) } [] x
          (by rw [← hgame]; exact hpx1)
        rw [if_neg hpx, ← hs1]
        simp only [Broadcast_Messages, hcnt, recipients_count_excluded, List.mem_singleton, hx,
          if_false, List.replicate_zero, send_Messages, State.setGame, List.append_nil]

/-- C14: in every reachable state, `JOIN` of a registered game with an open
seat by a client that is in no game succeeds; the joiner's queue grows by
GAME_ID, BOARD, YOU_ARE, TURN, the queue of every other seat holder and
spectator of the game by JOINED, TURN, where the color is that of the seat
assigned and the turn is the side to move if both seats are now filled and
`waiting` otherwise. -/
theorem C14_join_messages (E : Env) (s : State) (hs : Reachable E s) (o : Oracle) (c : Client)
    (id : String) (gp : Nat) (hg : gamesGet s.Games id = some gp)
    (hopen : (s.heap gp).Players BLACK_PLAYER = none ∨ (s.heap gp).Players RED_PLAYER = none)
    (hc : s.Players c = none) (hcs : s.Spectators c = none) :
    ∃ s1 p t, joinGame E o c [id] s = some (none, s1)
      ∧ (s.heap gp).Players p = none ∧ (s1.heap gp).Players p = some c
      ∧ t = (if ((s1.heap gp).Players BLACK_PLAYER).isSome
                && ((s1.heap gp).Players RED_PLAYER).isSome
              then (s1.heap gp).GameState.Turn.Color else "waiting")
      ∧ s1.Messages c = s.Messages c ++
          ["STATUS GAME_ID " ++ id, "STATUS BOARD " ++ E.String (s.heap gp).GameState,
            "STATUS YOU_ARE " ++ p.Color, "STATUS TURN " ++ t]
      ∧ ∀ x, x ≠ c → (s.heap gp).hasParticipant x →
          s1.Messages x = s.Messages x ++ ["STATUS JOINED " ++ p.Color, "STATUS TURN " ++ t] := by
  obtain ⟨s1, p, t, h1, _, _, hpo, hheap, _, _, _, _, ht, hmc, hmx⟩ :=
    joinGame_not_in_game E o c id s (Reachable_inv E s hs) gp hg hopen hc hcs
  have hgame : s1.heap gp
      = { s.heap gp with Players := Function.update (s.heap gp).Players p (some c) } := by
    rw [hheap]; simp
  refine ⟨s1, p, t, h1, hpo, by rw [hgame]; simp, ?_, hmc, fun x hx hpx => ?_⟩
  · rw [ht, hgame]
  · rw [hmx x hx, if_pos hpx]

/-- C14 at a sample state: client 1 holds the RED seat of the only game;
client 2 joins it. -/
theorem C14_join_messages_witness :
    Reachable specEnv oneGameState
    ∧ gamesGet oneGameState.Games sampleId = some 0
    ∧ ((oneGameState.heap 0).Players BLACK_PLAYER = none
        ∨ (oneGameState.heap 0).Players RED_PLAYER = none)
    ∧ oneGameState.Players 2 = none ∧ oneGameState.Spectators 2 = none
    ∧ (oneGameState.heap 0).hasParticipant 1
    ∧ ∃ s1 p t, joinGame specEnv sampleOracle 2 [sampleId] oneGameState = some (none, s1)
      ∧ (oneGameState.heap 0).Players p = none ∧ (s1.heap 0).Players p = some 2
      ∧ t = (if ((s1.heap 0).Players BLACK_PLAYER).isSome
                && ((s1.heap 0).Players RED_PLAYER).isSome
              then (s1.heap 0).GameState.Turn.Color else "waiting")
      ∧ s1.Messages 2 = oneGameState.Messages 2 ++
          ["STATUS GAME_ID " ++ sampleId,
            "STATUS BOARD " ++ specEnv.String (oneGameState.heap 0).GameState,
            "STATUS YOU_ARE " ++ p.Color, "STATUS TURN " ++ t]
      ∧ ∀ x, x ≠ 2 → (oneGameState.heap 0).hasParticipant x →
          s1.Messages x = oneGameState.Messages x
            ++ ["STATUS JOINED " ++ p.Color, "STATUS TURN " ++ t] :=
  ⟨stateAfter_reachable _, by decide, by decide, by decide, by decide, by decide,
    C14_join_messages specEnv oneGameState (stateAfter_reachable _) sampleOracle 2 sampleId 0
      (by decide) (by decide) (by decide) (by decide)⟩

theorem joinGame_Games (E : Env) (o : Oracle) (c : Client) (args : List String) (s : State)
    (h : Inv s) (e : Option String) (s1 : State)
    (hr : joinGame E o c args s = some (e, s1)) :
    s1.Games = s.Games ∧ s1.next = s.next := by
  unfold joinGame at hr
  split at hr
  · split at hr
    · obtain ⟨filled, _, hr⟩ := Option.bind_eq_some.mp hr
      by_cases hf : filled = true
      · rw [if_pos hf] at hr
        simp only [Option.some.injEq, Prod.mk.injEq] at hr
        rw [← hr.2]; exact ⟨rfl, rfl⟩
      · rw [if_neg hf] at hr
        obtain ⟨seats, _, hr⟩ := Option.bind_eq_some.mp hr
        obtain ⟨p, _, hr⟩ := Option.bind_eq_some.mp hr
        obtain ⟨s2, hs2, hr⟩ := Option.bind_eq_some.mp hr
        obtain ⟨t, _, hr⟩ := Option.map_eq_some'.mp hr
        simp only [Prod.mk.injEq] at hr
        obtain ⟨_, _, _, hnext2, hgames2, _⟩ := leaveIfInGame_ok o c s h s2 hs2
        rw [← hr.2]
        simp [State.setGame, hnext2, hgames2]
    · simp only [Option.some.injEq, Prod.mk.injEq] at hr
      rw [← hr.2]; exact ⟨rfl, rfl⟩
  · simp only [Option.some.injEq, Prod.mk.injEq] at hr
    rw [← hr.2]; exact ⟨rfl, rfl⟩

/-- A successful `newGame` allocates the next game object and stores it in
`Games` under the generated id. -/
theorem newGame_Games (E : Env) (o : Oracle) (c : Client) (args : List String) (s : State)
    (h : Inv s) (s1 : State) (hr : newGame E o c args s = some (none, s1)) :
    s1.Games = gamesSet s.Games (generateGameId o.rand 16) s.next ∧ s1.next = s.next + 1 := by
  unfold newGame at hr
  split_ifs at hr
  · simp only [Option.some.injEq, Prod.mk.injEq] at hr
    exact absurd hr.1 (by simp)
  · simp only [Option.some.injEq, Prod.mk.injEq] at hr
    exact absurd hr.1 (by simp)
  · simp only at hr
    have hinv1 : Inv { s with heap := Function.update s.heap s.next (NewGame E o),
                              next := s.next + 1,
                              Games := gamesSet s.Games (NewGame E o).Id s.next } := by
      apply Inv_alloc h (NewGame E o).Id
      · rfl
      · rfl
      · rfl
      · rfl
      · intro g
        simp only [Function.update_apply]
        split_ifs <;> rfl
      · intro g
        simp only [Function.update_apply]
        split_ifs <;> rfl
    exact joinGame_Games E o c _ _ hinv1 none s1 hr

/-- C11 fails when the generator returns an id in use: the only game is
registered under `aaaaaaaaaaaaaaaa` (game object 0, client 1 seated); the
generator returns the same id for the `NEW` of client 2; the command succeeds,
the id now names the new game object 1, and game 0, in which client 1 is
still seated, is registered under no id. -/
theorem C11_used_id_replaces_game :
    Reachable specEnv oneGameState
    ∧ oneGameState.Games = [(sampleId, 0)]
    ∧ generateGameId sampleOracle.rand 16 = sampleId
    ∧ (newGame specEnv sampleOracle 2 [] oneGameState).map
        (fun r => (r.1, r.2.Games, r.2.Players 1, r.2.Players 2))
      = some (none, [(sampleId, 1)], some 0, some 1) :=
  ⟨stateAfter_reachable _, by decide, by decide, by decide⟩

/-- C11 as amended: in every reachable state a successful `NEW` registers a
new game object under the generated id; every game registered before under
another id is still registered under its own id; when the generated id was in
use, its entry is replaced by the new game. -/
theorem C11_new_registers_under_generated_id (E : Env) (s : State) (hs : Reachable E s)
    (o : Oracle) (c : Client) (args : List String) (s1 : State)
    (hr : newGame E o c args s = some (none, s1)) :
    gamesGet s1.Games (generateGameId o.rand 16) = some s.next
    ∧ (∀ id gp, gamesGet s.Games id = some gp → gp ≠ s.next)
    ∧ (∀ id, id ≠ generateGameId o.rand 16 → gamesGet s1.Games id = gamesGet s.Games id)
    ∧ (∀ gp, gamesGet s.Games (generateGameId o.rand 16) = some gp →
        gamesGet s1.Games (generateGameId o.rand 16) ≠ some gp) := by
  have hinv := Reachable_inv E s hs
  obtain ⟨hg, _⟩ := newGame_Games E o c args s hinv s1 hr
  have hfresh : ∀ id gp, gamesGet s.Games id = some gp → gp ≠ s.next := by
    intro id gp h1
    have := hinv.games_lt id gp h1
    omega
  have hnew : gamesGet s1.Games (generateGameId o.rand 16) = some s.next := by
    rw [hg, gamesGet_gamesSet, if_pos rfl]
  refine ⟨hnew, hfresh, fun id hid => ?_, fun gp h1 h2 => ?_⟩
  · rw [hg, gamesGet_gamesSet, if_neg hid]
  · rw [hnew] at h2
    exact hfresh _ gp h1 (Option.some.inj h2).symm

theorem eq_some_of_fst (x : Option (Option String × State)) (e : Option String) (d : State)
    (h : x.map Prod.fst = some e) : x = some (e, (x.map Prod.snd).getD d) := by
  cases x with
  | none => exact Option.noConfusion h
  | some r =>
    simp only [Option.map_some', Option.some.injEq] at h
    simp only [Option.map_some', Option.getD_some]
    rw [← h]

/-- C11 as amended, at the input of the counterexample. -/
theorem C11_new_registers_under_generated_id_witness :
    Reachable specEnv oneGameState
    ∧ newGame specEnv sampleOracle 2 [] oneGameState = some (none, secondGameState)
    ∧ gamesGet secondGameState.Games (generateGameId sampleOracle.rand 16) = some oneGameState.next
    ∧ (∀ id gp, gamesGet oneGameState.Games id = some gp → gp ≠ oneGameState.next)
    ∧ (∀ id, id ≠ generateGameId sampleOracle.rand 16 →
        gamesGet secondGameState.Games id = gamesGet oneGameState.Games id)
    ∧ (∀ gp, gamesGet oneGameState.Games (generateGameId sampleOracle.rand 16) = some gp →
        gamesGet secondGameState.Games (generateGameId sampleOracle.rand 16) ≠ some gp) :=
  ⟨stateAfter_reachable _, eq_some_of_fst _ none oneGameState (by decide),
    C11_new_registers_under_generated_id specEnv oneGameState (stateAfter_reachable _)
      sampleOracle 2 [] secondGameState (eq_some_of_fst _ none oneGameState (by decide))⟩

theorem spectateGame_Games (E : Env) (o : Oracle) (c : Client) (args : List String) (s : State)
    (h : Inv s) (e : Option String) (s1 : State)
    (hr : spectateGame E o c args s = some (e, s1)) : s1.Games = s.Games := by
  unfold spectateGame at hr
  split at hr
  · split at hr
    · obtain ⟨can, _, hr⟩ := Option.bind_eq_some.mp hr
      by_cases hf : can = true
      · simp only [hf, Bool.not_true, Bool.false_eq_true, if_false] at hr
        obtain ⟨s2, hs2, hr⟩ := Option.bind_eq_some.mp hr
        obtain ⟨t, _, hr⟩ := Option.map_eq_some'.mp hr
        simp only [Prod.mk.injEq] at hr
        obtain ⟨_, _, _, _, hgames2, _⟩ := leaveIfInGame_ok o c s h s2 hs2
        rw [← hr.2]
        simp [State.setGame, hgames2]
      · have hcf : can = false := by simpa using hf
        simp only [hcf, Bool.not_false, if_true, Option.some.injEq, Prod.mk.injEq] at hr
        rw [← hr.2]
    · simp only [Option.some.injEq, Prod.mk.injEq] at hr
      rw [← hr.2]
  · simp only [Option.some.injEq, Prod.mk.injEq] at hr
    rw [← hr.2]

theorem leaveGame_Games (o : Oracle) (c : Client) (args : List String) (s : State)
    (h : Inv s) (e : Option String) (s1 : State)
    (hr : leaveGame o c args s = some (e, s1)) : s1.Games = s.Games := by
  cases args with
  | nil =>
    rcases leaveGame_ok o c s h e s1 hr with ⟨_, _, _, _, _, _, hg, _⟩ | ⟨_, hs, _⟩
    · exact hg
    · rw [hs]
  | cons a l =>
    cases e with
    | none =>
      unfold leaveGame at hr
      simp at hr
    | some err => rw [(leaveGame_inv o c _ s h _ s1 hr).2 err rfl]

theorem quit_Games (o : Oracle) (c : Client) (args : List String) (s : State)
    (h : Inv s) (e : Option String) (s1 : State)
    (hr : quit o c args s = some (e, s1)) : s1.Games = s.Games := by
  unfold quit at hr
  split_ifs at hr
  · simp only [Option.some.injEq, Prod.mk.injEq] at hr
    rw [← hr.2]
  · exact leaveGame_Games o c [] s h e s1 hr
  · simp only [Option.some.injEq, Prod.mk.injEq] at hr
    rw [← hr.2]

theorem move_Games (E : Env) (c : Client) (args : List String) (s : State)
    (e : Option String) (s1 : State) (hr : move E c args s = some (e, s1)) :
    s1.Games = s.Games := by
  rcases move_some E c args s e s1 hr with ⟨_, _, hs⟩ | ⟨gp, src, dst, _, _, _, hcase⟩
  · rw [hs]
  · rcases hcase with ⟨_, _, _, hs⟩ | ⟨_, _, hfr⟩
    · rw [hs]; rfl
    · exact (hfr 0).2.2.1

theorem listGames_Games (E : Env) (o : Oracle) (c : Client) (args : List String) (s : State)
    (e : Option String) (s1 : State) (hr : listGames E o c args s = some (e, s1)) :
    s1.Games = s.Games := by
  unfold listGames at hr
  simp only at hr
  split_ifs at hr
  · simp only [Option.some.injEq, Prod.mk.injEq] at hr
    rw [← hr.2]
  all_goals
    obtain ⟨ids, _, hr⟩ := Option.map_eq_some'.mp hr
    simp only [Prod.mk.injEq] at hr
    rw [← hr.2]
    rfl

theorem boardStatus_Games (E : Env) (c : Client) (args : List String) (s : State)
    (e : Option String) (s1 : State) (hr : boardStatus E c args s = some (e, s1)) :
    s1.Games = s.Games := by
  unfold boardStatus at hr
  split_ifs at hr
  · simp only [Option.some.injEq, Prod.mk.injEq] at hr
    rw [← hr.2]
  · split at hr <;>
    · simp only [Option.some.injEq, Prod.mk.injEq] at hr
      rw [← hr.2]
      try rfl

theorem turnStatus_Games (c : Client) (args : List String) (s : State)
    (e : Option String) (s1 : State) (hr : turnStatus c args s = some (e, s1)) :
    s1.Games = s.Games := by
  unfold turnStatus at hr
  split_ifs at hr
  · simp only [Option.some.injEq, Prod.mk.injEq] at hr
    rw [← hr.2]
  · split at hr
    · obtain ⟨t, _, hr⟩ := Option.map_eq_some'.mp hr
      simp only [Prod.mk.injEq] at hr
      rw [← hr.2]
      rfl
    · simp only [Option.some.injEq, Prod.mk.injEq] at hr
      rw [← hr.2]

theorem generateGameId_length (rand : List Nat) (n : Nat) :
    (generateGameId rand n).length = n := by
  unfold generateGameId
  simp [String.length]

theorem gamesSet_keys (m : List (String × Nat)) (id : String) (g : Nat) :
    (gamesSet m id g).map Prod.fst = (m.map Prod.fst).filter (fun k => k != id) ++ [id] := by
  unfold gamesSet
  simp only [List.map_append, List.map_cons, List.map_nil]
  rw [List.filter_map]
  rfl

theorem GamesKeys_gamesSet (s s1 : State) (h : GamesKeys s) (id : String) (g : Nat)
    (hid : id.length = 16) (hg : s1.Games = gamesSet s.Games id g) : GamesKeys s1 := by
  unfold GamesKeys
  rw [hg, gamesSet_keys]
  constructor
  · apply List.nodup_append.mpr
    refine ⟨h.1.filter _, List.nodup_singleton id, ?_⟩
    intro a ha hb
    rw [List.mem_singleton] at hb
    subst hb
    have := (List.mem_filter.mp ha).2
    simp at this
  · intro k hk
    rcases List.mem_append.mp hk with h1 | h1
    · exact h.2 k (List.mem_filter.mp h1).1
    · rw [List.mem_singleton] at h1
      rw [h1]; exact hid

theorem serviceMessage_GamesKeys (E : Env) (o : Oracle) (m : ClientMessage) (s : State)
    (h : Inv s) (hk : GamesKeys s) (e : Option String) (s1 : State)
    (hr : serviceMessage E o m s = some (e, s1)) : GamesKeys s1 := by
  have hsame : s1.Games = s.Games → GamesKeys s1 := by
    intro hg; unfold GamesKeys; rw [hg]; exact hk
  unfold serviceMessage supportedCommands at hr
  split_ifs at hr
  · cases e with
    | none =>
      exact GamesKeys_gamesSet s s1 hk _ _ (generateGameId_length _ _)
        (newGame_Games E o _ _ s h s1 hr).1
    | some err => exact hsame (by rw [(newGame_inv E o _ _ s h _ s1 hr).2 err rfl])
  · exact hsame (listGames_Games E o _ _ s e s1 hr)
  · exact hsame (joinGame_Games E o _ _ s h e s1 hr).1
  · exact hsame (leaveGame_Games o _ _ s h e s1 hr)
  · exact hsame (move_Games E _ _ s e s1 hr)
  · exact hsame (boardStatus_Games E _ _ s e s1 hr)
  · exact hsame (turnStatus_Games _ _ s e s1 hr)
  · exact hsame (spectateGame_Games E o _ _ s h e s1 hr)
  · exact hsame (quit_Games o _ _ s h e s1 hr)
  · simp only [Option.some.injEq, Prod.mk.injEq] at hr
    exact hsame (by rw [← hr.2])

/-- In every reachable state the keys of `Games` are distinct ids of 16 characters. -/
theorem Reachable_GamesKeys (E : Env) (s : State) (h : Reachable E s) : GamesKeys s := by
  induction h with
  | init => exact ⟨List.nodup_nil, fun id hid => by simp [State.empty] at hid⟩
  | step o m hreach hstep ih =>
    unfold serviceMessages at hstep
    obtain ⟨r, hr1, hr2⟩ := Option.map_eq_some'.mp hstep
    obtain ⟨e, s2⟩ := r
    have := serviceMessage_GamesKeys E o m _ (Reachable_inv E _ hreach) ih e s2 hr1
    subst hr2
    cases e <;> exact this

theorem mem_rangeOrder_iff {α : Type} [DecidableEq α] (ord keys : List α) (k : α) :
    k ∈ rangeOrder ord keys ↔ k ∈ keys := by
  constructor
  · intro h
    unfold rangeOrder at h
    rcases List.mem_append.mp h with h1 | h1
    · simpa using (List.mem_filter.mp h1).2
    · exact (List.mem_filter.mp h1).1
  · exact mem_rangeOrder ord keys k

theorem nodup_rangeOrder {α : Type} [DecidableEq α] (ord keys : List α) (h : keys.Nodup) :
    (rangeOrder ord keys).Nodup := by
  unfold rangeOrder
  apply List.nodup_append.mpr
  refine ⟨(List.nodup_dedup ord).filter _, h.filter _, ?_⟩
  intro a ha hb
  have h1 : a ∈ ord := List.mem_dedup.mp (List.mem_filter.mp ha).1
  have h2 := (List.mem_filter.mp hb).2
  simp only [decide_eq_true_eq] at h2
  exact h2 h1

theorem gamesGet_some_iff (m : List (String × Nat)) (id : String) :
    (∃ gp, gamesGet m id = some gp) ↔ id ∈ m.map Prod.fst := by
  unfold gamesGet
  constructor
  · rintro ⟨gp, h⟩
    obtain ⟨e, he, _⟩ := Option.map_eq_some'.mp h
    have h1 := List.mem_of_find?_eq_some he
    have h2 := List.find?_some he
    simp only [beq_iff_eq] at h2
    exact List.mem_map.mpr ⟨e, h1, h2⟩
  · intro h
    obtain ⟨e, he, hid⟩ := List.mem_map.mp h
    cases hf : m.find? (fun e => e.1 == id) with
    | none =>
      have := List.find?_eq_none.mp hf e he
      simp [hid] at this
    | some e2 => exact ⟨e2.2, rfl⟩

/-- The buffer `gameIds` after the ids `ids` were written to it. -/
theorem joinIds_go (ids : List String) :
    ∀ acc : String, acc.length > 0 →
      ids.foldl (fun b id => (if b.length > 0 then b ++ " " else b) ++ id) acc
        = String.intercalate.go acc " " ids := by
  induction ids with
  | nil => intro acc _; rfl
  | cons a l ih =>
    intro acc hacc
    simp only [List.foldl_cons, String.intercalate.go, if_pos hacc]
    apply ih
    simp only [String.length_append]
    omega

theorem joinIds_intercalate (ids : List String) (h : ∀ id, id ∈ ids → id.length > 0) :
    ids.foldl (fun b id => (if b.length > 0 then b ++ " " else b) ++ id) ""
      = String.intercalate " " ids := by
  cases ids with
  | nil => rfl
  | cons a l =>
    simp only [List.foldl_cons, String.intercalate]
    have h0 : ¬ ("".length > 0) := by decide
    rw [if_neg h0, String.empty_append]
    exact joinIds_go l a (h a (List.mem_cons_self a l))

/-- The loop of `listGames` writes the ids that pass the condition, in the
order of the iteration. -/
theorem listFold (E : Env) (spectate : Bool) (c : Client) (s : State) (sel : String → Bool)
    (hsel : ∀ id gp, gamesGet s.Games id = some gp → listCond E spectate c s gp = some (sel id)) :
    ∀ (l : List String) (buf : String), (∀ id, id ∈ l → ∃ gp, gamesGet s.Games id = some gp) →
      l.foldl (listStep E spectate c s) (some buf)
        = some ((l.filter sel).foldl
            (fun b id => (if b.length > 0 then b ++ " " else b) ++ id) buf) := by
  intro l
  induction l with
  | nil => intro buf _; rfl
  | cons a l ih =>
    intro buf hl
    obtain ⟨gp, hgp⟩ := hl a (List.mem_cons_self a l)
    have hstep : listStep E spectate c s (some buf) a
        = some (if sel a then (if buf.length > 0 then buf ++ " " else buf) ++ a else buf) := by
      unfold listStep
      simp only [Option.some_bind, hgp, hsel a gp hgp, Option.map_some']
    rw [List.foldl_cons, hstep, ih _ (fun id hid => hl id (List.mem_cons_of_mem a hid))]
    by_cases ha : sel a = true
    · simp only [ha, if_true, List.filter_cons_of_pos, List.foldl_cons]
    · have ha2 : sel a = false := by simpa using ha
      simp only [ha2, Bool.false_eq_true, if_false, List.filter_cons_of_neg, not_false_eq_true]

theorem CanSpectate_isSome (E : Env) (game : Game) (h : game.Players NO_PLAYER = none) :
    ∃ b, game.CanSpectate E = some b := by
  unfold Game.CanSpectate
  rw [SeatsFilled_eq game h]
  exact ⟨_, rfl⟩

theorem NeedsPlayer_isSome (E : Env) (game : Game) (h : game.Players NO_PLAYER = none) :
    ∃ b, game.NeedsPlayer E = some b := by
  unfold Game.NeedsPlayer
  rw [SeatsFilled_eq game h]
  exact ⟨_, rfl⟩

/-- What `listGames` returns in a consistent state whose ids are well formed. -/
theorem listGames_list (E : Env) (o : Oracle) (c : Client) (s : State) (h : Inv s)
    (hk : GamesKeys s) (spectate : Bool) :
    ∃ ids, (rangeOrder o.gamesOrder (s.Games.map Prod.fst)).foldl
          (listStep E spectate c s) (some "") = some (String.intercalate " " ids)
      ∧ ids.Nodup
      ∧ ∀ id, id ∈ ids ↔ ∃ gp, gamesGet s.Games id = some gp
          ∧ listCond E spectate c s gp = some true := by
  have hcond : ∀ gp, ∃ b, listCond E spectate c s gp = some b := by
    intro gp
    unfold listCond
    split_ifs
    · obtain ⟨b, hb⟩ := CanSpectate_isSome E (s.heap gp) (h.no_player_seat gp)
      rw [hb]; exact ⟨_, rfl⟩
    · exact NeedsPlayer_isSome E (s.heap gp) (h.no_player_seat gp)
    · exact ⟨_, rfl⟩
  let sel : String → Bool := fun id =>
    match gamesGet s.Games id with
    | some gp => (listCond E spectate c s gp).getD false
    | none => false
  have hsel : ∀ id gp, gamesGet s.Games id = some gp →
      listCond E spectate c s gp = some (sel id) := by
    intro id gp hgp
    obtain ⟨b, hb⟩ := hcond gp
    simp only [sel, hgp, hb, Option.getD_some]
  have hmem : ∀ id, id ∈ rangeOrder o.gamesOrder (s.Games.map Prod.fst) →
      ∃ gp, gamesGet s.Games id = some gp := by
    intro id hid
    exact (gamesGet_some_iff s.Games id).mpr ((mem_rangeOrder_iff _ _ id).mp hid)
  refine ⟨(rangeOrder o.gamesOrder (s.Games.map Prod.fst)).filter sel, ?_, ?_, ?_⟩
  · rw [listFold E spectate c s sel hsel _ "" hmem]
    congr 1
    apply joinIds_intercalate
    intro id hid
    have h1 := (mem_rangeOrder_iff _ _ id).mp (List.mem_filter.mp hid).1
    rw [hk.2 id h1]
    decide
  · exact (nodup_rangeOrder _ _ hk.1).filter _
  · intro id
    constructor
    · intro hid
      obtain ⟨h1, h2⟩ := List.mem_filter.mp hid
      obtain ⟨gp, hgp⟩ := hmem id h1
      refine ⟨gp, hgp, ?_⟩
      rw [hsel id gp hgp, h2]
    · rintro ⟨gp, hgp, hc⟩
      apply List.mem_filter.mpr
      refine ⟨(mem_rangeOrder_iff _ _ id).mpr ((gamesGet_some_iff s.Games id).mp ⟨gp, hgp⟩), ?_⟩
      have := hsel id gp hgp
      rw [hc] at this
      exact (Option.some.inj this).symm

/-- C13: in every reachable state, `LIST` without argument succeeds and
changes the state by one message on the caller's queue: `STATUS LIST ` and,
separated by single spaces and each once, the ids of the registered games that
need a player and are not the game the client plays in; `LIST SPECTATE` does
the same with `STATUS LIST SPECTATE ` and the registered games that can be
spectated and do not have the client as a spectator; any other argument list
is rejected and changes nothing. -/
theorem C13_list_games (E : Env) (s : State) (hs : Reachable E s) (o : Oracle) (c : Client) :
    (∃ ids, listGames E o c [] s
          = some (none, send c ("STATUS LIST " ++ String.intercalate " " ids) s)
      ∧ ids.Nodup
      ∧ ∀ id, id ∈ ids ↔ ∃ gp, gamesGet s.Games id = some gp
          ∧ (s.heap gp).NeedsPlayer E = some true ∧ s.Players c ≠ some gp)
    ∧ (∃ ids, listGames E o c ["SPECTATE"] s
          = some (none, send c ("STATUS LIST SPECTATE " ++ String.intercalate " " ids) s)
      ∧ ids.Nodup
      ∧ ∀ id, id ∈ ids ↔ ∃ gp, gamesGet s.Games id = some gp
          ∧ (s.heap gp).CanSpectate E = some true ∧ (s.heap gp).IsSpectator c = false)
    ∧ (∀ args, args ≠ [] → args ≠ ["SPECTATE"] →
        listGames E o c args s = some (some "unsupported arguments", s)) := by
  have hinv := Reachable_inv E s hs
  have hk := Reachable_GamesKeys E s hs
  refine ⟨?_, ?_, ?_⟩
  · obtain ⟨ids, hfold, hnd, hmem⟩ := listGames_list E o c s hinv hk false
    refine ⟨ids, ?_, hnd, fun id => ?_⟩
    · unfold listGames
      have h1 : decide (([] : List String) = ["SPECTATE"]) = false := by decide
      simp only [h1, List.length_nil, gt_iff_lt, lt_self_iff_false, decide_False,
        Bool.and_false, Bool.false_eq_true, if_false, hfold, Option.map_some']
    · rw [hmem id]
      constructor
      · rintro ⟨gp, hgp, hc⟩
        refine ⟨gp, hgp, ?_⟩
        unfold listCond at hc
        simp only [Bool.false_eq_true, if_false] at hc
        split_ifs at hc with hne
        · exact ⟨hc, hne⟩
        · exact absurd hc (by simp)
      · rintro ⟨gp, hgp, hn, hne⟩
        refine ⟨gp, hgp, ?_⟩
        unfold listCond
        simp only [Bool.false_eq_true, if_false, if_pos hne, hn]
  · obtain ⟨ids, hfold, hnd, hmem⟩ := listGames_list E o c s hinv hk true
    refine ⟨ids, ?_, hnd, fun id => ?_⟩
    · unfold listGames
      simp only [decide_True, Bool.not_true, Bool.false_and, Bool.false_eq_true, if_false,
        if_true, hfold, Option.map_some']
    · rw [hmem id]
      constructor
      · rintro ⟨gp, hgp, hc⟩
        refine ⟨gp, hgp, ?_⟩
        unfold listCond at hc
        simp only [if_true] at hc
        obtain ⟨b, hb, hb2⟩ := Option.map_eq_some'.mp hc
        simp only [Bool.and_eq_true, Bool.not_eq_true'] at hb2
        rw [hb2.1] at hb
        exact ⟨hb, hb2.2⟩
      · rintro ⟨gp, hgp, hn, hne⟩
        refine ⟨gp, hgp, ?_⟩
        unfold listCond
        simp only [if_true, hn, hne, Option.map_some', Bool.not_false, Bool.and_self]
  · intro args h1 h2
    unfold listGames
    have hd : decide (args = ["SPECTATE"]) = false := by simpa using h2
    have hl : decide (args.length > 0) = true := by
      cases args with
      | nil => exact absurd rfl h1
      | cons a l => simp
    simp only [hd, hl, Bool.not_false, Bool.and_self, if_true]

/-- C13 at a sample state: clients 1 and 2 play, clients 3 and 4 spectate;
client 5 asks. -/
theorem C13_list_games_witness :
    Reachable specEnv twoSpectatorsState
    ∧ (∃ ids, listGames specEnv sampleOracle 5 [] twoSpectatorsState
          = some (none, send 5 ("STATUS LIST " ++ String.intercalate " " ids) twoSpectatorsState)
      ∧ ids.Nodup
      ∧ ∀ id, id ∈ ids ↔ ∃ gp, gamesGet twoSpectatorsState.Games id = some gp
          ∧ (twoSpectatorsState.heap gp).NeedsPlayer specEnv = some true
          ∧ twoSpectatorsState.Players 5 ≠ some gp)
    ∧ (∃ ids, listGames specEnv sampleOracle 5 ["SPECTATE"] twoSpectatorsState
          = some (none, send 5 ("STATUS LIST SPECTATE " ++ String.intercalate " " ids)
              twoSpectatorsState)
      ∧ ids.Nodup
      ∧ ∀ id, id ∈ ids ↔ ∃ gp, gamesGet twoSpectatorsState.Games id = some gp
          ∧ (twoSpectatorsState.heap gp).CanSpectate specEnv = some true
          ∧ (twoSpectatorsState.heap gp).IsSpectator 5 = false)
    ∧ (∀ args, args ≠ [] → args ≠ ["SPECTATE"] →
        listGames specEnv sampleOracle 5 args twoSpectatorsState
          = some (some "unsupported arguments", twoSpectatorsState)) :=
  ⟨stateAfter_reachable _,
    C13_list_games specEnv twoSpectatorsState (stateAfter_reachable _) sampleOracle 5⟩

end Server

namespace checkers

open Player

/-! ## Turn progression, and the board encoding -/

theorem playerHasMove_congr (g g1 : Game) (h : g.Pieces = g1.Pieces) (p : Player) :
    g.playerHasMove p = g1.playerHasMove p := by
  unfold Game.playerHasMove Game.movePossibleFrom Game.jumpPossibleFrom Game.ValidMove
    Game.ValidJump
  rw [h]

/-- The `Move` modelled from the spec does not pass `TestUpdateTurnNoMove`:
in the position of the test it hands the turn to BLACK, who has no legal move,
where the test expects the turn to remain RED. -/
theorem TestUpdateTurnNoMove_fails :
    TestUpdateTurnNoMove = false
    ∧ (noMoveGame.Move ⟨0, 5⟩ ⟨1, 4⟩).game.Turn = BLACK_PLAYER := by
  decide

theorem String_eq_rows (g : Game) : g.String = String.mk (List.intercalate ['|'] g.rows) := rfl

theorem splitBars_cons (c : Char) (cs : List Char) :
    splitBars (c :: cs) = if c = '|' then [] :: splitBars cs else consRow c (splitBars cs) := rfl

theorem splitBars_no_bar (r : List Char) (h : '|' ∉ r) : splitBars r = [r] := by
  induction r with
  | nil => rfl
  | cons c r ih =>
    have hc : c ≠ '|' := fun e => h (by rw [e]; exact List.mem_cons_self _ _)
    have hr : '|' ∉ r := fun e => h (List.mem_cons_of_mem _ e)
    rw [splitBars_cons, if_neg hc, ih hr]
    rfl

theorem splitBars_append (r rest : List Char) (h : '|' ∉ r) :
    splitBars (r ++ '|' :: rest) = r :: splitBars rest := by
  induction r with
  | nil => rw [List.nil_append, splitBars_cons, if_pos rfl]
  | cons c r ih =>
    have hc : c ≠ '|' := fun e => h (by rw [e]; exact List.mem_cons_self _ _)
    have hr : '|' ∉ r := fun e => h (List.mem_cons_of_mem _ e)
    rw [List.cons_append, splitBars_cons, if_neg hc, ih hr]
    rfl

theorem splitBars_intercalate (rows : List (List Char)) (hne : rows ≠ [])
    (h : ∀ r, r ∈ rows → '|' ∉ r) : splitBars (List.intercalate ['|'] rows) = rows := by
  induction rows with
  | nil => exact absurd rfl hne
  | cons r rows ih =>
    cases rows with
    | nil =>
      have e : List.intercalate ['|'] [r] = r := by simp [List.intercalate]
      rw [e]
      exact splitBars_no_bar r (h r (List.mem_cons_self _ _))
    | cons r2 rs =>
      have e : List.intercalate ['|'] (r :: r2 :: rs)
          = r ++ '|' :: List.intercalate ['|'] (r2 :: rs) := by
        simp [List.intercalate]
      rw [e, splitBars_append r _ (h r (List.mem_cons_self _ _)),
        ih (by simp) (fun x hx => h x (List.mem_cons_of_mem _ hx))]

/-- The rows of the encoding, column by column. -/
theorem rows_eq (g : Game) :
    g.rows = ([0, 1, 2, 3, 4, 5, 6, 7] : List Int).map (fun y =>
      ([0, 1, 2, 3, 4, 5, 6, 7] : List Int).map (fun x => squareChar g ⟨x, y⟩)) := rfl

theorem squareChar_cases (g : Game) (pos : Pos) :
    squareChar g pos ≠ '|' ∧ validSquare (squareChar g pos) pos = true := by
  unfold squareChar
  by_cases hu : usable pos = true
  · rw [if_pos hu]
    split <;> simp [validSquare, hu]
  · rw [if_neg hu]
    simp [validSquare]

theorem pieceOfChar_squareChar (g : Game) (h : g.wellPlaced) (pos : Pos) :
    pieceOfChar (squareChar g pos) = g.Pieces pos := by
  unfold squareChar
  by_cases hu : usable pos = true
  · rw [if_pos hu]
    cases hp : g.Pieces pos with
    | none => simp [pieceOfChar]
    | some piece =>
      obtain ⟨pl, k⟩ := piece
      have hne := (h pos _ hp).2
      cases pl with
      | NO_PLAYER => exact absurd rfl hne
      | BLACK_PLAYER => cases k <;> simp [pieceOfChar]
      | RED_PLAYER => cases k <;> simp [pieceOfChar]
  · rw [if_neg hu]
    cases hp : g.Pieces pos with
    | none => simp [pieceOfChar]
    | some piece => exact absurd (h pos _ hp).1 hu

theorem rows_length (g : Game) : g.rows.length = 8 := by
  rw [rows_eq]; rfl

theorem charAt_rows (g : Game) (x y : Nat) (hx : x < 8) (hy : y < 8) :
    charAt g.rows x y = squareChar g ⟨(x : Int), (y : Int)⟩ := by
  rw [rows_eq]
  interval_cases y <;> interval_cases x <;> rfl

theorem mem_rows (g : Game) (r : List Char) (c : Char) (hr : r ∈ g.rows) (hc : c ∈ r) :
    ∃ pos, c = squareChar g pos := by
  rw [rows_eq] at hr
  obtain ⟨y, _, hy⟩ := List.mem_map.mp hr
  rw [← hy] at hc
  obtain ⟨x, _, hx⟩ := List.mem_map.mp hc
  exact ⟨⟨x, y⟩, hx.symm⟩

theorem row_length (g : Game) (r : List Char) (hr : r ∈ g.rows) : r.length = 8 := by
  rw [rows_eq] at hr
  obtain ⟨y, _, hy⟩ := List.mem_map.mp hr
  rw [← hy]
  rfl

theorem Parse_String (g : Game) (h : g.wellPlaced) :
    ∃ g1, Parse g.String = some g1 ∧ g1.Pieces = g.Pieces := by
  have hsplit : splitBars g.String.toList = g.rows := by
    rw [String_eq_rows]
    show splitBars (List.intercalate ['|'] g.rows) = g.rows
    apply splitBars_intercalate
    · intro e
      have := rows_length g
      rw [e] at this
      exact absurd this (by decide)
    · intro r hr hbar
      obtain ⟨pos, hpos⟩ := mem_rows g r _ hr hbar
      exact (squareChar_cases g pos).1 hpos.symm
  have hcheck : g.rows.length = 8 ∧ (g.rows.all (fun r => decide (r.length = 8))) = true
      ∧ ((List.range 8).all (fun y => (List.range 8).all (fun x =>
            validSquare (charAt g.rows x y) ⟨(x : Int), (y : Int)⟩))) = true := by
    refine ⟨rows_length g, ?_, ?_⟩
    · rw [List.all_eq_true]
      intro r hr
      rw [row_length g r hr]
      rfl
    · rw [List.all_eq_true]
      intro y hy
      rw [List.all_eq_true]
      intro x hx
      rw [charAt_rows g x y (List.mem_range.mp hx) (List.mem_range.mp hy)]
      exact (squareChar_cases g _).2
  refine ⟨_, by unfold Parse; simp only [hsplit]; rw [if_pos hcheck], ?_⟩
  funext pos
  simp only
  by_cases hb : 0 ≤ pos.X ∧ pos.X < 8 ∧ 0 ≤ pos.Y ∧ pos.Y < 8
  · rw [if_pos hb]
    obtain ⟨h1, h2, h3, h4⟩ := hb
    rw [charAt_rows g pos.X.toNat pos.Y.toNat (by omega) (by omega)]
    have hpos : (⟨((pos.X.toNat : Nat) : Int), ((pos.Y.toNat : Nat) : Int)⟩ : Pos) = pos := by
      obtain ⟨x, y⟩ := pos
      simp only at h1 h3
      simp [Int.toNat_of_nonneg h1, Int.toNat_of_nonneg h3]
    rw [hpos]
    exact pieceOfChar_squareChar g h pos
  · rw [if_neg hb]
    cases hp : g.Pieces pos with
    | none => rfl
    | some piece =>
      exfalso
      have hu := (h pos _ hp).1
      unfold usable at hu
      simp only [Bool.and_eq_true, decide_eq_true_eq] at hu
      exact hb ⟨hu.1.1.1.1, hu.1.1.1.2, hu.1.1.2, hu.1.2⟩

/-- The encoding reads the pieces only. -/
theorem String_congr (g g1 : Game) (h : g1.Pieces = g.Pieces) : g1.String = g.String := by
  unfold Game.String squareChar
  rw [h]

theorem New_wellPlaced : New.wellPlaced := by
  intro pos piece hp
  unfold New at hp
  simp only at hp
  split_ifs at hp with hu h1 h2
  · rw [← Option.some.inj hp]; exact ⟨hu, by decide⟩
  · rw [← Option.some.inj hp]; exact ⟨hu, by decide⟩

/-- C19 (round trip): for a game whose pieces all stand on usable squares
(and belong to BLACK or RED), `Parse(game.String())` succeeds and returns a
game with the same piece at every position, whose encoding is the same string;
and the new game encodes to the string of the tests. -/
theorem C19_parse_string_round_trip (g : Game) (h : g.wellPlaced) :
    (∃ g1, Parse g.String = some g1 ∧ (∀ pos, g1.Pieces pos = g.Pieces pos)
        ∧ g1.String = g.String)
    ∧ New.String = "*b*b*b*b|b*b*b*b*|*b*b*b*b|********|********|r*r*r*r*|*r*r*r*r|r*r*r*r*" := by
  constructor
  · obtain ⟨g1, h1, h2⟩ := Parse_String g h
    exact ⟨g1, h1, fun pos => by rw [h2], String_congr g g1 h2⟩
  · decide

/-- C19 at the new game, the input of `TestParse`. -/
theorem C19_parse_string_round_trip_witness :
    New.wellPlaced
    ∧ (∃ g1, Parse New.String = some g1 ∧ (∀ pos, g1.Pieces pos = New.Pieces pos)
        ∧ g1.String = New.String)
    ∧ New.String = "*b*b*b*b|b*b*b*b*|*b*b*b*b|********|********|r*r*r*r*|*r*r*r*r|r*r*r*r*" :=
  ⟨New_wellPlaced, C19_parse_string_round_trip New New_wellPlaced⟩

end checkers

namespace Server

open checkers checkers.Player

/-! ## Spectator capacity, spectating, and the frame of the rules-engine states -/

theorem serviceMessage_SPECTATE (E : Env) (o : Oracle) (c : Client) (args : List String)
    (s : State) : serviceMessage E o ⟨c, "SPECTATE", args⟩ s = spectateGame E o c args s := by
  unfold serviceMessage supportedCommands
  simp

/-- What a successful `spectateGame` does to the spectator slice of the game:
the client is appended to the slice the implicit leave left, and the slice
was below capacity, so `append` wrote into the same backing array. -/
theorem spectateGame_append (E : Env) (o : Oracle) (c : Client) (args : List String) (s : State)
    (h : Inv s) (s2 : State) (hr : spectateGame E o c args s = some (none, s2)) :
    ∃ id gp l, args = [id] ∧ gamesGet s.Games id = some gp
      ∧ (s2.heap gp).Spectators = l ++ [c] ∧ l.length < spectatorsCap := by
  have hinv2 := (spectateGame_ok E o c args s h none s2 hr).1
  unfold spectateGame at hr
  split at hr
  · rename_i gameId
    split at hr
    · rename_i gp hgp
      obtain ⟨can, _, hr⟩ := Option.bind_eq_some.mp hr
      split at hr
      · simp at hr
      · obtain ⟨s1, _, hr⟩ := Option.bind_eq_some.mp hr
        obtain ⟨t, _, hr⟩ := Option.map_eq_some'.mp hr
        simp only [Option.some.injEq, Prod.mk.injEq, true_and] at hr
        have hs : (s2.heap gp).Spectators = (s1.heap gp).Spectators ++ [c] := by
          rw [← hr]
          simp [State.setGame]
        refine ⟨gameId, gp, (s1.heap gp).Spectators, rfl, hgp, hs, ?_⟩
        have hl := hinv2.spectators_len gp
        rw [hs, List.length_append] at hl
        simp only [List.length_singleton] at hl
        omega
    · simp at hr
  · simp at hr

/-- C21: in every state the coordinator reaches from the empty tables, every
game has at most 8 spectators and no client twice in its spectator slice;
`SPECTATE` on a game with 8 spectators fails with the state unchanged; and
every append of `spectateGame` is to a slice shorter than 8, so the capacity
`CanSpectate` compares against is the 8 of `make([]*Client, 0, 8)` throughout
(`append` below capacity and reslicing from index 0 both keep the capacity). -/
theorem C21_spectator_capacity (E : Env) (s : State) (hs : Reachable E s) :
    (∀ gp, (s.heap gp).Spectators.length ≤ 8 ∧ (s.heap gp).Spectators.Nodup)
    ∧ (∀ (o : Oracle) (c : Client) (id : String) (gp : Nat),
        gamesGet s.Games id = some gp → (s.heap gp).Spectators.length = 8 →
        serviceMessage E o ⟨c, "SPECTATE", [id]⟩ s
          = some (some "game is not available for spectating", s))
    ∧ (∀ (o : Oracle) (c : Client) (args : List String) (s2 : State),
        serviceMessage E o ⟨c, "SPECTATE", args⟩ s = some (none, s2) →
        ∃ id gp l, args = [id] ∧ gamesGet s.Games id = some gp
          ∧ (s2.heap gp).Spectators = l ++ [c] ∧ l.length < 8) := by
  have hinv := Reachable_inv E s hs
  refine ⟨fun gp => ⟨hinv.spectators_len gp, hinv.spectators_nodup gp⟩, ?_, ?_⟩
  · intro o c id gp hgp hlen
    rw [serviceMessage_SPECTATE]
    unfold spectateGame
    simp only [hgp]
    have hcan : (s.heap gp).CanSpectate E = some false := by
      unfold Game.CanSpectate
      rw [SeatsFilled_eq _ (hinv.no_player_seat gp)]
      simp [hlen, spectatorsCap]
    rw [hcan]
    simp
  · intro o c args s2 hr
    rw [serviceMessage_SPECTATE] at hr
    exact spectateGame_append E o c args s hinv s2 hr

/-- C21 at a sample input: two players and eight spectators; the `SPECTATE`
of client 11 fails. -/
theorem C21_spectator_capacity_witness :
    Reachable specEnv fullHouseState
    ∧ gamesGet fullHouseState.Games sampleId = some 0
    ∧ (fullHouseState.heap 0).Spectators = [3, 4, 5, 6, 7, 8, 9, 10]
    ∧ (∀ gp, (fullHouseState.heap gp).Spectators.length ≤ 8
        ∧ (fullHouseState.heap gp).Spectators.Nodup)
    ∧ serviceMessage specEnv sampleOracle ⟨11, "SPECTATE", [sampleId]⟩ fullHouseState
        = some (some "game is not available for spectating", fullHouseState) :=
  ⟨stateAfter_reachable _, by decide, by decide,
    (C21_spectator_capacity specEnv fullHouseState (stateAfter_reachable _)).1,
    (C21_spectator_capacity specEnv fullHouseState (stateAfter_reachable _)).2.1
      sampleOracle 11 sampleId 0 (by decide) (by decide)⟩

/-- What `leaveGame` leaves untouched, in every state: the rules-engine state
of every game, the allocation counter, the table `Games`, and the seats of every game other than
the one `Players[client]` points at. -/
theorem leaveGame_frame (o : Oracle) (c : Client) (args : List String) (s : State)
    (e : Option String) (s1 : State) (hr : leaveGame o c args s = some (e, s1)) :
    (∀ g, (s1.heap g).GameState = (s.heap g).GameState) ∧ s1.next = s.next
    ∧ s1.Games = s.Games ∧ (∀ g, s.Players c ≠ some g → (s1.heap g).Players = (s.heap g).Players) := by
  unfold leaveGame at hr
  by_cases hargs : args.length > 0
  · simp only [hargs, if_true, Option.some.injEq, Prod.mk.injEq] at hr
    obtain ⟨_, rfl⟩ := hr
    exact ⟨fun _ => rfl, rfl, rfl, fun _ _ => rfl⟩
  · simp only [hargs, if_false] at hr
    split at hr
    · rename_i gp hgp
      split at hr
      · rename_i p hp
        obtain ⟨t, _, hr⟩ := Option.map_eq_some'.mp hr
        simp only [Prod.mk.injEq] at hr
        obtain ⟨_, rfl⟩ := hr
        refine ⟨fun g => ?_, ?_, ?_, fun g hg => ?_⟩
        · simp only [Broadcast_heap, State.setGame, Function.update_apply]
          split_ifs with hx
          · subst hx; rfl
          · rfl
        · simp only [Broadcast_next]
          rfl
        · simp only [Broadcast_Games]
          rfl
        · simp only [Broadcast_heap]
          have hne : g ≠ gp := fun e => hg (by rw [hgp, e])
          simp [State.setGame, Function.update_noteq hne]
      · simp only [Option.some.injEq, Prod.mk.injEq] at hr
        obtain ⟨_, rfl⟩ := hr
        exact ⟨fun _ => rfl, rfl, rfl, fun _ _ => rfl⟩
    · split at hr
      · rename_i gp hgp
        obtain ⟨l, _, hr⟩ := Option.map_eq_some'.mp hr
        simp only [Prod.mk.injEq] at hr
        obtain ⟨_, rfl⟩ := hr
        refine ⟨fun g => ?_, rfl, rfl, fun g _ => ?_⟩
        · simp only [State.setGame, Function.update_apply]
          split_ifs with hx
          · subst hx; rfl
          · rfl
        · simp only [State.setGame, Function.update_apply]
          split_ifs with hx
          · subst hx; rfl
          · rfl
      · simp only [Option.some.injEq, Prod.mk.injEq] at hr
        obtain ⟨_, rfl⟩ := hr
        exact ⟨fun _ => rfl, rfl, rfl, fun _ _ => rfl⟩

theorem leaveIfInGame_frame (o : Oracle) (c : Client) (s s1 : State)
    (hr : leaveIfInGame o c s = some s1) :
    (∀ g, (s1.heap g).GameState = (s.heap g).GameState) ∧ s1.next = s.next
    ∧ s1.Games = s.Games ∧ (∀ g, s.Players c ≠ some g → (s1.heap g).Players = (s.heap g).Players) := by
  unfold leaveIfInGame at hr
  split at hr
  · obtain ⟨r, h1, h2⟩ := Option.map_eq_some'.mp hr
    subst h2
    exact leaveGame_frame o c [] s r.1 r.2 h1
  · simp only [Option.some.injEq] at hr
    subst hr
    exact ⟨fun _ => rfl, rfl, rfl, fun _ _ => rfl⟩

theorem CanSpectate_true (E : Env) (game : Game) (h : game.Players NO_PLAYER = none)
    (hc : game.CanSpectate E = some true) :
    game.SeatsFilled = some true ∧ game.HasWinner E = false
      ∧ (game.Players BLACK_PLAYER).isSome = true ∧ (game.Players RED_PLAYER).isSome = true := by
  unfold Game.CanSpectate at hc
  rw [SeatsFilled_eq game h] at hc ⊢
  simp only [Option.map_some', Option.some.injEq, Bool.and_eq_true, Bool.not_eq_true',
    decide_eq_true_eq] at hc
  obtain ⟨⟨⟨hb, hr⟩, hw⟩, _⟩ := hc
  simp [hb, hr, hw]

/-- The result of a successful `spectateGame` in terms of the state `s1` the
implicit leave produced. -/
theorem spectateGame_some (E : Env) (o : Oracle) (c : Client) (args : List String) (s : State)
    (s2 : State) (hr : spectateGame E o c args s = some (none, s2)) :
    ∃ id gp s1 t, args = [id] ∧ gamesGet s.Games id = some gp
      ∧ (s.heap gp).CanSpectate E = some true ∧ leaveIfInGame o c s = some s1
      ∧ Game.Turn { s1.heap gp with Spectators := (s1.heap gp).Spectators ++ [c] } = some t
      ∧ s2.heap gp = { s1.heap gp with Spectators := (s1.heap gp).Spectators ++ [c] }
      ∧ s2.Spectators c = some gp
      ∧ s2.Messages c = s1.Messages c ++ ["STATUS GAME_ID " ++ id,
          "STATUS BOARD " ++ E.String (s1.heap gp).GameState, "STATUS TURN " ++ t] := by
  unfold spectateGame at hr
  split at hr
  · rename_i gameId
    split at hr
    · rename_i gp hgp
      obtain ⟨can, hcan, hr⟩ := Option.bind_eq_some.mp hr
      split at hr
      · simp at hr
      · rename_i hc
        obtain ⟨s1, hs1, hr⟩ := Option.bind_eq_some.mp hr
        obtain ⟨t, ht, hr⟩ := Option.map_eq_some'.mp hr
        simp only [Option.some.injEq, Prod.mk.injEq, true_and] at hr
        have hc2 : can = true := by simpa using hc
        subst hc2
        refine ⟨gameId, gp, s1, t, rfl, hgp, hcan, hs1, ht, ?_, ?_, ?_⟩
        · rw [← hr]; simp [State.setGame]
        · rw [← hr]; simp [State.setGame]
        · rw [← hr]
          simp [send_Messages, State.setGame]
    · simp at hr
  · simp at hr

/-- C22 fails when a seated player spectates the own game: clients 1 and 2
hold the seats of game 0, both filled; client 1 sends `SPECTATE` with the id
of that game; the command succeeds, client 1 spectates game 0, and when the
handler returns the RED seat is open and the turn is told as `waiting`. -/
theorem C22_player_spectates_own_game :
    Reachable specEnv twoPlayersState
    ∧ twoPlayersState.Players 1 = some 0
    ∧ gamesGet twoPlayersState.Games sampleId = some 0
    ∧ (twoPlayersState.heap 0).SeatsFilled = some true
    ∧ (serviceMessage specEnv sampleOracle ⟨1, "SPECTATE", [sampleId]⟩ twoPlayersState).map
        (fun r => (r.1, r.2.Spectators 1, (r.2.heap 0).SeatsFilled))
      = some (none, some 0, some false)
    ∧ (serviceMessage specEnv sampleOracle ⟨1, "SPECTATE", [sampleId]⟩ twoPlayersState).map
        (fun r => ((r.2.heap 0).Players RED_PLAYER, (r.2.Messages 1).getLast?))
      = some (none, some "STATUS TURN waiting") :=
  ⟨stateAfter_reachable _, by decide, by decide, by decide, by decide, by decide⟩

/-- C22 as amended: in every reachable state, when a `SPECTATE` command
succeeds, the game the client now spectates had both seats filled and no
winner when the handler was entered, and has no winner when it returns; when
it returns both seats are filled unless the client held a seat of that same
game before the command: then that seat is open and the turn sent to the
client is `waiting`. -/
theorem C22_spectate_checked_on_entry (E : Env) (s : State) (hs : Reachable E s) (o : Oracle)
    (c : Client) (args : List String) (s2 : State)
    (hr : serviceMessage E o ⟨c, "SPECTATE", args⟩ s = some (none, s2)) :
    ∃ id gp, args = [id] ∧ gamesGet s.Games id = some gp
      ∧ s2.Spectators c = some gp ∧ c ∈ (s2.heap gp).Spectators
      ∧ (s.heap gp).SeatsFilled = some true ∧ (s.heap gp).HasWinner E = false
      ∧ (s2.heap gp).HasWinner E = false
      ∧ (s.Players c ≠ some gp → (s2.heap gp).SeatsFilled = some true)
      ∧ (s.Players c = some gp →
          (s2.heap gp).SeatsFilled = some false
          ∧ (∃ p, (s.heap gp).Players p = some c ∧ (s2.heap gp).Players p = none)
          ∧ s2.Messages c = s.Messages c ++ ["STATUS GAME_ID " ++ id,
              "STATUS BOARD " ++ E.String (s.heap gp).GameState, "STATUS TURN waiting"]) := by
  have hinv := Reachable_inv E s hs
  rw [serviceMessage_SPECTATE] at hr
  obtain ⟨id, gp, s1, t, hargs, hgp, hcan, hs1, ht, hheap, hspec, hmsg⟩ :=
    spectateGame_some E o c args s s2 hr
  obtain ⟨hfilled, hwin, hb, hrd⟩ := CanSpectate_true E _ (hinv.no_player_seat gp) hcan
  obtain ⟨hinv1, hp1, hsp1, _, _, _, _, hgs⟩ := leaveIfInGame_ok o c s hinv s1 hs1
  obtain ⟨_, _, _, hseats⟩ := leaveIfInGame_frame o c s s1 hs1
  have hno2 : (s2.heap gp).Players NO_PLAYER = none := by
    rw [hheap]; exact hinv1.no_player_seat gp
  refine ⟨id, gp, hargs, hgp, hspec, ?_, hfilled, hwin, ?_, ?_, ?_⟩
  · rw [hheap]; simp
  · unfold Game.HasWinner at hwin ⊢
    rw [hheap]
    simp only []
    rw [hgs gp]
    exact hwin
  · intro hne
    rw [SeatsFilled_eq _ hno2, hheap]
    simp only []
    rw [hseats gp hne, hb, hrd]
    rfl
  · intro hpl
    obtain ⟨p, hp⟩ := hinv.player_seat c gp hpl
    obtain ⟨s1', hl, hinv1', _, hspecs, _, _, hheap1, hmsgs⟩ := leaveGame_player o c s hinv gp p hp
    have hin : IsInGame s c = true := by simp [IsInGame, IsPlayer, hpl]
    have hs1eq : s1 = s1' := by
      unfold leaveIfInGame at hs1
      rw [if_pos hin, hl] at hs1
      simp only [Option.map_some', Option.some.injEq] at hs1
      exact hs1.symm
    subst hs1eq
    have hpne : p ≠ NO_PLAYER := by
      intro e
      rw [e, hinv.no_player_seat gp] at hp
      exact Option.noConfusion hp
    have hpl1 : (s1.heap gp).Players = Function.update (s.heap gp).Players p none := by
      rw [hheap1]; simp
    have hfalse : ((Function.update (s.heap gp).Players p none BLACK_PLAYER).isSome
        && (Function.update (s.heap gp).Players p none RED_PLAYER).isSome) = false := by
      cases p
      all_goals simp [Function.update_apply] at hpne ⊢
    have hnot : ¬ (s1.heap gp).hasParticipant c := by
      intro hx
      rcases hx with ⟨q, hq⟩ | hx
      · have := hinv1.seat_player gp q c hq
        rw [hp1] at this
        exact Option.noConfusion this
      · have := (hinv1.spectator_iff c gp).mpr hx
        rw [hsp1] at this
        exact Option.noConfusion this
    have hsf : (s2.heap gp).SeatsFilled = some false := by
      rw [SeatsFilled_eq _ hno2, hheap]
      simp only []
      rw [hpl1, hfalse]
    refine ⟨hsf, ⟨p, hp, ?_⟩, ?_⟩
    · rw [hheap]
      simp only []
      rw [hpl1]
      simp
    · have htw : t = "waiting" := by
        have h2 := Turn_eq { s1.heap gp with Spectators := (s1.heap gp).Spectators ++ [c] }
          (hinv1.no_player_seat gp)
        rw [ht] at h2
        simp only [] at h2
        rw [hpl1, hfalse] at h2
        simpa using h2
      rw [hmsg, hgs gp, hmsgs c, if_neg hnot, htw, List.append_nil]
      rfl

/-- C22 as amended, at a sample input: client 3, in no game, spectates the
game of clients 1 and 2. -/
theorem C22_spectate_checked_on_entry_witness :
    Reachable specEnv twoPlayersState
    ∧ serviceMessage specEnv sampleOracle ⟨3, "SPECTATE", [sampleId]⟩ twoPlayersState
        = some (none, thirdSpectatesState)
    ∧ ∃ id gp, [sampleId] = [id] ∧ gamesGet twoPlayersState.Games id = some gp
      ∧ thirdSpectatesState.Spectators 3 = some gp ∧ 3 ∈ (thirdSpectatesState.heap gp).Spectators
      ∧ (twoPlayersState.heap gp).SeatsFilled = some true
      ∧ (twoPlayersState.heap gp).HasWinner specEnv = false
      ∧ (thirdSpectatesState.heap gp).HasWinner specEnv = false
      ∧ (twoPlayersState.Players 3 ≠ some gp →
          (thirdSpectatesState.heap gp).SeatsFilled = some true)
      ∧ (twoPlayersState.Players 3 = some gp →
          (thirdSpectatesState.heap gp).SeatsFilled = some false
          ∧ (∃ p, (twoPlayersState.heap gp).Players p = some 3
              ∧ (thirdSpectatesState.heap gp).Players p = none)
          ∧ thirdSpectatesState.Messages 3 = twoPlayersState.Messages 3 ++
              ["STATUS GAME_ID " ++ id,
               "STATUS BOARD " ++ specEnv.String (twoPlayersState.heap gp).GameState,
               "STATUS TURN waiting"]) :=
  ⟨stateAfter_reachable _, eq_some_of_fst _ none twoPlayersState (by decide),
    C22_spectate_checked_on_entry specEnv twoPlayersState (stateAfter_reachable _) sampleOracle 3
      [sampleId] thirdSpectatesState (eq_some_of_fst _ none twoPlayersState (by decide))⟩

theorem joinGame_frame (E : Env) (o : Oracle) (c : Client) (args : List String) (s : State)
    (e : Option String) (s2 : State) (hr : joinGame E o c args s = some (e, s2)) :
    (∀ g, (s2.heap g).GameState = (s.heap g).GameState) ∧ s2.next = s.next
      ∧ s2.Games = s.Games := by
  unfold joinGame at hr
  split at hr
  · rename_i gameId
    split at hr
    · rename_i gp hgp
      obtain ⟨filled, _, hr⟩ := Option.bind_eq_some.mp hr
      split at hr
      · simp only [Option.some.injEq, Prod.mk.injEq] at hr
        obtain ⟨_, rfl⟩ := hr
        exact ⟨fun _ => rfl, rfl, rfl⟩
      · obtain ⟨seats, _, hr⟩ := Option.bind_eq_some.mp hr
        obtain ⟨p, _, hr⟩ := Option.bind_eq_some.mp hr
        obtain ⟨s1, hs1, hr⟩ := Option.bind_eq_some.mp hr
        obtain ⟨t, _, hr⟩ := Option.map_eq_some'.mp hr
        simp only [Prod.mk.injEq] at hr
        obtain ⟨_, rfl⟩ := hr
        obtain ⟨h1, h2, h3, _⟩ := leaveIfInGame_frame o c s s1 hs1
        refine ⟨fun g => ?_, ?_, ?_⟩
        · rw [← h1 g]
          simp only [Broadcast_heap, send_heap, State.setGame, Function.update_apply]
          split_ifs with hx
          · subst hx; rfl
          · rfl
        · simp only [Broadcast_next, send_next]
          exact h2
        · simp only [Broadcast_Games, send_Games]
          exact h3
    · simp only [Option.some.injEq, Prod.mk.injEq] at hr
      obtain ⟨_, rfl⟩ := hr
      exact ⟨fun _ => rfl, rfl, rfl⟩
  · simp only [Option.some.injEq, Prod.mk.injEq] at hr
    obtain ⟨_, rfl⟩ := hr
    exact ⟨fun _ => rfl, rfl, rfl⟩

theorem spectateGame_frame (E : Env) (o : Oracle) (c : Client) (args : List String) (s : State)
    (e : Option String) (s2 : State) (hr : spectateGame E o c args s = some (e, s2)) :
    (∀ g, (s2.heap g).GameState = (s.heap g).GameState) ∧ s2.next = s.next
      ∧ s2.Games = s.Games := by
  unfold spectateGame at hr
  split at hr
  · rename_i gameId
    split at hr
    · rename_i gp hgp
      obtain ⟨can, _, hr⟩ := Option.bind_eq_some.mp hr
      split at hr
      · simp only [Option.some.injEq, Prod.mk.injEq] at hr
        obtain ⟨_, rfl⟩ := hr
        exact ⟨fun _ => rfl, rfl, rfl⟩
      · obtain ⟨s1, hs1, hr⟩ := Option.bind_eq_some.mp hr
        obtain ⟨t, _, hr⟩ := Option.map_eq_some'.mp hr
        simp only [Prod.mk.injEq] at hr
        obtain ⟨_, rfl⟩ := hr
        obtain ⟨h1, h2, h3, _⟩ := leaveIfInGame_frame o c s s1 hs1
        refine ⟨fun g => ?_, ?_, ?_⟩
        · rw [← h1 g]
          simp only [send_heap, State.setGame, Function.update_apply]
          split_ifs with hx
          · subst hx; rfl
          · rfl
        · simp only [send_next]
          exact h2
        · simp only [send_Games]
          exact h3
    · simp only [Option.some.injEq, Prod.mk.injEq] at hr
      obtain ⟨_, rfl⟩ := hr
      exact ⟨fun _ => rfl, rfl, rfl⟩
  · simp only [Option.some.injEq, Prod.mk.injEq] at hr
    obtain ⟨_, rfl⟩ := hr
    exact ⟨fun _ => rfl, rfl, rfl⟩

theorem listGames_frame (E : Env) (o : Oracle) (c : Client) (args : List String) (s : State)
    (e : Option String) (s2 : State) (hr : listGames E o c args s = some (e, s2)) :
    s2.heap = s.heap ∧ s2.next = s.next ∧ s2.Games = s.Games := by
  unfold listGames at hr
  simp only [] at hr
  split at hr
  · simp only [Option.some.injEq, Prod.mk.injEq] at hr
    obtain ⟨_, rfl⟩ := hr
    exact ⟨rfl, rfl, rfl⟩
  · obtain ⟨ids, _, hr⟩ := Option.map_eq_some'.mp hr
    split at hr
    all_goals
      simp only [Prod.mk.injEq] at hr
      obtain ⟨_, rfl⟩ := hr
      exact ⟨rfl, rfl, rfl⟩

theorem boardStatus_frame (E : Env) (c : Client) (args : List String) (s : State)
    (e : Option String) (s2 : State) (hr : boardStatus E c args s = some (e, s2)) :
    s2.heap = s.heap ∧ s2.next = s.next ∧ s2.Games = s.Games := by
  unfold boardStatus at hr
  split at hr
  · simp only [Option.some.injEq, Prod.mk.injEq] at hr
    obtain ⟨_, rfl⟩ := hr
    exact ⟨rfl, rfl, rfl⟩
  · split at hr
    all_goals
      simp only [Option.some.injEq, Prod.mk.injEq] at hr
      obtain ⟨_, rfl⟩ := hr
      exact ⟨rfl, rfl, rfl⟩

theorem turnStatus_frame (c : Client) (args : List String) (s : State)
    (e : Option String) (s2 : State) (hr : turnStatus c args s = some (e, s2)) :
    s2.heap = s.heap ∧ s2.next = s.next ∧ s2.Games = s.Games := by
  unfold turnStatus at hr
  split at hr
  · simp only [Option.some.injEq, Prod.mk.injEq] at hr
    obtain ⟨_, rfl⟩ := hr
    exact ⟨rfl, rfl, rfl⟩
  · split at hr
    · obtain ⟨t, _, hr⟩ := Option.map_eq_some'.mp hr
      simp only [Prod.mk.injEq] at hr
      obtain ⟨_, rfl⟩ := hr
      exact ⟨rfl, rfl, rfl⟩
    · simp only [Option.some.injEq, Prod.mk.injEq] at hr
      obtain ⟨_, rfl⟩ := hr
      exact ⟨rfl, rfl, rfl⟩

theorem quit_frame (o : Oracle) (c : Client) (args : List String) (s : State)
    (e : Option String) (s2 : State) (hr : quit o c args s = some (e, s2)) :
    (∀ g, (s2.heap g).GameState = (s.heap g).GameState) ∧ s2.next = s.next
      ∧ s2.Games = s.Games := by
  unfold quit at hr
  split at hr
  · simp only [Option.some.injEq, Prod.mk.injEq] at hr
    obtain ⟨_, rfl⟩ := hr
    exact ⟨fun _ => rfl, rfl, rfl⟩
  · split at hr
    · obtain ⟨h1, h2, h3, _⟩ := leaveGame_frame o c [] s e s2 hr
      exact ⟨h1, h2, h3⟩
    · simp only [Option.some.injEq, Prod.mk.injEq] at hr
      obtain ⟨_, rfl⟩ := hr
      exact ⟨fun _ => rfl, rfl, rfl⟩

/-- What `move` leaves untouched, in every state: every game object other
than the one `Players[client]` points at. -/
theorem move_frame (E : Env) (c : Client) (args : List String) (s : State)
    (e : Option String) (s2 : State) (hr : move E c args s = some (e, s2)) :
    (∀ g, s.Players c ≠ some g → s2.heap g = s.heap g) ∧ s2.next = s.next
      ∧ s2.Games = s.Games := by
  unfold move at hr
  split at hr
  · rename_i gp hgp
    have hupd : ∀ (x : Game) (g : Nat), s.Players c ≠ some g → (s.setGame gp x).heap g = s.heap g := by
      intro x g hg
      have hne : g ≠ gp := fun e => hg (by rw [hgp, e])
      simp [State.setGame, Function.update_noteq hne]
    split at hr
    · simp only [Option.some.injEq, Prod.mk.injEq] at hr
      obtain ⟨_, rfl⟩ := hr
      exact ⟨fun _ _ => rfl, rfl, rfl⟩
    · rename_i src dst hpos
      split at hr
      · simp only [] at hr
        split at hr
        · simp only [Option.some.injEq, Prod.mk.injEq] at hr
          obtain ⟨_, rfl⟩ := hr
          exact ⟨fun g hg => hupd _ g hg, rfl, rfl⟩
        · obtain ⟨t, _, hr⟩ := Option.map_eq_some'.mp hr
          simp only [Prod.mk.injEq] at hr
          obtain ⟨_, rfl⟩ := hr
          refine ⟨fun g hg => ?_, ?_, ?_⟩
          · simp only [Broadcast_heap]
            split_ifs <;> simp only [Broadcast_heap] <;> exact hupd _ g hg
          · simp only [Broadcast_next]
            split_ifs <;> simp only [Broadcast_next] <;> rfl
          · simp only [Broadcast_Games]
            split_ifs <;> simp only [Broadcast_Games] <;> rfl
      · simp only [Option.some.injEq, Prod.mk.injEq] at hr
        obtain ⟨_, rfl⟩ := hr
        exact ⟨fun _ _ => rfl, rfl, rfl⟩
  · simp only [Option.some.injEq, Prod.mk.injEq] at hr
    obtain ⟨_, rfl⟩ := hr
    exact ⟨fun _ _ => rfl, rfl, rfl⟩

/-- What `newGame` does to the games, in every state: on an error nothing;
otherwise it allocates one game object, in the initial position, registers it
under the generated id, and changes the rules-engine state of no other. -/
theorem newGame_frame (E : Env) (o : Oracle) (c : Client) (args : List String) (s : State)
    (e : Option String) (s2 : State) (hr : newGame E o c args s = some (e, s2)) :
    (∃ err, e = some err ∧ s2 = s)
    ∨ (e = none ∧ s2.next = s.next + 1
        ∧ s2.Games = gamesSet s.Games (generateGameId o.rand 16) s.next
        ∧ (s2.heap s.next).GameState = E.New
        ∧ ∀ g, g ≠ s.next → (s2.heap g).GameState = (s.heap g).GameState) := by
  unfold newGame at hr
  split at hr
  · simp only [Option.some.injEq, Prod.mk.injEq] at hr
    exact Or.inl ⟨_, hr.1.symm, hr.2.symm⟩
  · split at hr
    · simp only [Option.some.injEq, Prod.mk.injEq] at hr
      exact Or.inl ⟨_, hr.1.symm, hr.2.symm⟩
    · right
      simp only [] at hr
      obtain ⟨h1, h2, h3⟩ := joinGame_frame E o c _ _ e s2 hr
      have he : e = none := by
        unfold joinGame at hr
        simp only [gamesGet_gamesSet, NewGame, if_pos, Function.update_same] at hr
        have hsf : Game.SeatsFilled ⟨generateGameId o.rand 16, fun _ => none, [], E.New⟩
            = some false := rfl
        rw [hsf] at hr
        simp only [Option.some_bind, Bool.false_eq_true, if_false] at hr
        obtain ⟨seats, _, hr⟩ := Option.bind_eq_some.mp hr
        obtain ⟨p, _, hr⟩ := Option.bind_eq_some.mp hr
        obtain ⟨s1, hs1, hr⟩ := Option.bind_eq_some.mp hr
        obtain ⟨t, _, hr⟩ := Option.map_eq_some'.mp hr
        simp only [Prod.mk.injEq] at hr
        exact hr.1.symm
      refine ⟨he, h2, h3, ?_, fun g hg => ?_⟩
      · rw [h1]
        simp [NewGame]
      · rw [h1]
        simp [Function.update_noteq hg]

theorem serviceMessages_heap (E : Env) (o : Oracle) (m : ClientMessage) (s s2 : State)
    (hr : serviceMessages E o m s = some s2) :
    ∃ r, serviceMessage E o m s = some r ∧ s2.heap = r.2.heap ∧ s2.next = r.2.next := by
  unfold serviceMessages at hr
  obtain ⟨r, h1, h2⟩ := Option.map_eq_some'.mp hr
  refine ⟨r, h1, ?_, ?_⟩
  · rw [← h2]; split <;> rfl
  · rw [← h2]; split <;> rfl

/-- The effect of one command other than `MOVE` on the rules-engine states. -/
theorem serviceMessage_frame (E : Env) (o : Oracle) (m : ClientMessage) (s : State)
    (e : Option String) (s2 : State) (hr : serviceMessage E o m s = some (e, s2))
    (hm : m.Cmd ≠ "MOVE") :
    s.next ≤ s2.next ∧ (m.Cmd ≠ "NEW" → s2.next = s.next)
      ∧ ∀ g, (g ≠ s.next ∨ m.Cmd ≠ "NEW") → (s2.heap g).GameState = (s.heap g).GameState := by
  unfold serviceMessage supportedCommands at hr
  split_ifs at hr with h1
  · rcases newGame_frame E o _ _ s e s2 hr with ⟨err, _, rfl⟩ | ⟨_, hn, _, _, hg⟩
    · exact ⟨le_refl _, fun _ => rfl, fun _ _ => rfl⟩
    · refine ⟨by omega, fun h => absurd h1 h, fun g hgn => ?_⟩
      rcases hgn with hgn | hgn
      · exact hg g hgn
      · exact absurd h1 hgn
  · obtain ⟨a, b, _⟩ := listGames_frame E o _ _ s e s2 hr
    exact ⟨by omega, fun _ => b, fun g _ => by rw [a]⟩
  · obtain ⟨a, b, _⟩ := joinGame_frame E o _ _ s e s2 hr
    exact ⟨by omega, fun _ => b, fun g _ => a g⟩
  · obtain ⟨a, b, _⟩ := leaveGame_frame o _ _ s e s2 hr
    exact ⟨by omega, fun _ => b, fun g _ => a g⟩
  · obtain ⟨a, b, _⟩ := boardStatus_frame E _ _ s e s2 hr
    exact ⟨by omega, fun _ => b, fun g _ => by rw [a]⟩
  · obtain ⟨a, b, _⟩ := turnStatus_frame _ _ s e s2 hr
    exact ⟨by omega, fun _ => b, fun g _ => by rw [a]⟩
  · obtain ⟨a, b, _⟩ := spectateGame_frame E o _ _ s e s2 hr
    exact ⟨by omega, fun _ => b, fun g _ => a g⟩
  · obtain ⟨a, b, _⟩ := quit_frame o _ _ s e s2 hr
    exact ⟨by omega, fun _ => b, fun g _ => a g⟩
  · simp only [Option.some.injEq, Prod.mk.injEq] at hr
    obtain ⟨_, rfl⟩ := hr
    exact ⟨le_refl _, fun _ => rfl, fun _ _ => rfl⟩

/-- A run of commands none of which is `MOVE` changes the rules-engine state
of no game object allocated before the run. -/
theorem runMessages_frame (E : Env) (l : List (Oracle × ClientMessage)) :
    ∀ (s s2 : State), (∀ x ∈ l, x.2.Cmd ≠ "MOVE") → runMessages E l s = some s2 →
      s.next ≤ s2.next ∧ ∀ g, g < s.next → (s2.heap g).GameState = (s.heap g).GameState := by
  induction l with
  | nil =>
    intro s s2 _ h
    simp only [runMessages, Option.some.injEq] at h
    subst h
    exact ⟨le_refl _, fun _ _ => rfl⟩
  | cons x l ih =>
    intro s s2 hl h
    obtain ⟨o, m⟩ := x
    simp only [runMessages] at h
    obtain ⟨s1, h1, h2⟩ := Option.bind_eq_some.mp h
    obtain ⟨r, hr, hh, hn⟩ := serviceMessages_heap E o m s s1 h1
    obtain ⟨a, _, b⟩ := serviceMessage_frame E o m s r.1 r.2 hr (hl (o, m) (List.mem_cons_self _ _))
    obtain ⟨c1, c2⟩ := ih s1 s2 (fun y hy => hl y (List.mem_cons_of_mem _ hy)) h2
    rw [hn] at c1 c2
    refine ⟨by omega, fun g hg => ?_⟩
    rw [c2 g (by omega), hh]
    exact b g (Or.inl (by omega))

theorem eq_some_getD (x : Option State) (d : State) (h : x.isSome = true) :
    x = some (x.getD d) := by
  cases x with
  | none => exact Bool.noConfusion h
  | some r => rfl

/-- C23: in every coordinator state, a command `LIST`, `JOIN`, `SPECTATE`,
`LEAVE`, `BOARD`, `TURN` or `QUIT` allocates no game and leaves the
rules-engine state (board and turn) of every game object as it was; `NEW`
leaves the rules-engine state of every game object other than the one it
allocates as it was, on success allocates exactly one object, registered
under the generated id and in the initial position, and on an error changes
nothing; `MOVE` leaves every game object other than the one `Players[client]`
points at as it was.  Hence a run of commands none of which is `MOVE` (a
`LEAVE` of one client, then a `JOIN` of another) leaves the rules-engine state
of every game allocated before the run as it was. -/
theorem C23_rules_engine_frame (E : Env) (s : State) :
    (∀ (o : Oracle) (m : ClientMessage) (e : Option String) (s2 : State),
      serviceMessage E o m s = some (e, s2) →
        (m.Cmd ∈ ["LIST", "JOIN", "SPECTATE", "LEAVE", "BOARD", "TURN", "QUIT"] →
          s2.next = s.next ∧ ∀ g, (s2.heap g).GameState = (s.heap g).GameState)
        ∧ (m.Cmd = "NEW" →
            (∀ g, g ≠ s.next → (s2.heap g).GameState = (s.heap g).GameState)
            ∧ (e = none → s2.next = s.next + 1 ∧ (s2.heap s.next).GameState = E.New
                ∧ gamesGet s2.Games (generateGameId o.rand 16) = some s.next)
            ∧ (e ≠ none → s2 = s))
        ∧ (m.Cmd = "MOVE" →
            s2.next = s.next ∧ ∀ g, s.Players m.Client ≠ some g → s2.heap g = s.heap g))
    ∧ (∀ (l : List (Oracle × ClientMessage)) (s2 : State),
        (∀ x ∈ l, x.2.Cmd ≠ "MOVE") → runMessages E l s = some s2 →
        ∀ g, g < s.next → (s2.heap g).GameState = (s.heap g).GameState) := by
  refine ⟨fun o m e s2 hr => ⟨fun hm => ?_, fun hm => ?_, fun hm => ?_⟩,
    fun l s2 hl hr => (runMessages_frame E l s s2 hl hr).2⟩
  · have h1 : m.Cmd ≠ "MOVE" := by
      intro h
      rw [h] at hm
      revert hm
      decide
    have h2 : m.Cmd ≠ "NEW" := by
      intro h
      rw [h] at hm
      revert hm
      decide
    obtain ⟨_, a, b⟩ := serviceMessage_frame E o m s e s2 hr h1
    exact ⟨a h2, fun g => b g (Or.inr h2)⟩
  · have hr2 : newGame E o m.Client m.CmdArgs s = some (e, s2) := by
      unfold serviceMessage supportedCommands at hr
      rw [if_pos hm] at hr
      exact hr
    rcases newGame_frame E o _ _ s e s2 hr2 with ⟨err, he, rfl⟩ | ⟨he, hn, hg, hnew, hfr⟩
    · refine ⟨fun _ _ => rfl, fun h => ?_, fun _ => rfl⟩
      rw [he] at h
      exact Option.noConfusion h
    · refine ⟨hfr, fun _ => ⟨hn, hnew, ?_⟩, fun h => absurd he h⟩
      rw [hg, gamesGet_gamesSet, if_pos rfl]
  · have hr2 : move E m.Client m.CmdArgs s = some (e, s2) := by
      unfold serviceMessage supportedCommands at hr
      rw [hm] at hr
      simpa using hr
    obtain ⟨a, b, _⟩ := move_frame E _ _ s e s2 hr2
    exact ⟨b, a⟩

/-- C23 at a sample input: clients 1 and 2 play and client 2 has moved, so
RED is to move; client 1 leaves and client 3 joins: client 3 is seated in the
game, whose board and turn are the ones client 1 left. -/
theorem C23_rules_engine_frame_witness :
    runMessages specEnv
        [(sampleOracle, ⟨1, "LEAVE", []⟩), (sampleOracle, ⟨3, "JOIN", [sampleId]⟩)] movedState
      = some inheritedState
    ∧ movedState.next = 1
    ∧ movedState.Players 1 = some 0
    ∧ inheritedState.Players 1 = none
    ∧ inheritedState.Players 3 = some 0
    ∧ (movedState.heap 0).GameState.Turn = RED_PLAYER
    ∧ (∀ g, g < movedState.next →
        (inheritedState.heap g).GameState = (movedState.heap g).GameState) :=
  ⟨eq_some_getD _ movedState (by decide), by decide, by decide, by decide, by decide, by decide,
    (C23_rules_engine_frame specEnv movedState).2
      [(sampleOracle, ⟨1, "LEAVE", []⟩), (sampleOracle, ⟨3, "JOIN", [sampleId]⟩)] inheritedState
      (by decide) (eq_some_getD _ movedState (by decide))⟩

end Server
